import Mathlib

/-!
# l3afd: the per-program lifecycle of `kf/bpf.go`

A shallow embedding of the functions of `kf/bpf.go` that fetch, load, chain,
start and stop a BPF program, followed by the properties proved about them.

Go strings are modelled by `String`; Go maps by association lists given in
the order in which a `range` loop visits them; calls into the operating
system and the kernel are answered by an explicit environment and recorded
in an explicit trace.
-/

namespace L3afd

/-- Results of fallible calls can be compared. -/
instance instDecidableEqExcept {ε α : Type} [DecidableEq ε] [DecidableEq α] :
    DecidableEq (Except ε α)
  | .ok a, .ok b => if h : a = b then isTrue (by rw [h]) else isFalse (by intro h2; cases h2; exact h rfl)
  | .error a, .error b => if h : a = b then isTrue (by rw [h]) else isFalse (by intro h2; cases h2; exact h rfl)
  | .ok _, .error _ => isFalse (by intro h; cases h)
  | .error _, .ok _ => isFalse (by intro h; cases h)

/-! ## Strings -/

/-- Go `len(s)`: the number of bytes of `s`. -/
def len (s : String) : Nat := s.utf8ByteSize

/-- Go `strings.Contains` on character lists. -/
def containsChars (s sub : List Char) : Bool :=
  s.tails.any (fun t => sub.isPrefixOf t)

/-- Go `strings.Contains(s, sub)`. -/
def Contains (s sub : String) : Bool :=
  containsChars s.data sub.data

/-- Go `strings.HasPrefix(s, p)`. -/
def HasPrefix (s p : String) : Bool :=
  p.data.isPrefixOf s.data

/-- Go `strings.HasSuffix(s, p)`. -/
def HasSuffix (s p : String) : Bool :=
  p.data.isSuffixOf s.data

/-- Go `strings.Split(s, ".")[0]`: the part of `s` before its first dot. -/
def splitDotFirst (s : String) : String :=
  ⟨s.data.takeWhile (fun c => c != '.')⟩

/-! ## `path/filepath` on Unix

`filepath.Clean` and `filepath.Join` belong to the Go standard library. They
are modelled on path elements, following the four rules of the documentation
of `Clean`: separators are collapsed, `.` elements are dropped, an inner `..`
removes the element before it, and a `..` that begins a rooted path is
dropped; the empty result is `.`.
-/

/-- The path separator `os.PathSeparator`. -/
def PathSeparator : String := "/"

/-- Cut a path at every separator. -/
def splitSep : List Char → List (List Char)
  | [] => [[]]
  | c :: cs =>
    if c = '/' then [] :: splitSep cs
    else
      match splitSep cs with
      | [] => [[c]]
      | e :: es => (c :: e) :: es

/-- Put path elements together with one separator between neighbours. -/
def joinSep : List (List Char) → List Char
  | [] => []
  | [e] => e
  | e :: es => e ++ '/' :: joinSep es

/-- One element of the loop of `Clean`; `out` holds the elements written so
far, the last one first. -/
def cleanStep (rooted : Bool) (out : List (List Char)) (e : List Char) : List (List Char) :=
  if e = [] ∨ e = ['.'] then out
  else if e = ['.', '.'] then
    match out with
    | top :: rest =>
      if top = ['.', '.'] then (if rooted then out else e :: out) else rest
    | [] => if rooted then [] else [e]
  else e :: out

/-- The elements `Clean` keeps, in path order. -/
def cleanElems (rooted : Bool) (p : List Char) : List (List Char) :=
  ((splitSep p).foldl (cleanStep rooted) []).reverse

/-- Go `filepath.Clean` on characters. -/
def cleanChars (p : List Char) : List Char :=
  if p = [] then ['.']
  else
    let rooted := p.head? = some '/'
    let body := joinSep (cleanElems rooted p)
    if rooted then '/' :: body
    else if body = [] then ['.'] else body

/-- Go `filepath.Clean`. -/
def Clean (p : String) : String := ⟨cleanChars p.data⟩

/-- Go `strings.Join(elems, "/")` on characters. -/
def joinRaw : List String → List Char
  | [] => []
  | [e] => e.data
  | e :: es => e.data ++ '/' :: joinRaw es

/-- Go `filepath.Join`: leading empty elements are skipped, the rest is
joined with separators and cleaned; all empty gives the empty string. -/
def Join (elems : List String) : String :=
  match elems.dropWhile (fun e => e = "") with
  | [] => ""
  | es => ⟨cleanChars (joinRaw es)⟩

/-- Go `path.Join`: empty elements are ignored, the rest is joined with
slashes and cleaned. -/
def pathJoin (elems : List String) : String :=
  match elems.filter (fun e => e ≠ "") with
  | [] => ""
  | es => ⟨cleanChars (joinRaw es)⟩

/-! ## `ValidatePath` -/

/-- Source `ValidatePath(filePath, destination)`. -/
def ValidatePath (filePath destination : String) : Except String String :=
  let destpath := Join [destination, filePath]
  if Contains filePath ".." then
    .error "file contains filepath that includes (..)"
  else if !HasPrefix destpath (Clean destination ++ PathSeparator) then
    .error "illegal file path"
  else
    .ok destpath

/-! ## Data model -/

/-- A value of a Go `map[string]interface{}`: a string, or a value of any
other dynamic type. -/
inductive Value where
  | str (s : String)
  | other
  deriving DecidableEq, Repr

/-- A Go `map[string]interface{}`, listed in the order in which the `range`
loop at hand visits it. -/
abbrev ArgMap := List (String × Value)

/-- Program type `models.XDPType`. -/
def XDPType : String := "xdp"

/-- Program type `models.TCType`. -/
def TCType : String := "tc"

/-- Pin directory of tc maps, `models.TCMapPinPath`. -/
def TCMapPinPath : String := "tc/globals"

/-- Value `models.UpdateType` of the `--cmd` flag. -/
def UpdateType : String := "update"

/-- Direction `models.IngressType`. -/
def IngressType : String := "ingress"

/-- Direction `models.EgressType`. -/
def EgressType : String := "egress"

/-- A monitor-map declaration, `models.L3afDNFMetricsMap`. -/
structure MonitorMap where
  Name : String
  Key : Int
  Aggregator : String
  deriving DecidableEq, Repr

/-- The fields of `models.BPFProgram` that `bpf.go` reads. -/
structure BPFProgram where
  Name : String := ""
  Artifact : String := ""
  MapName : String := ""
  Version : String := ""
  CmdStart : String := ""
  CmdStop : String := ""
  CmdStatus : String := ""
  CmdUpdate : String := ""
  CmdConfig : String := ""
  ConfigFilePath : String := ""
  UserProgramDaemon : Bool := false
  ProgType : String := ""
  SeqID : Nat := 0
  StartArgs : ArgMap := []
  StopArgs : ArgMap := []
  StatusArgs : ArgMap := []
  UpdateArgs : ArgMap := []
  MapArgs : ArgMap := []
  MonitorMaps : List MonitorMap := []
  ObjectFile : String := ""
  EntryFunctionName : String := ""
  RulesFile : String := ""
  Rules : String := ""
  EPRURL : String := ""
  deriving DecidableEq, Repr

/-- The fields of `config.Config` that `bpf.go` reads. -/
structure Config where
  BpfMapDefaultPath : String := ""
  BPFDir : String := ""
  BPFLogDir : String := ""
  BpfChainingEnabled : Bool := false
  EBPFRepoURL : String := ""
  HttpClientTimeout : Nat := 0
  deriving DecidableEq, Repr

/-- What `(*ebpf.Program).Info` and `ProgramInfo.ID` give for a loaded
program: `Info = none` when `Info()` fails, `Info = some none` when the ID is
not available. -/
structure KProg where
  FD : Nat
  Info : Option (Option Nat)
  deriving DecidableEq, Repr

/-- A map of a loaded collection, with the answers of `Info`, `MapInfo.ID`,
`KeySize` and `ValueSize`. -/
structure KMap where
  Info : Option (Option Nat)
  MapType : Nat := 0
  KeySize : Nat
  ValueSize : Nat
  deriving DecidableEq, Repr

/-- An `ebpf.Collection`: programs and maps by name, in `range` order. -/
structure Collection where
  Programs : List (String × KProg)
  Maps : List (String × KMap)
  deriving DecidableEq, Repr

/-- A record of `BpfMaps`. -/
structure BPFMap where
  Name : String
  MapID : Nat
  MapType : Nat
  deriving DecidableEq, Repr

/-- A record of `MetricsBpfMaps`; `Values` is the length of the ring. -/
structure MetricsBPFMap where
  toBPFMap : BPFMap
  key : Int
  aggregator : String
  Values : Nat
  deriving DecidableEq, Repr

/-- An `exec.Cmd`; `Process` is the pid once the child exists. -/
structure Cmd where
  Path : String
  Args : List String
  Process : Option Nat
  deriving DecidableEq, Repr

/-- The runtime record `BPF`. -/
structure BPF where
  Program : BPFProgram
  Cmd : Option Cmd := none
  FilePath : String := ""
  RestartCount : Nat := 0
  PrevMapNamePath : String := ""
  MapNamePath : String := ""
  ProgID : Nat := 0
  BpfMaps : List (String × BPFMap) := []
  MetricsBpfMaps : List (String × MetricsBPFMap) := []
  Done : Bool := false
  ProgMapCollection : Option Collection := none
  ProgMapID : Nat := 0
  PrevProgMapID : Nat := 0
  hostConfig : Config
  TCFilter : Bool := false
  XDPLink : Bool := false
  deriving DecidableEq, Repr

/-- Lookup in a Go map. -/
def mapGet {α : Type} (m : List (String × α)) (k : String) : Option α :=
  (m.find? (fun p => p.1 = k)).map (fun p => p.2)

/-- Go `delete(m, k)`. -/
def mapDelete {α : Type} (m : List (String × α)) (k : String) : List (String × α) :=
  m.filter (fun p => p.1 ≠ k)

/-- Go `m[k] = v`. -/
def mapSet {α : Type} (m : List (String × α)) (k : String) (v : α) : List (String × α) :=
  if (m.find? (fun p => p.1 = k)).isSome then
    m.map (fun p => if p.1 = k then (k, v) else p)
  else m ++ [(k, v)]

/-! ## The world outside the daemon -/

/-- The answers of `os.Stat`. -/
inductive StatResult where
  | file
  | dir
  | notExist
  | otherErr
  deriving DecidableEq, Repr

/-- An entry of an archive together with what happens when it is unpacked:
`openErr` is an error of `file.Open` (zip only), `createErr` one of
`os.OpenFile` or `os.MkdirAll`, `copyErr` one of `io.CopyBuffer`. -/
structure Entry where
  Name : String
  IsDir : Bool := false
  openErr : Bool := false
  createErr : Bool := false
  copyErr : Bool := false
  deriving DecidableEq, Repr

/-- The downloaded bytes, described by what the two decoders make of them:
`zip = none` when `zip.NewReader` fails; `tarGz = none` when
`gzip.NewReader` fails, otherwise the entries that `tarReader.Next` yields
and whether the stream then ends in an error instead of `io.EOF`. -/
structure Buffer where
  zip : Option (List Entry) := none
  tarGz : Option (List Entry × Bool) := none
  deriving DecidableEq, Repr

/-- A parsed `url.URL`. -/
structure URL where
  Scheme : String
  Path : String
  deriving DecidableEq, Repr

/-- A row of the process table, as `ps.Processes` reports it. -/
structure Process where
  Pid : Nat
  PPid : Nat
  Executable : String
  deriving DecidableEq, Repr

/-- The calls the daemon makes into the operating system and the kernel. -/
inductive Event where
  | stat (path : String)
  | sleep
  | httpGet (url : URL)
  | osOpen (path : String)
  | mkdirAll (path : String)
  | openFile (path : String)
  | copyTo (path : String)
  | writeFile (path body : String)
  | assertExecutable (path : String)
  | exec (cmd : String) (args : List String)
  | wait (cmd : String)
  | processTerminate
  | setPrLimits
  | listProcesses
  | kill (pid : Nat)
  | removeMemlock
  | loadCollection (objectFile : String)
  | closeCollection
  | interfaceByName (iface : String)
  | attachXDP (ifindex : Nat) (entry : String)
  | closeXDPLink
  | attachTC (iface direction entry : String)
  | detachTC (iface direction : String)
  | pin (mapName path : String)
  | unpin (mapName : String)
  | removeAll (path : String)
  | remove (path : String)
  | newMapFromID (id : Nat)
  | newProgramFromID (id : Nat)
  | loadPinnedMap (path : String)
  | mapLookup (path : String) (key : Nat)
  | mapUpdate (id key value : Nat)
  | mapDelete (id key : Nat)
  | collMapUpdate (mapName : String) (key value : List UInt8)
  | configMapUpdate (mapName value : String)
  | signalDone
  | spawnConfigWatcher
  | isProcessRunning (pid : Nat) (name : String)
  deriving DecidableEq, Repr

/-- The state outside the `BPF` record: the calls made so far, oldest first,
and the slots of the kernel maps the daemon reaches by map ID. -/
structure World where
  trace : List Event := []
  slots : Nat → Nat → Option Nat := fun _ _ => none

/-- The time of the next call: the number of calls made so far. -/
def World.now (w : World) : Nat := w.trace.length

/-- Record a call. -/
def World.emit (w : World) (e : Event) : World :=
  { w with trace := w.trace ++ [e] }

/-- The kernel stores `v` at `key` of map `id`. -/
def World.setSlot (w : World) (id key v : Nat) : World :=
  { w with slots := fun i k => if i = id ∧ k = key then some v else w.slots i k }

/-- The kernel removes `key` from map `id`. -/
def World.clearSlot (w : World) (id key : Nat) : World :=
  { w with slots := fun i k => if i = id ∧ k = key then none else w.slots i k }

/-- The answers of the operating system and the kernel. The first argument
of an answer that may change over time is the time of the call. -/
structure Env where
  stat : Nat → String → StatResult
  GetPlatform : Except String String
  urlParse : String → Option URL
  httpGet : Nat → URL → Option (Nat × Buffer)
  osOpen : Nat → String → Option Buffer
  writeFileErr : Nat → String → Bool
  assertExecutable : Nat → String → Bool
  startErr : Nat → String → Bool
  startPid : Nat → String → Nat
  waitErr : Nat → String → Bool
  runOutput : Nat → String → List String → String
  processTerminateErr : Nat → Bool
  isProcessRunning : Nat → Nat → String → Bool × Bool
  getpid : Nat
  processes : Nat → Option (List Process)
  killErr : Nat → Nat → Bool
  removeMemlockErr : Nat → Bool
  loadCollection : Nat → String → Option Collection
  interfaceByName : Nat → String → Option Nat
  attachXDPErr : Nat → Nat → Bool
  attachTCErr : Nat → String → String → Bool
  mkdirAllErr : Nat → String → Bool
  pinErr : Nat → String → String → Bool
  unpinErr : Nat → String → Bool
  mapAlive : Nat → Nat → Bool
  progFD : Nat → Nat → Except Bool Nat
  loadPinnedMapErr : Nat → String → Bool
  pinnedLookup : Nat → String → Nat → Option Nat
  mapUpdateErr : Nat → Nat → Nat → Nat → Bool
  mapDeleteErr : Nat → Nat → Nat → Bool
  collMapUpdateErr : Nat → String → Bool

/-- The instance together with the world it acts on. -/
structure St where
  b : BPF
  w : World

/-! ## Fetching and unpacking artifacts -/

/-- Source `fileExists`: `info` is nil when `os.Stat` fails, and only the
not-exist error returns before `info.IsDir()` is evaluated. -/
def fileExists (env : Env) (filename : String) (w : World) : Except String Bool × World :=
  let r := env.stat w.now filename
  let w := w.emit (.stat filename)
  match r with
  | .notExist => (.ok false, w)
  | .otherErr => (.error "panic: nil pointer dereference", w)
  | .file => (.ok true, w)
  | .dir => (.ok false, w)

/-- The `for _, file := range zipReader.File` loop of `GetArtifacts`. -/
def unzipLoop (tempDir : String) : List Entry → World → Except String Unit × World
  | [], w => (.ok (), w)
  | file :: rest, w =>
    if file.openErr then (.error "unzip failed", w)
    else
      match ValidatePath file.Name tempDir with
      | .error e => (.error e, w)
      | .ok extractedFilePath =>
        if file.IsDir then
          unzipLoop tempDir rest (w.emit (.mkdirAll extractedFilePath))
        else
          let w := w.emit (.openFile extractedFilePath)
          if file.createErr then (.error "unzip failed to create file", w)
          else
            let w := w.emit (.copyTo extractedFilePath)
            if file.copyErr then (.error "GetArtifacts failed to copy files", w)
            else unzipLoop tempDir rest w

/-- The `tarReader.Next` loop of `GetArtifacts`; `endsInErr` tells whether
the stream ends in an error instead of `io.EOF`. -/
def untarLoop (tempDir : String) (endsInErr : Bool) :
    List Entry → World → Except String Unit × World
  | [], w => if endsInErr then (.error "untar failed", w) else (.ok (), w)
  | header :: rest, w =>
    match ValidatePath header.Name tempDir with
    | .error e => (.error e, w)
    | .ok fPath =>
      if header.IsDir then
        let w := w.emit (.mkdirAll fPath)
        if header.createErr then (.error "untar failed to create directories", w)
        else untarLoop tempDir endsInErr rest w
      else
        let w := w.emit (.openFile fPath)
        if header.createErr then (.error "untar failed to create file", w)
        else
          let w := w.emit (.copyTo fPath)
          if header.copyErr then (.error "GetArtifacts failed to copy files", w)
          else untarLoop tempDir endsInErr rest w

/-- The `switch URL.Scheme` of `GetArtifacts`: the bytes read into `buf`. -/
def fetchArtifact (env : Env) (u : URL) (w : World) : Except String Buffer × World :=
  if u.Scheme = "https" ∨ u.Scheme = "http" then
    let r := env.httpGet w.now u
    let w := w.emit (.httpGet u)
    match r with
    | none => (.error "download failed", w)
    | some (status, body) =>
      if status ≠ 200 then (.error "get request returned unexpected status code", w)
      else (.ok body, w)
  else if u.Scheme = "file" then
    match fileExists env u.Path w with
    | (.error e, w) => (.error e, w)
    | (.ok false, w) => (.error "artifact is not found", w)
    | (.ok true, w) =>
      let r := env.osOpen w.now u.Path
      let w := w.emit (.osOpen u.Path)
      match r with
      | none => (.error "opening err", w)
      | some body => (.ok body, w)
  else (.ok {}, w)

/-- The `switch artifact` of `GetArtifacts`: unpack `buf` below
`join(BPFDir, Name, Version)` and set `FilePath`. -/
def extractArtifact (conf : Config) (buf : Buffer) (s : St) : Except String Unit × St :=
  let tempDir := Join [conf.BPFDir, s.b.Program.Name, s.b.Program.Version]
  let newDir := splitDotFirst s.b.Program.Artifact
  if HasSuffix s.b.Program.Artifact ".zip" then
    match buf.zip with
    | none => (.error "failed to create zip reader", s)
    | some files =>
      match unzipLoop tempDir files s.w with
      | (.error e, w) => (.error e, { s with w := w })
      | (.ok _, w) => (.ok (), { b := { s.b with FilePath := Join [tempDir, newDir] }, w := w })
  else if HasSuffix s.b.Program.Artifact ".tar.gz" then
    match buf.tarGz with
    | none => (.error "failed to create Gzip reader", s)
    | some (headers, endsInErr) =>
      match untarLoop tempDir endsInErr headers s.w with
      | (.error e, w) => (.error e, { s with w := w })
      | (.ok _, w) => (.ok (), { b := { s.b with FilePath := Join [tempDir, newDir] }, w := w })
  else (.error "unknown artifact format", s)

/-- Source `GetArtifacts`. -/
def GetArtifacts (env : Env) (conf : Config) (s : St) : Except String Unit × St :=
  match env.GetPlatform with
  | .error _ => (.error "failed to identify platform type", s)
  | .ok platform =>
    let RepoURL := if len s.b.Program.EPRURL = 0 then conf.EBPFRepoURL else s.b.Program.EPRURL
    match env.urlParse RepoURL with
    | none => (.error "unknown ebpf-repo format", s)
    | some u =>
      let u := { u with Path := pathJoin [u.Path, s.b.Program.Name, s.b.Program.Version,
                                          platform, s.b.Program.Artifact] }
      match fetchArtifact env u s.w with
      | (.error e, w) => (.error e, { s with w := w })
      | (.ok buf, w) => extractArtifact conf buf { s with w := w }

/-- Source `VerifyAndGetArtifacts`. -/
def VerifyAndGetArtifacts (env : Env) (conf : Config) (s : St) : Except String Unit × St :=
  let fPath := Join [conf.BPFDir, s.b.Program.Name, s.b.Program.Version,
                     splitDotFirst s.b.Program.Artifact]
  let r := env.stat s.w.now fPath
  let s := { s with w := s.w.emit (.stat fPath) }
  if r = .notExist then GetArtifacts env conf s
  else (.ok (), { s with b := { s.b with FilePath := fPath } })

/-! ## Pinned-map paths -/

/-- Source `NewBpfProgram`; `none` is the nil result. -/
def NewBpfProgram (program : BPFProgram) (conf : Config) (ifaceName : String) : Option BPF :=
  let mk (progMapFilePath : String) : BPF :=
    { Program := program, RestartCount := 0, Cmd := none, FilePath := "", BpfMaps := [],
      MetricsBpfMaps := [], Done := false, hostConfig := conf, MapNamePath := progMapFilePath }
  if len program.MapName > 0 then
    let path : Option String :=
      if program.ProgType = XDPType then
        some (Join [conf.BpfMapDefaultPath, ifaceName, program.MapName])
      else if program.ProgType = TCType then
        some (Join [conf.BpfMapDefaultPath, TCMapPinPath, ifaceName, program.MapName])
      else none
    match path with
    | none => none
    | some progMapFilePath =>
      if Contains progMapFilePath ".." then none else some (mk progMapFilePath)
  else some (mk "")

/-- The file name that `PinBpfMaps`, `RemoveMapFiles` compute for the map
named `k` of the instance. -/
def mapFilename (b : BPF) (ifaceName k : String) : String :=
  if b.Program.ProgType = TCType then
    Join [b.hostConfig.BpfMapDefaultPath, TCMapPinPath, ifaceName, k]
  else
    Join [b.hostConfig.BpfMapDefaultPath, ifaceName, k]

/-- Source `CreateMapPinDirectory`. -/
def CreateMapPinDirectory (env : Env) (b : BPF) (ifaceName : String) (w : World) :
    Except String Unit × World :=
  let mapPathDir :=
    if b.Program.ProgType = XDPType then Join [b.hostConfig.BpfMapDefaultPath, ifaceName]
    else if b.Program.ProgType = TCType then
      Join [b.hostConfig.BpfMapDefaultPath, TCMapPinPath, ifaceName]
    else ""
  if Contains mapPathDir ".." then (.error "contains relative path is not supported", w)
  else
    let failed := env.mkdirAllErr w.now mapPathDir
    let w := w.emit (.mkdirAll mapPathDir)
    if failed then (.error "failed to create map dir path", w) else (.ok (), w)

/-- The `range b.ProgMapCollection.Maps` loop of `PinBpfMaps`. -/
def pinLoop (env : Env) (b : BPF) (ifaceName : String) :
    List (String × KMap) → World → Except String Unit × World
  | [], w => (.ok (), w)
  | (k, _) :: rest, w =>
    match fileExists env (mapFilename b ifaceName k) w with
    | (.error e, w) => (.error e, w)
    | (.ok true, w) => pinLoop env b ifaceName rest w
    | (.ok false, w) =>
      let failed := env.pinErr w.now k (mapFilename b ifaceName k)
      let w := w.emit (.pin k (mapFilename b ifaceName k))
      if failed then (.error "failed to pin the map", w)
      else pinLoop env b ifaceName rest w

/-- Source `PinBpfMaps`. -/
def PinBpfMaps (env : Env) (b : BPF) (ifaceName : String) (w : World) :
    Except String Unit × World :=
  match CreateMapPinDirectory env b ifaceName w with
  | (.error e, w) => (.error e, w)
  | (.ok _, w) =>
    match b.ProgMapCollection with
    | none => (.error "panic: nil pointer dereference", w)
    | some coll => pinLoop env b ifaceName coll.Maps w

/-- The `range b.ProgMapCollection.Maps` loop of `RemoveMapFiles`. -/
def removeLoop (env : Env) (b : BPF) (ifaceName : String) :
    List (String × KMap) → World → Except String Unit × World
  | [], w => (.ok (), w)
  | (k, _) :: rest, w =>
    let failed := env.unpinErr w.now k
    let w := w.emit (.unpin k)
    if failed then (.error "failed to pin the map", w)
    else if Contains (mapFilename b ifaceName k) ".." then (.error "contains relative path", w)
    else removeLoop env b ifaceName rest (w.emit (.removeAll (mapFilename b ifaceName k)))

/-- Source `RemoveMapFiles`. -/
def RemoveMapFiles (env : Env) (b : BPF) (ifaceName : String) (w : World) :
    Except String Unit × World :=
  match b.ProgMapCollection with
  | none => (.error "panic: nil pointer dereference", w)
  | some coll => removeLoop env b ifaceName coll.Maps w

/-! ## Loading and chaining -/

/-- The widths for which `InitialiseMetricMaps` has a case. -/
def supportedWidth (n : Nat) : Bool :=
  n = 1 ∨ n = 2 ∨ n = 4 ∨ n = 8

/-- The bytes of a zero-initialised Go integer variable of `width` bytes
(`var k int8` to `var v int64`), which `Update` reads through the pointer to
the variable. -/
def zeroVar (width : Nat) : List UInt8 := List.replicate width 0

/-- The `range b.Program.MonitorMaps` loop of `InitialiseMetricMaps`. In each
branch that calls `Update` the key is a zero-initialised variable of the key
width of the map and the value one of its value width. -/
def initMetricLoop (env : Env) (coll : Collection) :
    List MonitorMap → World → Except String Unit × World
  | [], w => (.ok (), w)
  | tmpMap :: rest, w =>
    match mapGet coll.Maps tmpMap.Name with
    | none => initMetricLoop env coll rest w
    | some tmpMetricsMap =>
      if supportedWidth tmpMetricsMap.KeySize && supportedWidth tmpMetricsMap.ValueSize then
        let failed := env.collMapUpdateErr w.now tmpMap.Name
        let w := w.emit (.collMapUpdate tmpMap.Name (zeroVar tmpMetricsMap.KeySize)
          (zeroVar tmpMetricsMap.ValueSize))
        if failed then (.error "update hash map element failed", w)
        else initMetricLoop env coll rest w
      else initMetricLoop env coll rest w

/-- Source `InitialiseMetricMaps`. -/
def InitialiseMetricMaps (env : Env) (b : BPF) (w : World) : Except String Unit × World :=
  match b.ProgMapCollection with
  | none => (.ok (), w)
  | some coll => initMetricLoop env coll b.Program.MonitorMaps w

/-- Source `LoadBPFProgram`. -/
def LoadBPFProgram (env : Env) (ifaceName : String) (s : St) : Except String Unit × St :=
  let ObjectFile := Join [s.b.FilePath, s.b.Program.ObjectFile]
  let r := env.stat s.w.now ObjectFile
  let w := s.w.emit (.stat ObjectFile)
  if r = .notExist then (.error "file doesn't exist", { s with w := w })
  else
    let failed := env.removeMemlockErr w.now
    let w := w.emit .removeMemlock
    if failed then (.error "remove rlimit lock failed", { s with w := w })
    else
      let prg := env.loadCollection w.now ObjectFile
      let w := w.emit (.loadCollection ObjectFile)
      match prg with
      | none => (.error "loading of bpf program failed", { s with w := w })
      | some prg =>
        let b := { s.b with ProgMapCollection := some prg }
        match mapGet prg.Programs b.Program.EntryFunctionName with
        | none => (.error "entry function is not found", { b := b, w := w })
        | some bpfProg =>
          match bpfProg.Info with
          | none => (.error "information of bpf program failed", { b := b, w := w })
          | some id =>
            let b := { b with ProgID := id.getD 0 }
            match InitialiseMetricMaps env b w with
            | (.error e, w) => (.error e, { b := b, w := w })
            | (.ok _, w) =>
              match PinBpfMaps env b ifaceName w with
              | (.error e, w) => (.error e, { b := b, w := w })
              | (.ok _, w) => (.ok (), { b := b, w := w })

/-- Source `UpdateProgramMap`. Calling `Info` on the nil map that the lookup
of an absent name gives is a nil dereference. -/
def UpdateProgramMap (b : BPF) : Except String Unit × BPF :=
  if len b.Program.MapName = 0 then (.error "program map name is missing", b)
  else
    match b.ProgMapCollection with
    | none => (.error "panic: nil pointer dereference", b)
    | some coll =>
      match mapGet coll.Maps b.Program.MapName with
      | none => (.error "panic: nil pointer dereference", b)
      | some bpfRootMap =>
        match bpfRootMap.Info with
        | none => (.error "fetching map info failed", b)
        | some none => (.error "fetching map id failed", { b with ProgMapID := 0 })
        | some (some id) => (.ok (), { b with ProgMapID := id })

/-- The part of `LoadBPFProgramChain` that follows `UpdateProgramMap`: write
the FD of the entry function at key 0 of the map with ID `PrevProgMapID`. -/
def linkIntoPrev (env : Env) (s : St) : Except String Unit × St :=
  let alive := env.mapAlive s.w.now s.b.PrevProgMapID
  let w := s.w.emit (.newMapFromID s.b.PrevProgMapID)
  if !alive then (.error "unable to access pinned previous prog map", { s with w := w })
  else
    match s.b.ProgMapCollection with
    | none => (.error "panic: nil pointer dereference", { s with w := w })
    | some coll =>
      match mapGet coll.Programs s.b.Program.EntryFunctionName with
      | none => (.error "entry function is not found", { s with w := w })
      | some bpfProg =>
        let failed := env.mapUpdateErr w.now s.b.PrevProgMapID 0 bpfProg.FD
        let w := w.emit (.mapUpdate s.b.PrevProgMapID 0 bpfProg.FD)
        if failed then (.error "unable to update prog next map", { s with w := w })
        else (.ok (), { s with w := w.setSlot s.b.PrevProgMapID 0 bpfProg.FD })

/-- Source `LoadBPFProgramChain`. -/
def LoadBPFProgramChain (env : Env) (ifaceName : String) (s : St) : Except String Unit × St :=
  match LoadBPFProgram env ifaceName s with
  | (.error e, s) => (.error e, s)
  | (.ok _, s) =>
    match UpdateProgramMap s.b with
    | (.error e, b) => (.error e, { s with b := b })
    | (.ok _, b) => linkIntoPrev env { s with b := b }

/-- Source `LoadXDPAttachProgram`. -/
def LoadXDPAttachProgram (env : Env) (ifaceName : String) (s : St) : Except String Unit × St :=
  let iface := env.interfaceByName s.w.now ifaceName
  let s := { s with w := s.w.emit (.interfaceByName ifaceName) }
  match iface with
  | none => (.error "look up network iface", s)
  | some index =>
    match LoadBPFProgram env ifaceName s with
    | (.error e, s) => (.error e, s)
    | (.ok _, s) =>
      let failed := env.attachXDPErr s.w.now index
      let w := s.w.emit (.attachXDP index s.b.Program.EntryFunctionName)
      let s := { b := { s.b with XDPLink := !failed }, w := w }
      if failed then (.error "could not attach xdp program", s)
      else if s.b.hostConfig.BpfChainingEnabled then
        match UpdateProgramMap s.b with
        | (.error e, b) => (.error e, { s with b := b })
        | (.ok _, b) => (.ok (), { s with b := b })
      else (.ok (), s)

/-- Modelled from the spec: `LoadTCAttachProgram` is not among the given
sources. Section 4.3 has it install a filter with the selected program at
ingress or egress of the interface and keep the filter handle; section 4.6
calls the step load-and-attach, with no linking. The load is `LoadBPFProgram`
and the chaining-map ID is stored as in `LoadXDPAttachProgram`. -/
def LoadTCAttachProgram (env : Env) (ifaceName direction : String) (s : St) :
    Except String Unit × St :=
  let iface := env.interfaceByName s.w.now ifaceName
  let s := { s with w := s.w.emit (.interfaceByName ifaceName) }
  match iface with
  | none => (.error "look up network iface", s)
  | some _ =>
    match LoadBPFProgram env ifaceName s with
    | (.error e, s) => (.error e, s)
    | (.ok _, s) =>
      let failed := env.attachTCErr s.w.now ifaceName direction
      let w := s.w.emit (.attachTC ifaceName direction s.b.Program.EntryFunctionName)
      let s := { b := { s.b with TCFilter := !failed }, w := w }
      if failed then (.error "could not attach tc filter", s)
      else if s.b.hostConfig.BpfChainingEnabled then
        match UpdateProgramMap s.b with
        | (.error e, b) => (.error e, { s with b := b })
        | (.ok _, b) => (.ok (), { s with b := b })
      else (.ok (), s)

/-- The error that a caller returns for the failure `e` of a call it wraps
in the message `msg`. A panic is not an error value: no `if err != nil` of a
caller catches it, and it goes up as it is. -/
def wrapErr (msg e : String) : String :=
  if "panic".data.isPrefixOf e.data then e else msg

/-- Source `AttachBPFProgram`. -/
def AttachBPFProgram (env : Env) (ifaceName direction : String) (s : St) :
    Except String Unit × St :=
  if s.b.Program.ProgType = XDPType then
    match LoadXDPAttachProgram env ifaceName s with
    | (.error e, s) => (.error (wrapErr "failed to attach xdp program" e), s)
    | (.ok _, s) => (.ok (), s)
  else if s.b.Program.ProgType = TCType then
    match LoadTCAttachProgram env ifaceName direction s with
    | (.error e, s) => (.error (wrapErr "failed to attach tc program" e), s)
    | (.ok _, s) => (.ok (), s)
  else (.ok (), s)

/-- Source `RemovePrevProgFD`: an error of the delete is only logged. -/
def RemovePrevProgFD (env : Env) (s : St) : Except String Unit × St :=
  let alive := env.mapAlive s.w.now s.b.PrevProgMapID
  let w := s.w.emit (.newMapFromID s.b.PrevProgMapID)
  if !alive then (.error "unable to access pinned prev prog map", { s with w := w })
  else
    let failed := env.mapDeleteErr w.now s.b.PrevProgMapID 0
    let present := (w.slots s.b.PrevProgMapID 0).isSome
    let w := w.emit (.mapDelete s.b.PrevProgMapID 0)
    if failed || !present then (.ok (), { s with w := w })
    else (.ok (), { s with w := w.clearSlot s.b.PrevProgMapID 0 })

/-- Source `PutNextProgFDFromID`: write the FD of program `progID` at key 0
of the map with ID `ProgMapID`. The lookup is made with `progID` converted to
the 32-bit `ebpf.ProgramID`. -/
def PutNextProgFDFromID (env : Env) (progID : Nat) (s : St) : Except String Unit × St :=
  if len s.b.Program.MapName = 0 then (.ok (), s)
  else
    let alive := env.mapAlive s.w.now s.b.ProgMapID
    let w := s.w.emit (.newMapFromID s.b.ProgMapID)
    if !alive then (.error "unable to access pinned next prog map", { s with w := w })
    else
      let prog := env.progFD w.now (progID % 2 ^ 32)
      let w := w.emit (.newProgramFromID (progID % 2 ^ 32))
      match prog with
      | .error _ => (.error "failed to get next prog FD from ID", { s with w := w })
      | .ok fd =>
        let failed := env.mapUpdateErr w.now s.b.ProgMapID 0 fd
        let w := w.emit (.mapUpdate s.b.ProgMapID 0 fd)
        if failed then (.error "unable to update prog next map", { s with w := w })
        else (.ok (), { s with w := w.setSlot s.b.ProgMapID 0 fd })

/-- Source `RemoveNextProgFD`: delete key 0 of the map with ID
`PrevProgMapID`. The delete of the kernel fails when the key is absent, and
every error of the delete is returned. -/
def RemoveNextProgFD (env : Env) (s : St) : Except String Unit × St :=
  if len s.b.Program.MapName = 0 then (.ok (), s)
  else
    let alive := env.mapAlive s.w.now s.b.PrevProgMapID
    let w := s.w.emit (.newMapFromID s.b.PrevProgMapID)
    if !alive then (.error "unable to access pinned next prog map", { s with w := w })
    else
      let failed := env.mapDeleteErr w.now s.b.PrevProgMapID 0
      let present := (w.slots s.b.PrevProgMapID 0).isSome
      let w := w.emit (.mapDelete s.b.PrevProgMapID 0)
      if failed || !present then (.error "failed to delete prog fd entry", { s with w := w })
      else (.ok (), { s with w := w.clearSlot s.b.PrevProgMapID 0 })

/-- Source `GetProgID`. -/
def GetProgID (env : Env) (s : St) : Except String Nat × St :=
  let failed := env.loadPinnedMapErr s.w.now s.b.PrevMapNamePath
  let w := s.w.emit (.loadPinnedMap s.b.PrevMapNamePath)
  if failed then (.error "unable to access pinned prog map", { s with w := w })
  else
    let value := env.pinnedLookup w.now s.b.PrevMapNamePath 0
    let w := w.emit (.mapLookup s.b.PrevMapNamePath 0)
    match value with
    | none => (.error "unable to look up prog map", { s with w := w })
    | some value =>
      let prog := env.progFD w.now value
      let w := w.emit (.newProgramFromID value)
      match prog with
      | .error _ => (.error "failed to verify program ID", { s with w := w })
      | .ok _ => (.ok value, { s with w := w })

/-- Source `IsLoaded`: only an error that is `os.ErrNotExist` (answer
`.error true` of the lookup) gives false. -/
def IsLoaded (env : Env) (s : St) : Bool × St :=
  let prog := env.progFD s.w.now s.b.ProgID
  let s := { s with w := s.w.emit (.newProgramFromID s.b.ProgID) }
  match prog with
  | .error true => (false, s)
  | _ => (true, s)

/-! ## User programs -/

/-- The bytes of a Go string. -/
def goBytes (s : String) : List UInt8 := s.data.flatMap String.utf8EncodeChar

/-- Go `strings.Contains` on bytes. -/
def containsBytes (s sub : List UInt8) : Bool :=
  s.tails.any (fun t => sub.isPrefixOf t)

/-- The `range processList` loop of `StopExternalRunningProcess`. -/
def killLoop (env : Env) (psName : List UInt8) :
    List Process → World → Except String Unit × World
  | [], w => (.ok (), w)
  | process :: rest, w =>
    if containsBytes (goBytes process.Executable) psName then
      if process.PPid ≠ env.getpid then
        let failed := env.killErr w.now process.Pid
        let w := w.emit (.kill process.Pid)
        if failed then (.error "external BPFProgram stop failed", w)
        else killLoop env psName rest w
      else killLoop env psName rest w
    else killLoop env psName rest w

/-- Source `StopExternalRunningProcess`. -/
def StopExternalRunningProcess (env : Env) (processName : String) (w : World) :
    Except String Unit × World :=
  if len processName < 1 then (.error "process name can not be empty", w)
  else
    let psName := if len processName > 15 then (goBytes processName).take 15
                  else goBytes processName
    let processList := env.processes w.now
    let w := w.emit .listProcesses
    match processList with
    | none => (.error "failed to fetch processes list", w)
    | some processList => killLoop env psName processList w

/-- The loops that render an args map: `"--" + k + eq + v` is appended for
every pair, and the first value that is not a string ends the loop with an
error. `eq` is `"="` in `StartUserProgram` and `UpdateArgs`, `" ="` in
`Stop`. -/
def appendArgs (eq : String) (args : List String) : ArgMap → Except String (List String)
  | [] => .ok args
  | (k, .str v) :: rest => appendArgs eq (args ++ ["--" ++ k ++ eq ++ v]) rest
  | (_, .other) :: _ => .error "args is not a string"

/-- Source `createUpdateRulesFile`. -/
def createUpdateRulesFile (env : Env) (b : BPF) (direction : String) (w : World) :
    Except String String × World :=
  if len b.Program.RulesFile < 1 then (.error "RulesFile name is empty", w)
  else
    let fileName := pathJoin [b.FilePath, direction, b.Program.RulesFile]
    let failed := env.writeFileErr w.now fileName
    let w := w.emit (.writeFile fileName b.Program.Rules)
    if failed then (.error "create or Update Rules File failed", w)
    else (.ok fileName, w)

/-- The arguments `StartUserProgram` builds before it reads `StartArgs`,
with the world after writing the rules file. -/
def startFlags (env : Env) (b : BPF) (ifaceName direction : String) (chain : Bool) (w : World) :
    List String × World :=
  let args := ["--iface=" ++ ifaceName, "--direction=" ++ direction]
  let args :=
    if chain && b.ProgMapCollection.isNone then
      if len b.PrevMapNamePath > 1 then args ++ ["--map-name=" ++ b.PrevMapNamePath] else args
    else args
  let args :=
    if len b.hostConfig.BPFLogDir > 1 then args ++ ["--log-dir=" ++ b.hostConfig.BPFLogDir]
    else args
  if len b.Program.RulesFile > 1 && len b.Program.Rules > 1 then
    match createUpdateRulesFile env b direction w with
    | (.ok fileName, w) => (args ++ ["--rules-file=" ++ fileName], w)
    | (.error _, w) => (args, w)
  else (args, w)

/-- Source `StartUserProgram`. `SetPrLimits` is not among the given sources;
its error is only logged. -/
def StartUserProgram (env : Env) (ifaceName direction : String) (chain : Bool) (s : St) :
    Except String Unit × St :=
  let cmd := Join [s.b.FilePath, s.b.Program.CmdStart]
  let executable := env.assertExecutable s.w.now cmd
  let w := s.w.emit (.assertExecutable cmd)
  if !executable then (.error "no executable permissions", { s with w := w })
  else
    match startFlags env s.b ifaceName direction chain w with
    | (args, w) =>
      match appendArgs "=" args s.b.Program.StartArgs with
      | .error e => (.error e, { s with w := w })
      | .ok args =>
        let failed := env.startErr w.now cmd
        let pid := env.startPid w.now cmd
        let w := w.emit (.exec cmd args)
        let c : Cmd := { Path := cmd, Args := args, Process := if failed then none else some pid }
        if failed then (.error "failed to start", { b := { s.b with Cmd := some c }, w := w })
        else if !s.b.Program.UserProgramDaemon then
          (.ok (), { b := { s.b with Cmd := none }, w := w.emit (.wait cmd) })
        else
          (.ok (), { b := { s.b with Cmd := some c }, w := w.emit .setPrLimits })

/-- Source `UpdateArgs`. -/
def UpdateArgs (env : Env) (ifaceName direction : String) (s : St) : Except String Unit × St :=
  if s.b.FilePath = "" then (.error "update - no program binary path found", s)
  else
    let cmd := Join [s.b.FilePath, s.b.Program.CmdUpdate]
    let executable := env.assertExecutable s.w.now cmd
    let w := s.w.emit (.assertExecutable cmd)
    if !executable then (.error "no executable permissions", { s with w := w })
    else
      let args := ["--iface=" ++ ifaceName, "--direction=" ++ direction, "--cmd=" ++ UpdateType]
      let args :=
        if len s.b.hostConfig.BPFLogDir > 1 then args ++ ["--log-dir=" ++ s.b.hostConfig.BPFLogDir]
        else args
      match appendArgs "=" args s.b.Program.UpdateArgs with
      | .error e => (.error e, { s with w := w })
      | .ok args =>
        let failed := env.startErr w.now cmd
        let w := w.emit (.exec cmd args)
        if failed then (.error "failed to start", { s with w := w })
        else
          let waitFailed := env.waitErr w.now cmd
          let w := w.emit (.wait cmd)
          if waitFailed then (.error "cmd wait returned with error", { s with w := w })
          else (.ok (), { s with w := w })

/-- Source `GetBPFMap`. -/
def GetBPFMap (b : BPF) (mapName : String) : Except String BPFMap :=
  match b.ProgMapCollection with
  | none => .error "no handle to prog map collection"
  | some coll =>
    match mapGet coll.Maps mapName with
    | none => .error "not found"
    | some ebpfMap =>
      match ebpfMap.Info with
      | none => .error "fetching map info failed"
      | some none => .error "fetching map id failed"
      | some (some id) => .ok { Name := mapName, MapID := id, MapType := ebpfMap.MapType }

/-- The `range b.Program.MapArgs` loop of `UpdateBPFMaps`. `BPFMap.Update` is
not among the given sources; it returns nothing. -/
def updateMapsLoop (env : Env) : ArgMap → St → Except String Unit × St
  | [], s => (.ok (), s)
  | (_, .other) :: _, s => (.error "update map args is not a string", s)
  | (k, .str v) :: rest, s =>
    match mapGet s.b.BpfMaps k with
    | some _ =>
      updateMapsLoop env rest { s with w := s.w.emit (.configMapUpdate k v) }
    | none =>
      match GetBPFMap s.b k with
      | .error e => (.error e, s)
      | .ok bpfMap =>
        updateMapsLoop env rest
          { b := { s.b with BpfMaps := mapSet s.b.BpfMaps k bpfMap },
            w := s.w.emit (.configMapUpdate k v) }

/-- Source `UpdateBPFMaps`. -/
def UpdateBPFMaps (env : Env) (s : St) : Except String Unit × St :=
  updateMapsLoop env s.b.Program.MapArgs s

/-! ## Verification polls -/

/-- The ten polls of `VerifyPinnedProgMap`; `err` tells whether the variable
`err` is non-nil. -/
def pollPinned (env : Env) (path : String) (pinned : Bool) :
    Nat → Bool → World → Except String Unit × World
  | 0, err, w =>
    if err && pinned then (.error "VerifyPinnedProgMap creation : failed to find pinned file", w)
    else if err then (.error "VerifyPinnedProgMap removal : map file was never removed", w)
    else (.ok (), w)
  | n + 1, _, w =>
    let r := env.stat w.now path
    let w := w.emit (.stat path)
    let err : Bool := r = .notExist ∨ r = .otherErr
    if !err && pinned then (.ok (), w)
    else if err && !pinned then
      let r2 := env.stat w.now path
      let w := w.emit (.stat path)
      if r2 = .notExist then (.ok (), w)
      else pollPinned env path pinned n (r2 = .otherErr) (w.emit .sleep)
    else pollPinned env path pinned n err (w.emit .sleep)

/-- Source `VerifyPinnedProgMap(chain, exists)`. -/
def VerifyPinnedProgMap (env : Env) (b : BPF) (chain pinned : Bool) (w : World) :
    Except String Unit × World :=
  if !chain then (.ok (), w)
  else if len b.Program.MapName > 0 then pollPinned env b.MapNamePath pinned 10 false w
  else (.ok (), w)

/-- Ten sleeps. -/
def sleeps : Nat → World → World
  | 0, w => w
  | n + 1, w => sleeps n (w.emit .sleep)

/-- Source `VerifyProcessObject`. -/
def VerifyProcessObject (b : BPF) (w : World) : Except String Unit × World :=
  match b.Cmd with
  | none => (.error "command object is nil", w)
  | some c =>
    if c.Process.isSome then (.ok (), w)
    else (.error "process object is nil", sleeps 10 w)

/-- The `range b.BpfMaps` loop of `VerifyMetricsMapsVanish`: whether some map
ID still resolves. -/
def anyMapAlive (env : Env) : List (String × BPFMap) → Bool → World → Bool × World
  | [], mapExists, w => (mapExists, w)
  | (_, v) :: rest, mapExists, w =>
    let alive := env.mapAlive w.now v.MapID
    anyMapAlive env rest (mapExists || alive) (w.emit (.newMapFromID v.MapID))

/-- The ten polls of `VerifyMetricsMapsVanish`. -/
def pollVanish (env : Env) (maps : List (String × BPFMap)) :
    Nat → World → Except String Unit × World
  | 0, w => (.error "metrics maps are never removed by Kernel", w)
  | n + 1, w =>
    match anyMapAlive env maps false w with
    | (false, w) => (.ok (), w)
    | (true, w) => pollVanish env maps n (w.emit .sleep)

/-- Source `VerifyMetricsMapsVanish`. -/
def VerifyMetricsMapsVanish (env : Env) (b : BPF) (w : World) : Except String Unit × World :=
  pollVanish env b.BpfMaps 10 w

/-- Source `VerifyCleanupMaps`. -/
def VerifyCleanupMaps (env : Env) (b : BPF) (chain : Bool) (w : World) :
    Except String Unit × World :=
  match VerifyPinnedProgMap env b chain false w with
  | (.error _, w) => (.error "stop user program - failed to remove pinned file", w)
  | (.ok _, w) =>
    match VerifyMetricsMapsVanish env b w with
    | (.error _, w) => (.error "stop user program - failed to remove metric map references", w)
    | (.ok _, w) => (.ok (), w)

/-! ## Liveness -/

/-- The status text `bpfStatus`. -/
def bpfStatus : String := "RUNNING"

/-- Go `unicode.SimpleFold` on the orbits of the ASCII letters, which are the
only runes it is applied to when one of the two strings compared is ASCII;
the Kelvin sign and the long s belong to the orbits of `K` and `S`. -/
def SimpleFold (r : Char) : Char :=
  if r = 'k' then Char.ofNat 0x212A
  else if r = Char.ofNat 0x212A then 'K'
  else if r = 's' then Char.ofNat 0x17F
  else if r = Char.ofNat 0x17F then 'S'
  else if 'A'.toNat ≤ r.toNat ∧ r.toNat ≤ 'Z'.toNat then Char.ofNat (r.toNat + 32)
  else if 'a'.toNat ≤ r.toNat ∧ r.toNat ≤ 'z'.toNat then Char.ofNat (r.toNat - 32)
  else r

/-- The loop `for r != sr && r < tr { r = unicode.SimpleFold(r) }`. -/
def foldWalk (sr tr : Char) : Nat → Char → Char
  | 0, r => r
  | n + 1, r => if r ≠ sr ∧ r.toNat < tr.toNat then foldWalk sr tr n (SimpleFold r) else r

/-- One step of `strings.EqualFold`: the runes `sr` and `tr` are equal under
case folding. -/
def foldEqRune (sr tr : Char) : Bool :=
  if tr = sr then true
  else
    let lo := if tr.toNat < sr.toNat then tr else sr
    let hi := if tr.toNat < sr.toNat then sr else tr
    if hi.toNat < 128 then
      decide ('A'.toNat ≤ lo.toNat ∧ lo.toNat ≤ 'Z'.toNat ∧ hi.toNat = lo.toNat + 32)
    else foldWalk lo hi 4 (SimpleFold lo) = hi

/-- Go `strings.EqualFold` on runes. -/
def equalFoldChars : List Char → List Char → Bool
  | [], [] => true
  | sr :: s, tr :: t => foldEqRune sr tr && equalFoldChars s t
  | _, _ => false

/-- Go `strings.EqualFold`. -/
def EqualFold (s t : String) : Bool := equalFoldChars s.data t.data

/-- The `range b.Program.StatusArgs` loop of `isRunning`: a value that is not
a string is skipped. -/
def statusArgs : ArgMap → List String
  | [] => []
  | (k, .str v) :: rest => ("--" ++ k ++ " =" ++ v) :: statusArgs rest
  | (_, .other) :: rest => statusArgs rest

/-- Source `isRunning`. The `err` assigned in the `else` branches is the one
declared by the enclosing `if err := ...`, so the error returned is the outer
`err`, which stays nil: the third component is always `none`. -/
def isRunning (env : Env) (s : St) : (Bool × Bool × Option String) × St :=
  if len s.b.Program.CmdStatus > 1 then
    let cmd := Join [s.b.FilePath, s.b.Program.CmdStatus]
    let executable := env.assertExecutable s.w.now cmd
    let w := s.w.emit (.assertExecutable cmd)
    if !executable then ((false, false, none), { s with w := w })
    else
      let args := statusArgs s.b.Program.StatusArgs
      let out := env.runOutput w.now cmd args
      let w := w.emit (.exec cmd args)
      if EqualFold out bpfStatus then ((true, true, none), { s with w := w })
      else ((false, false, none), { s with w := w })
  else
    let r : Bool × World :=
      if len s.b.Program.CmdStart > 1 && s.b.Program.UserProgramDaemon then
        match VerifyProcessObject s.b s.w with
        | (.error _, w) => (false, w)
        | (.ok _, w) =>
          match s.b.Cmd.bind (fun c => c.Process) with
          | none => (false, w)
          | some pid =>
            let r := env.isProcessRunning w.now pid s.b.Program.Name
            let w := w.emit (.isProcessRunning pid s.b.Program.Name)
            if r.2 then (r.1, w) else (true, w)
      else (true, s.w)
    match IsLoaded env { s with w := r.2 } with
    | (loaded, s) => ((r.1, loaded, none), s)

/-! ## Start and Stop -/

/-- The ten tries of `GetProgID` in `Start`. -/
def pollProgID (env : Env) : Nat → St → Except String Unit × St
  | 0, s => (.error "failed to fetch ebpf program FD", s)
  | n + 1, s =>
    match GetProgID env s with
    | (.ok id, s) => (.ok (), { s with b := { s.b with ProgID := id } })
    | (.error _, s) => pollProgID env n { b := { s.b with ProgID := 0 }, w := s.w.emit .sleep }

/-- Step of `Start`: "Verify other instance is running". -/
def startStopExternal (env : Env) (s : St) : Except String Unit × St :=
  if len s.b.Program.CmdStart > 0 then
    match StopExternalRunningProcess env s.b.Program.CmdStart s.w with
    | (.error _, w) => (.error "failed to stop external instance of the program", { s with w := w })
    | (.ok _, w) => (.ok (), { s with w := w })
  else (.ok (), s)

/-- Step of `Start`: "Making sure old map entry is removed": the error of
`RemovePrevProgFD` is only logged. -/
def startRemovePrev (env : Env) (s : St) : St :=
  if len s.b.PrevMapNamePath > 0 then (RemovePrevProgFD env s).2 else s

/-- Step of `Start`: "Both xdp and tc are loaded using the same mechanism". -/
def startLoad (env : Env) (ifaceName direction : String) (chain : Bool) (s : St) :
    Except String Unit × St :=
  if len s.b.Program.ObjectFile > 0 then
    if chain then
      match LoadBPFProgramChain env ifaceName s with
      | (.error e, s) => (.error (wrapErr "loading bpf program" e), s)
      | (.ok _, s) => (.ok (), s)
    else
      match AttachBPFProgram env ifaceName direction s with
      | (.error e, s) => (.error (wrapErr "attaching bpf program" e), s)
      | (.ok _, s) => (.ok (), s)
  else (.ok (), s)

/-- Step of `Start`: "Start user program before loading". -/
def startUser (env : Env) (ifaceName direction : String) (chain : Bool) (s : St) :
    Except String Unit × St :=
  if len s.b.Program.CmdStart > 0 then
    match StartUserProgram env ifaceName direction chain s with
    | (.error _, s) => (.error "user program startup failed", s)
    | (.ok _, s) => (.ok (), s)
  else (.ok (), s)

/-- Step of `Start`: "making sure program fd map pinned file is created". -/
def startVerifyPin (env : Env) (chain : Bool) (s : St) : Except String Unit × St :=
  match VerifyPinnedProgMap env s.b chain true s.w with
  | (.error _, w) => (.error "failed to find pinned file", { s with w := w })
  | (.ok _, w) => (.ok (), { s with w := w })

/-- Step of `Start`: "BPF map config values". -/
def startMapArgs (env : Env) (s : St) : Except String Unit × St :=
  if s.b.Program.MapArgs.length > 0 then
    match UpdateBPFMaps env s with
    | (.error _, s) => (.error "failed to update ebpf program BPF maps", s)
    | (.ok _, s) => (.ok (), s)
  else (.ok (), s)

/-- Step of `Start`: "Update args config values". -/
def startUpdateArgs (env : Env) (ifaceName direction : String) (s : St) :
    Except String Unit × St :=
  if s.b.Program.UpdateArgs.length > 0 then
    match UpdateArgs env ifaceName direction s with
    | (.error _, s) => (.error "failed to update ebpf program config update", s)
    | (.ok _, s) => (.ok (), s)
  else (.ok (), s)

/-- Step of `Start`: "Fetch when prev program map is updated only when loaded using
user program". -/
def startProgID (env : Env) (s : St) : Except String Unit × St :=
  if len s.b.PrevMapNamePath > 0 && s.b.ProgMapCollection.isNone then pollProgID env 10 s
  else (.ok (), s)

/-- Step of `Start`: "KFconfigs": make the channel and start the watcher. -/
def startWatcher (s : St) : St :=
  if len s.b.Program.CmdConfig > 0 && len s.b.Program.ConfigFilePath > 0 then
    { b := { s.b with Done := true }, w := s.w.emit .spawnConfigWatcher }
  else s

/-- Step of `Start`: the final check with `isRunning`. -/
def startCheck (env : Env) (s : St) : Except String Unit × St :=
  match isRunning env s with
  | ((userProgram, bpfProgram, _), s) =>
    if !userProgram && !bpfProgram then (.error "bpf program failed to start", s)
    else (.ok (), s)

/-- Source `Start`. -/
def Start (env : Env) (ifaceName direction : String) (chain : Bool) (s : St) :
    Except String Unit × St :=
  if s.b.FilePath = "" then (.error "no program binary path found", s)
  else
    match startStopExternal env s with
    | (.error e, s) => (.error e, s)
    | (.ok _, s) =>
      match startLoad env ifaceName direction chain (startRemovePrev env s) with
      | (.error e, s) => (.error e, s)
      | (.ok _, s) =>
        match startUser env ifaceName direction chain s with
        | (.error e, s) => (.error e, s)
        | (.ok _, s) =>
          match startVerifyPin env chain s with
          | (.error e, s) => (.error e, s)
          | (.ok _, s) =>
            match startMapArgs env s with
            | (.error e, s) => (.error e, s)
            | (.ok _, s) =>
              match startUpdateArgs env ifaceName direction s with
              | (.error e, s) => (.error e, s)
              | (.ok _, s) =>
                match startProgID env s with
                | (.error e, s) => (.error e, s)
                | (.ok _, s) => startCheck env (startWatcher s)

/-- Go `for key := range m { delete(m, key) }`. -/
def deleteAll {α : Type} (m : List (String × α)) : List (String × α) :=
  (m.map (fun p => p.1)).foldl mapDelete m

/-- Source `UnloadProgram`. `UnloadTCProgram` is not among the given sources;
its error is only logged. Closing a nil `XDPLink` is a nil dereference. -/
def UnloadProgram (env : Env) (ifaceName direction : String) (s : St) : Except String Unit × St :=
  let iface := env.interfaceByName s.w.now ifaceName
  let w := s.w.emit (.interfaceByName ifaceName)
  match iface with
  | none => (.error "look up network iface", { s with w := w })
  | some _ =>
    let r : Except String Unit × World :=
      if s.b.Program.SeqID = 0 ∨ !s.b.hostConfig.BpfChainingEnabled then
        if s.b.Program.ProgType = TCType then (.ok (), w.emit (.detachTC ifaceName direction))
        else if s.b.Program.ProgType = XDPType then
          if s.b.XDPLink then (.ok (), w.emit .closeXDPLink)
          else (.error "panic: nil pointer dereference", w)
        else (.ok (), w)
      else (.ok (), w)
    match r with
    | (.error e, w) => (.error e, { s with w := w })
    | (.ok _, w) =>
      let w := if s.b.ProgMapCollection.isSome then w.emit .closeCollection else w
      match RemoveMapFiles env s.b ifaceName w with
      | (.error e, w) =>
        if "panic".data.isPrefixOf e.data then (.error e, { s with w := w })
        else (.ok (), { s with w := w })
      | (.ok _, w) => (.ok (), { s with w := w })

/-- The stop-command branch of `Stop`. -/
def stopCommand (env : Env) (ifaceName direction : String) (s : St) : Except String Unit × St :=
  let cmd := Join [s.b.FilePath, s.b.Program.CmdStop]
  let executable := env.assertExecutable s.w.now cmd
  let w := s.w.emit (.assertExecutable cmd)
  if !executable then (.error "no executable permissions", { s with w := w })
  else
    let args := ["--iface=" ++ ifaceName, "--direction=" ++ direction]
    match appendArgs " =" args s.b.Program.StopArgs with
    | .error e => (.error e, { s with w := w })
    | .ok args => (.ok (), { b := { s.b with Cmd := none }, w := w.emit (.exec cmd args) })

/-- Step of `Stop`: "Stop User Programs if any". `ProcessTerminate` is not among the
given sources; it is a call whose error ends `Stop`. -/
def stopUser (env : Env) (ifaceName direction : String) (s : St) : Except String Unit × St :=
  if len s.b.Program.CmdStop < 1 && s.b.Program.UserProgramDaemon then
    let failed := env.processTerminateErr s.w.now
    let w := s.w.emit .processTerminate
    if failed then (.error "process terminate failed", { s with w := w })
    else
      match s.b.Cmd with
      | some c => (.ok (), { b := { s.b with Cmd := none }, w := w.emit (.wait c.Path) })
      | none => (.ok (), { s with w := w })
  else if len s.b.Program.CmdStop > 0 && s.b.Program.UserProgramDaemon then
    stopCommand env ifaceName direction s
  else (.ok (), s)

/-- Step of `Stop`: "unload the BPF programs". -/
def stopUnload (env : Env) (ifaceName direction : String) (s : St) : Except String Unit × St :=
  if s.b.ProgMapCollection.isSome then
    match UnloadProgram env ifaceName direction s with
    | (.error e, s) => (.error (wrapErr "unload failed" e), s)
    | (.ok _, s) => (.ok (), s)
  else (.ok (), s)

/-- Step of `Stop`: the final `VerifyCleanupMaps`. -/
def stopVerify (env : Env) (chain : Bool) (s : St) : Except String Unit × St :=
  match VerifyCleanupMaps env s.b chain s.w with
  | (.error _, w) => (.error "stop user program - failed to remove map files", { s with w := w })
  | (.ok _, w) => (.ok (), { s with w := w })

/-- The part of `Stop` from "Stop User Programs if any" to the end. -/
def stopTail (env : Env) (ifaceName direction : String) (chain : Bool) (s : St) :
    Except String Unit × St :=
  match stopUser env ifaceName direction s with
  | (.error e, s) => (.error e, s)
  | (.ok _, s) =>
    match stopUnload env ifaceName direction s with
    | (.error e, s) => (.error e, s)
    | (.ok _, s) => stopVerify env chain s

/-- Step of `Stop`: "Stop KFconfigs": whether a config watcher is signalled. -/
def stopWatched (b : BPF) : Bool :=
  len b.Program.CmdConfig > 0 && len b.Program.ConfigFilePath > 0

/-- Step of `Stop`: "Removing maps" and "Removing Metrics maps". -/
def stopDropMaps (b : BPF) : BPF :=
  { b with BpfMaps := deleteAll b.BpfMaps, MetricsBpfMaps := deleteAll b.MetricsBpfMaps }

/-- Steps of `Stop` from "Removing maps" to "Reset ProgID". -/
def stopPrelude (s : St) : St :=
  { b := { stopDropMaps s.b with ProgID := 0 },
    w := if stopWatched s.b then s.w.emit .signalDone else s.w }

/-- Source `Stop`. Sending on `Done` when no watcher has made the channel
never returns; the model ends there with an error that names it. -/
def Stop (env : Env) (ifaceName direction : String) (chain : Bool) (s : St) :
    Except String Unit × St :=
  if s.b.Program.UserProgramDaemon && s.b.Cmd.isNone then (.error "BPFProgram is not running", s)
  else if stopWatched s.b && !s.b.Done then
    (.error "blocked: send on nil channel", { s with b := stopDropMaps s.b })
  else stopTail env ifaceName direction chain (stopPrelude s)

/-! ## Metric records -/

/-- The decimal digits of `n`, most significant first; `fuel` bounds their
number. -/
def decDigits : Nat → Nat → List Char
  | 0, _ => []
  | fuel + 1, n =>
    if n < 10 then [Char.ofNat (48 + n)]
    else decDigits fuel (n / 10) ++ [Char.ofNat (48 + n % 10)]

/-- Go `strconv.Itoa`. -/
def Itoa (i : Int) : String :=
  match i with
  | .ofNat n => ⟨decDigits (n + 1) n⟩
  | .negSucc n => ⟨'-' :: decDigits (n + 2) (n + 1)⟩

/-- Source `AddMetricsBPFMap`; `samplesLength` is the length of the new
ring. -/
def AddMetricsBPFMap (b : BPF) (mapName aggregator : String) (key : Int) (samplesLength : Nat) :
    Except String Unit × BPF :=
  match GetBPFMap b mapName with
  | .error _ => (.error "metrics map not found", b)
  | .ok bpfMap =>
    let tmpMetricsBPFMap : MetricsBPFMap :=
      { toBPFMap := bpfMap, key := key, aggregator := aggregator, Values := samplesLength }
    let map_key := mapName ++ Itoa key ++ aggregator
    (.ok (), { b with MetricsBpfMaps := mapSet b.MetricsBpfMaps map_key tmpMetricsBPFMap })

/-- The `range b.Program.MonitorMaps` loop of `MonitorMaps`. `GetValue` and
`stats.SetValue` are not among the given sources: the loop collects, for each
element, the metric name and the record whose value is published under it. -/
def monitorLoop (intervals : Nat) :
    List MonitorMap → BPF → List (String × MetricsBPFMap) →
      Except String (List (String × MetricsBPFMap)) × BPF
  | [], b, out => (.ok out, b)
  | element :: rest, b, out =>
    let mapKey := element.Name ++ Itoa element.Key ++ element.Aggregator
    let added : Except String Unit × BPF :=
      match mapGet b.MetricsBpfMaps mapKey with
      | some _ => (.ok (), b)
      | none => AddMetricsBPFMap b element.Name element.Aggregator element.Key intervals
    match added with
    | (.error _, b) => (.error "not able to fetch map", b)
    | (.ok _, b) =>
      match mapGet b.MetricsBpfMaps mapKey with
      | none => (.error "panic: nil pointer dereference", b)
      | some bpfMap =>
        let MetricName := element.Name ++ "_" ++ Itoa element.Key ++ "_" ++ element.Aggregator
        monitorLoop intervals rest b (out ++ [(MetricName, bpfMap)])

/-- Source `MonitorMaps`: the metric names published, each with the record
read for it. -/
def MonitorMaps (b : BPF) (intervals : Nat) :
    Except String (List (String × MetricsBPFMap)) × BPF :=
  monitorLoop intervals b.Program.MonitorMaps b []

/-! ## Searching a sorted list -/

/-- The loop of a binary search between the indices `left` and `right`, both
inclusive; `fuel` bounds the number of rounds. Two strings are compared
character by character, which on UTF-8 is the order of their bytes. -/
def searchLoop (names : List String) (target : String) : Nat → Int → Int → Bool
  | 0, _, _ => false
  | fuel + 1, left, right =>
    if left ≤ right then
      let mid := (left + right) / 2
      match names[mid.toNat]? with
      | none => false
      | some name =>
        if name = target then true
        else if name.data < target.data then searchLoop names target fuel (mid + 1) right
        else searchLoop names target fuel left (mid - 1)
    else false

/-- Modelled from the spec: the body of `BinarySearch`, of which only the
test `Test_BinarySearch` is available. The search for `target` in a list of
strings sorted in ascending order: halve the range of indices that may hold
`target` until it is found or the range is empty. -/
def BinarySearch (names : List String) (target : String) : Bool :=
  searchLoop names target (names.length + 1) 0 (names.length - 1)

/-! ## Vocabulary of the properties and sample inputs -/

/-- The parent element `..`. -/
def dotdot : List Char := ['.', '.']

/-- A path element that `Clean` copies: not empty, not `.`, not `..`. -/
def RealElem (e : List Char) : Prop := e ≠ [] ∧ e ≠ ['.'] ∧ e ≠ ['.', '.']

/-- The shape of the stack of `Clean`, last element first: copied elements
above a block of leading `..`, which is empty in a rooted path. -/
def StackForm (rooted : Bool) (out : List (List Char)) : Prop :=
  ∃ k reals, out = reals ++ List.replicate k dotdot ∧ (∀ e ∈ reals, RealElem e) ∧
    (rooted = true → k = 0)

/-- The path a call creates or writes, for the calls that unpack an archive. -/
def Event.createdPath : Event → Option String
  | .mkdirAll p => some p
  | .openFile p => some p
  | .copyTo p => some p
  | _ => none

/-- The URL that `GetArtifacts` fetches from, when the repository URL
parses to `u` on platform `platform`. -/
def artifactURL (b : BPF) (platform : String) (u : URL) : URL :=
  { u with Path := pathJoin [u.Path, b.Program.Name, b.Program.Version, platform,
                             b.Program.Artifact] }

/-- The repository URL that `GetArtifacts` parses. -/
def repoURL (conf : Config) (b : BPF) : String :=
  if len b.Program.EPRURL = 0 then conf.EBPFRepoURL else b.Program.EPRURL

/-- An environment in which nothing exists and every call fails. -/
def deadEnv : Env where
  stat := fun _ _ => .notExist
  GetPlatform := .error "unknown platform"
  urlParse := fun _ => none
  httpGet := fun _ _ => none
  osOpen := fun _ _ => none
  writeFileErr := fun _ _ => true
  assertExecutable := fun _ _ => false
  startErr := fun _ _ => true
  startPid := fun _ _ => 0
  waitErr := fun _ _ => true
  runOutput := fun _ _ _ => ""
  processTerminateErr := fun _ => true
  isProcessRunning := fun _ _ _ => (false, true)
  getpid := 1
  processes := fun _ => none
  killErr := fun _ _ => true
  removeMemlockErr := fun _ => true
  loadCollection := fun _ _ => none
  interfaceByName := fun _ _ => none
  attachXDPErr := fun _ _ => true
  attachTCErr := fun _ _ _ => true
  mkdirAllErr := fun _ _ => true
  pinErr := fun _ _ _ => true
  unpinErr := fun _ _ => true
  mapAlive := fun _ _ => false
  progFD := fun _ _ => .error true
  loadPinnedMapErr := fun _ _ => true
  pinnedLookup := fun _ _ _ => none
  mapUpdateErr := fun _ _ _ _ => true
  mapDeleteErr := fun _ _ _ => true
  collMapUpdateErr := fun _ _ => true

/-- An instance of program `foo`, version `v1`, artifact `foo.tar.gz`. -/
def fooInst : St :=
  { b := { Program := { Name := "foo", Version := "v1", Artifact := "foo.tar.gz" },
           hostConfig := { BPFDir := "/var/l3afd" } },
    w := {} }

/-- A write of an entry into a map reached by its ID, the call by which
`LoadBPFProgramChain` links a program into the previous program's tail-call
map. -/
def Event.isLink : Event → Bool
  | .mapUpdate _ _ _ => true
  | _ => false

/-- The calls made between two worlds. -/
def newEvents (w w' : World) : List Event := w'.trace.drop w.trace.length

/-- From `w` to `w'` calls were only added, none of them a link write, and no
slot of a kernel map gained an entry. -/
def Quiet (w w' : World) : Prop :=
  ∃ new, w'.trace = w.trace ++ new ∧ (∀ ev ∈ new, ev.isLink = false) ∧
    ∀ id k v, w'.slots id k = some v → w.slots id k = some v

/-- A collection with the entry function `xdp_main` and the chaining map
`next_prog`. -/
def fooColl : Collection :=
  { Programs := [("xdp_main", { FD := 7, Info := some (some 42) })],
    Maps := [("next_prog", { Info := some (some 11), KeySize := 4, ValueSize := 4 })] }

/-- An environment in which every call succeeds; no pinned map exists yet
below `/sys/fs/bpf`, every other file exists. -/
def goodEnv : Env where
  stat := fun _ p => if HasPrefix p "/sys/fs/bpf" then .notExist else .file
  GetPlatform := .ok "focal"
  urlParse := fun _ => some { Scheme := "file", Path := "/srv/repo" }
  httpGet := fun _ _ => some (200, {})
  osOpen := fun _ _ => some {}
  writeFileErr := fun _ _ => false
  assertExecutable := fun _ _ => true
  startErr := fun _ _ => false
  startPid := fun _ _ => 4242
  waitErr := fun _ _ => false
  runOutput := fun _ _ _ => "RUNNING"
  processTerminateErr := fun _ => false
  isProcessRunning := fun _ _ _ => (true, false)
  getpid := 1
  processes := fun _ => some []
  killErr := fun _ _ => false
  removeMemlockErr := fun _ => false
  loadCollection := fun _ _ => some fooColl
  interfaceByName := fun _ _ => some 2
  attachXDPErr := fun _ _ => false
  attachTCErr := fun _ _ _ => false
  mkdirAllErr := fun _ _ => false
  pinErr := fun _ _ _ => false
  unpinErr := fun _ _ => false
  mapAlive := fun _ _ => true
  progFD := fun _ _ => .ok 7
  loadPinnedMapErr := fun _ _ => false
  pinnedLookup := fun _ _ _ => some 42
  mapUpdateErr := fun _ _ _ _ => false
  mapDeleteErr := fun _ _ _ => false
  collMapUpdateErr := fun _ _ => false

/-- An xdp program with the chaining map `next_prog`, to be linked into the
map with ID 5. -/
def fooXdp : St :=
  { b := { Program := { Name := "foo", Version := "v1", ProgType := "xdp", MapName := "next_prog",
                        ObjectFile := "foo.o", EntryFunctionName := "xdp_main" },
           FilePath := "/var/l3afd/foo/v1/foo",
           MapNamePath := "/sys/fs/bpf/eth0/next_prog",
           PrevProgMapID := 5,
           hostConfig := { BpfMapDefaultPath := "/sys/fs/bpf" } },
    w := {} }

/-- The same program without a chaining-map name: a terminal program. -/
def fooTerminal : St :=
  { fooXdp with b := { fooXdp.b with Program := { fooXdp.b.Program with MapName := "" },
                                     MapNamePath := "" } }

/-- From `w` to `w'` calls were only added, each of them with property `P`. -/
def Adds (P : Event → Prop) (w w' : World) : Prop :=
  ∃ new, w'.trace = w.trace ++ new ∧ ∀ ev ∈ new, P ev

/-- The pinned-map layout of section 6 of the specification:
`<bpf-map-root>/<iface>/<map-name>` for xdp and
`<bpf-map-root>/tc/globals/<iface>/<map-name>` for tc. -/
def specPinPath (root progType ifaceName mapName : String) : String :=
  if progType = "xdp" then Join [root, ifaceName, mapName]
  else if progType = "tc" then Join [root, "tc/globals", ifaceName, mapName]
  else ""

/-- A call of the pin loop is a stat, or pins a map at its file name. -/
def pinShape (b : BPF) (iface : String) (ev : Event) : Prop :=
  (∃ p, ev = .stat p) ∨ (∃ p, ev = .mkdirAll p) ∨ ∃ k, ev = .pin k (mapFilename b iface k)

/-- A call of the removal loop unpins a map, or removes the file name of a
map of the collection. -/
def removeShape (b : BPF) (iface : String) (ms : List (String × KMap)) (ev : Event) : Prop :=
  (∃ k, ev = .unpin k) ∨ ∃ k, k ∈ ms.map Prod.fst ∧ ev = .removeAll (mapFilename b iface k)

/-- The argument `--<key>=<value>` of the user-program command line. -/
def argOf (p : String × String) : String := "--" ++ p.1 ++ "=" ++ p.2

/-- An args map whose values are the given strings. -/
def stringArgs (pairs : List (String × String)) : ArgMap :=
  pairs.map (fun p => (p.1, Value.str p.2))

/-- The call is not the start of a command. -/
def Event.notExec (ev : Event) : Prop := ∀ cmd args, ev ≠ .exec cmd args

/-- A daemon program `ipfix` with a start, a stop and an update command whose
args are all strings. -/
def ipfixInst : St :=
  { b := { Program := { Name := "ipfix", Version := "v1", ProgType := "tc",
                        CmdStart := "ipfix_start", CmdStop := "ipfix_stop",
                        CmdUpdate := "ipfix_update", UserProgramDaemon := true,
                        StartArgs := [("collector_ip", .str "127.0.0.1"), ("verbose", .str "2")],
                        StopArgs := [("force", .str "1")],
                        UpdateArgs := [("rate", .str "5")] },
           FilePath := "/var/l3afd/ipfix/v1/ipfix",
           Cmd := some { Path := "/var/l3afd/ipfix/v1/ipfix/ipfix_start", Args := [],
                         Process := some 4242 },
           hostConfig := { BpfMapDefaultPath := "/sys/fs/bpf" } },
    w := {} }

/-- The same program with a number among each of its args maps. -/
def ipfixBadArgs : St :=
  { ipfixInst with
    b := { ipfixInst.b with
           Program := { ipfixInst.b.Program with
                        StartArgs := [("collector_ip", .str "127.0.0.1"), ("verbose", .other)],
                        StopArgs := [("force", .other)],
                        UpdateArgs := [("rate", .other)] } } }

/-- An environment in which every call succeeds and the status command
prints `STOPPED`. -/
def stoppedEnv : Env := { goodEnv with runOutput := fun _ _ _ => "STOPPED" }

/-- A loaded program whose status command is named `s`. -/
def shortStatusInst : St :=
  { b := { Program := { Name := "foo", Version := "v1", ProgType := "xdp", CmdStatus := "s" },
           FilePath := "/var/l3afd/foo/v1/foo", ProgID := 42,
           hostConfig := { BpfMapDefaultPath := "/sys/fs/bpf" } },
    w := {} }

/-- The same program with the status command named `st`. -/
def longStatusInst : St :=
  { shortStatusInst with
    b := { shortStatusInst.b with Program := { shortStatusInst.b.Program with CmdStatus := "st" } } }

/-- A loaded instance that holds two map records, two metric records and a
program ID. -/
def loadedInst : St :=
  { fooXdp with
    b := { fooXdp.b with
           ProgID := 42, ProgMapCollection := some fooColl, XDPLink := true,
           BpfMaps := [("cfg", { Name := "cfg", MapID := 21, MapType := 1 }),
                       ("acl", { Name := "acl", MapID := 22, MapType := 1 })],
           MetricsBpfMaps := [("ctr0max", { toBPFMap := { Name := "ctr", MapID := 23, MapType := 2 },
                                            key := 0, aggregator := "max", Values := 5 })] } }

/-- The calls of `n` polls that each find the file and sleep. -/
def pollTrace (path : String) : Nat → List Event
  | 0 => []
  | n + 1 => .stat path :: .sleep :: pollTrace path n

/-- An environment in which every call succeeds and every file, pinned maps
included, exists at all times. -/
def stuckEnv : Env := { goodEnv with stat := fun _ _ => .file }

/-- Equality of two strings after lower-casing the ASCII letters: the
comparison "case-insensitively" of the specification. -/
def eqIgnoreCase (s t : String) : Bool :=
  s.data.map Char.toLower = t.data.map Char.toLower

/-- An upper-case ASCII letter whose only case variants are itself and its
lower-case form: every letter but `K` and `S`. -/
def plainUpper (t : Char) : Bool :=
  SimpleFold t = t.toLower ∧ SimpleFold t.toLower = t ∧ 65 ≤ t.toNat ∧ t.toNat ≤ 90

/-- A loaded daemon program with a running child and the stop command
`foo_stop`. -/
def daemonLoaded : St :=
  { loadedInst with
    b := { loadedInst.b with
           Program := { loadedInst.b.Program with
                        CmdStart := "foo_user", CmdStop := "foo_stop", UserProgramDaemon := true,
                        StopArgs := [("force", .str "1")] },
           Cmd := some { Path := "/var/l3afd/foo/v1/foo/foo_user", Args := [],
                         Process := some 4242 } } }

/-- The same daemon program without a stop command. -/
def daemonNoStop : St :=
  { daemonLoaded with
    b := { daemonLoaded.b with
           Program := { daemonLoaded.b.Program with CmdStop := "", StopArgs := [] } } }

/-- The same daemon program with a number among its stop args. -/
def daemonBadStopArgs : St :=
  { daemonLoaded with
    b := { daemonLoaded.b with
           Program := { daemonLoaded.b.Program with StopArgs := [("force", .other)] } } }

/-- An environment in which every call succeeds but the termination of the
daemon child. -/
def noTerminateEnv : Env := { goodEnv with processTerminateErr := fun _ => true }

/-- An environment in which every call succeeds but no file is executable. -/
def noExecEnv : Env := { goodEnv with assertExecutable := fun _ _ => false }

/-- An environment in which every call succeeds but no interface is found. -/
def noIfaceEnv : Env := { goodEnv with interfaceByName := fun _ _ => none }

/-- The file exists for the call of `os.Stat` made at time `t`: the call
returns no error. -/
def statFinds (env : Env) (path : String) (t : Nat) : Bool :=
  env.stat t path = .file ∨ env.stat t path = .dir

/-- An environment in which every call succeeds and every file exists from
time 4 on, none before. -/
def lateEnv : Env := { goodEnv with stat := fun t _ => if t < 4 then .notExist else .file }

/-- A program that declares no command at all and no object file. -/
def bareInst : St :=
  { b := { Program := { Name := "foo", Version := "v1", ProgType := "xdp" },
           FilePath := "/var/l3afd/foo/v1/foo",
           hostConfig := { BpfMapDefaultPath := "/sys/fs/bpf" } },
    w := {} }

/-- The program `foo` in a chain: its own tail-call map has the ID 11, the
map of the previous program the ID 5. -/
def chainedInst : St := { fooXdp with b := { fooXdp.b with ProgMapID := 11 } }

/-- The same program in a world in which the previous program's map leads to
it: key 0 of map 5 holds the FD 7. -/
def linkedInst : St :=
  { chainedInst with w := { slots := fun i k => if i = 5 ∧ k = 0 then some 7 else none } }

/-- An environment in which every call succeeds and the program with ID 99
has the FD 9. -/
def chainEnv : Env := { goodEnv with progFD := fun _ id => if id = 99 then .ok 9 else .ok 7 }

/-- The install directory that `VerifyAndGetArtifacts` looks for:
`join(BPFDir, Name, Version, Split(Artifact, ".")[0])`. -/
def installDir (conf : Config) (b : BPF) : String :=
  Join [conf.BPFDir, b.Program.Name, b.Program.Version, splitDotFirst b.Program.Artifact]

/-- The artifact file name with its archive suffix `.tar.gz` or `.zip`
stripped, as the specification describes the last element of the install
directory. -/
def stripArchiveSuffix (artifact : String) : String :=
  if HasSuffix artifact ".tar.gz" then ⟨artifact.data.take (artifact.data.length - 7)⟩
  else if HasSuffix artifact ".zip" then ⟨artifact.data.take (artifact.data.length - 4)⟩
  else artifact

/-- The paths that the calls of a trace create or write. -/
def createdPaths (evs : List Event) : List String := evs.filterMap Event.createdPath

/-- A `.tar.gz` with the directory `bin` and the file `bin/foo_user`. -/
def flatTar : Buffer :=
  { tarGz := some ([{ Name := "bin", IsDir := true }, { Name := "bin/foo_user" }], false) }

/-- An environment that serves `flatTar` from a `file://` repository; the
directory `/var/l3afd/foo/v1/foo` does not exist, every other file does. -/
def flatEnv : Env :=
  { goodEnv with
    stat := fun _ p => if p = "/var/l3afd/foo/v1/foo" then .notExist else .file
    osOpen := fun _ _ => some flatTar }

/-- A `.tar.gz` with the directory `foo` and the file `foo/foo_user`. -/
def fooTar : Buffer :=
  { tarGz := some ([{ Name := "foo", IsDir := true }, { Name := "foo/foo_user" }], false) }

/-- An environment that serves `fooTar` from a `file://` repository; no file
exists at time 0, every file exists later. -/
def freshEnv : Env :=
  { goodEnv with
    stat := fun t _ => if t = 0 then .notExist else .file
    osOpen := fun _ _ => some fooTar }

/-- An instance of program `prog`, version `v1`, artifact `my.prog.tar.gz`. -/
def dottedInst : St :=
  { b := { Program := { Name := "prog", Version := "v1", Artifact := "my.prog.tar.gz" },
           hostConfig := { BPFDir := "/var/l3afd" } },
    w := {} }

/-- The argument `--<key> =<value>`, with a blank before the equals sign, as
`Stop` and `isRunning` write it. -/
def blankArgOf (p : String × String) : String := "--" ++ p.1 ++ " =" ++ p.2

/-- A loaded program with the status command `foo_status` and one status
arg. -/
def statusInst : St :=
  { shortStatusInst with
    b := { shortStatusInst.b with
           Program := { shortStatusInst.b.Program with
                        CmdStatus := "foo_status", StatusArgs := [("verbose", .str "2")] } } }

/-- An environment in which every call succeeds but the lookup of a program
by its ID, which fails with an error other than `os.ErrNotExist`. -/
def permEnv : Env := { goodEnv with progFD := fun _ _ => .error false }

/-- A loaded program with the status command `foo_status` and a number as
its one status arg. -/
def statusBadInst : St :=
  { statusInst with
    b := { statusInst.b with
           Program := { statusInst.b.Program with StatusArgs := [("verbose", .other)] } } }

/-- An environment in which every call succeeds but `os.Stat`, which fails
with an error other than not-exist. -/
def lockedEnv : Env := { goodEnv with stat := fun _ _ => .otherErr }

/-- An xdp program whose chaining-map name climbs two directories. -/
def escapeProg : BPFProgram :=
  { Name := "foo", Version := "v1", ProgType := "xdp", MapName := "../../etc/next_prog" }

/-- A configuration with the map root `/sys/fs/bpf`. -/
def bpffsConf : Config := { BpfMapDefaultPath := "/sys/fs/bpf" }

/-- The directory that `CreateMapPinDirectory` creates for the instance. -/
def pinDir (b : BPF) (ifaceName : String) : String :=
  if b.Program.ProgType = XDPType then Join [b.hostConfig.BpfMapDefaultPath, ifaceName]
  else if b.Program.ProgType = TCType then
    Join [b.hostConfig.BpfMapDefaultPath, TCMapPinPath, ifaceName]
  else ""

/-- The calls that pin the maps of a collection from time `t` on: for each
map, in order, the stat of its file name, followed by the pin at that file
name unless the stat has found a file there. -/
def pinTrace (env : Env) (b : BPF) (ifaceName : String) : List (String × KMap) → Nat → List Event
  | [], _ => []
  | (k, _) :: rest, t =>
    if env.stat t (mapFilename b ifaceName k) = .file then
      .stat (mapFilename b ifaceName k) :: pinTrace env b ifaceName rest (t + 1)
    else
      .stat (mapFilename b ifaceName k) :: .pin k (mapFilename b ifaceName k) ::
        pinTrace env b ifaceName rest (t + 2)

/-- A collection with the maps `cfg` and `next_prog`. -/
def twoMapColl : Collection :=
  { Programs := [("xdp_main", { FD := 7, Info := some (some 42) })],
    Maps := [("cfg", { Info := some (some 21), KeySize := 4, ValueSize := 4 }),
             ("next_prog", { Info := some (some 11), KeySize := 4, ValueSize := 4 })] }

/-- The program `foo` with the collection `twoMapColl` loaded. -/
def twoMapInst : St :=
  { fooXdp with b := { fooXdp.b with ProgMapCollection := some twoMapColl } }

/-- An environment in which every call succeeds and the map `cfg` is pinned
already: its file exists, no other file below `/sys/fs/bpf` does. -/
def sharedEnv : Env :=
  { goodEnv with
    stat := fun _ p => if p = "/sys/fs/bpf/eth0/cfg" then .file
                       else if HasPrefix p "/sys/fs/bpf" then .notExist else .file }

/-- The file that `createUpdateRulesFile` writes for a direction. -/
def rulesPath (b : BPF) (direction : String) : String :=
  pathJoin [b.FilePath, direction, b.Program.RulesFile]

/-- The optional flags of the start command: `--map-name` when chaining is on,
the program was not loaded by the daemon and the path of the previous map is
not empty; `--log-dir` when the log directory is not empty; `--rules-file`
when the name of the rules file and the rules are not empty and the rules
were written. -/
def optionalFlags (b : BPF) (direction : String) (chain written : Bool) : List String :=
  (if chain = true ∧ b.ProgMapCollection = none ∧ len b.PrevMapNamePath > 0
    then ["--map-name=" ++ b.PrevMapNamePath] else []) ++
  (if len b.hostConfig.BPFLogDir > 0 then ["--log-dir=" ++ b.hostConfig.BPFLogDir] else []) ++
  (if len b.Program.RulesFile > 0 ∧ len b.Program.Rules > 0 ∧ written = true
    then ["--rules-file=" ++ rulesPath b direction] else [])

/-- The write of the rules, made when the name of the rules file and the
rules are not empty. -/
def rulesWrite (b : BPF) (direction : String) : List Event :=
  if len b.Program.RulesFile > 0 ∧ len b.Program.Rules > 0
  then [.writeFile (rulesPath b direction) b.Program.Rules] else []

/-- The daemon program `ipfix` with a rules file, rules, a log directory and
the path of the previous program's map. -/
def rulesInst : St :=
  { ipfixInst with
    b := { ipfixInst.b with
           Program := { ipfixInst.b.Program with RulesFile := "rules.json", Rules := "allow all" },
           PrevMapNamePath := "/sys/fs/bpf/eth0/root_map",
           Cmd := none,
           hostConfig := { BpfMapDefaultPath := "/sys/fs/bpf", BPFLogDir := "/var/log/l3af" } } }

/-- The same program without the path of a previous map. -/
def rulesNoPrev : St := { rulesInst with b := { rulesInst.b with PrevMapNamePath := "" } }

/-- An environment in which every call succeeds but the write of a file. -/
def readOnlyEnv : Env := { goodEnv with writeFileErr := fun _ _ => true }

/-- The key of `MetricsBpfMaps` under which a monitor-map declaration is
stored and looked up: name, key in decimal and aggregator, one after the
other. -/
def metricKey (m : MonitorMap) : String := m.Name ++ Itoa m.Key ++ m.Aggregator

/-- The name under which the value of a declaration is published. -/
def metricName (m : MonitorMap) : String := m.Name ++ "_" ++ Itoa m.Key ++ "_" ++ m.Aggregator

/-- The number that a list of decimal digits stands for. -/
def decVal (ds : List Char) : Nat := ds.foldl (fun a c => 10 * a + (c.toNat - 48)) 0

/-- A collection with the counter maps `ctr` and `ctr1`. -/
def ctrColl : Collection :=
  { Programs := [("xdp_main", { FD := 7, Info := some (some 42) })],
    Maps := [("ctr", { Info := some (some 23), MapType := 2, KeySize := 4, ValueSize := 8 }),
             ("ctr1", { Info := some (some 25), MapType := 2, KeySize := 4, ValueSize := 8 })] }

/-- A loaded program that monitors key 12 of `ctr` and key 2 of `ctr1`. -/
def ctrInst : St :=
  { fooXdp with
    b := { fooXdp.b with
           Program := { fooXdp.b.Program with
                        MonitorMaps := [{ Name := "ctr", Key := 12, Aggregator := "max" },
                                        { Name := "ctr1", Key := 2, Aggregator := "max" }] },
           ProgMapCollection := some ctrColl } }

/-- The same program monitoring the keys 1 and 2 of `ctr`. -/
def ctrKeysInst : St :=
  { ctrInst with
    b := { ctrInst.b with
           Program := { ctrInst.b.Program with
                        MonitorMaps := [{ Name := "ctr", Key := 1, Aggregator := "max" },
                                        { Name := "ctr", Key := 2, Aggregator := "max" }] } } }

/-- The declaration that a record of `MetricsBpfMaps` was made for. -/
def declOf (r : MetricsBPFMap) : MonitorMap :=
  { Name := r.toBPFMap.Name, Key := r.key, Aggregator := r.aggregator }

/-- Every record is stored under the key of the declaration it was made
for. -/
def OwnKeys (records : List (String × MetricsBPFMap)) : Prop :=
  ∀ k r, mapGet records k = some r → k = metricKey (declOf r)

/-- The list is sorted in ascending order: no string is followed, anywhere
later in the list, by a smaller one. -/
def Ascending (names : List String) : Prop :=
  names.Pairwise (fun a b => ¬ b.data < a.data)

instance (names : List String) : Decidable (Ascending names) := by
  unfold Ascending
  infer_instance

/-- The list of the test `Test_BinarySearch`. -/
def testNames : List String := ["connection-limit", "ipfix-flow-exporter", "ratelimiting"]

/-! ## Properties -/

/-! ### Cleaning a path -/

theorem splitSep_ne_nil (p : List Char) : splitSep p ≠ [] := by
  cases p with
  | nil => simp [splitSep]
  | cons c cs =>
    simp only [splitSep]
    split
    · simp
    · split <;> simp

theorem splitSep_no_sep (p : List Char) : ∀ e ∈ splitSep p, '/' ∉ e := by
  induction p with
  | nil => simp [splitSep]
  | cons c cs ih =>
    simp only [splitSep]
    split
    · intro e he
      rcases List.mem_cons.1 he with h | h
      · simp [h]
      · exact ih e h
    · rename_i hc
      split
      · rename_i heq
        exact absurd heq (splitSep_ne_nil cs)
      · rename_i e es heq
        intro x hx
        rw [heq] at ih
        rcases List.mem_cons.1 hx with h | h
        · subst h
          have := ih e (by simp)
          simp only [List.mem_cons, not_or]
          exact ⟨fun h => hc h.symm, this⟩
        · exact ih x (by simp [h])

theorem splitSep_single (e : List Char) (h : '/' ∉ e) : splitSep e = [e] := by
  induction e with
  | nil => rfl
  | cons c cs ih =>
    simp only [List.mem_cons, not_or] at h
    have hc : c ≠ '/' := fun x => h.1 x.symm
    simp [splitSep, hc, ih h.2]

theorem splitSep_append_sep (e rest : List Char) (h : '/' ∉ e) :
    splitSep (e ++ '/' :: rest) = e :: splitSep rest := by
  induction e with
  | nil => simp [splitSep]
  | cons c cs ih =>
    simp only [List.mem_cons, not_or] at h
    have hc : c ≠ '/' := fun x => h.1 x.symm
    simp [splitSep, hc, ih h.2]

theorem splitSep_joinSep (es : List (List Char)) (hne : es ≠ [])
    (h : ∀ e ∈ es, '/' ∉ e) : splitSep (joinSep es) = es := by
  induction es with
  | nil => exact absurd rfl hne
  | cons e rest ih =>
    cases rest with
    | nil => simpa [joinSep] using splitSep_single e (h e (by simp))
    | cons e2 rest2 =>
      simp only [joinSep]
      rw [splitSep_append_sep e _ (h e (by simp))]
      rw [ih (by simp) (fun x hx => h x (by simp [hx]))]

theorem cleanStep_form (rooted : Bool) (out : List (List Char)) (e : List Char)
    (h : StackForm rooted out) : StackForm rooted (cleanStep rooted out e) := by
  obtain ⟨k, reals, rfl, hreal, hk⟩ := h
  unfold cleanStep
  split
  · exact ⟨k, reals, rfl, hreal, hk⟩
  · rename_i h1
    split
    · rename_i h2
      subst h2
      cases reals with
      | nil =>
        cases k with
        | zero =>
          simp only [List.replicate, List.append_nil]
          cases rooted with
          | true => exact ⟨0, [], by simp, by simp, by simp⟩
          | false => exact ⟨1, [], by simp [dotdot], by simp, by simp⟩
        | succ k =>
          have hr : rooted = false := by
            cases rooted with
            | true => exact absurd (hk rfl) (by simp)
            | false => rfl
          subst hr
          simp only [List.nil_append, List.replicate, dotdot]
          simp only [if_true, Bool.false_eq_true, if_false]
          exact ⟨k + 2, [], by simp [List.replicate, dotdot], by simp, by simp⟩
      | cons r rs =>
        have hr := hreal r (by simp)
        simp only [List.cons_append]
        rw [if_neg hr.2.2]
        exact ⟨k, rs, rfl, fun x hx => hreal x (by simp [hx]), hk⟩
    · rename_i h2
      refine ⟨k, e :: reals, by simp, ?_, hk⟩
      intro x hx
      rcases List.mem_cons.1 hx with h | h
      · subst h
        simp only [not_or] at h1
        exact ⟨h1.1, h1.2, h2⟩
      · exact hreal x h

theorem cleanStep_mem (rooted : Bool) (out : List (List Char)) (e x : List Char)
    (h : x ∈ cleanStep rooted out e) : x ∈ out ∨ x = e := by
  unfold cleanStep at h
  split at h
  · exact Or.inl h
  · split at h
    · split at h
      · split at h
        · split at h
          · exact Or.inl h
          · rcases List.mem_cons.1 h with h | h
            · exact Or.inr h
            · exact Or.inl h
        · exact Or.inl (by simp [h])
      · split at h
        · simp at h
        · simp at h; exact Or.inr h
    · rcases List.mem_cons.1 h with h | h
      · exact Or.inr h
      · exact Or.inl h

theorem foldl_cleanStep_form (rooted : Bool) (es : List (List Char)) (out : List (List Char))
    (h : StackForm rooted out) : StackForm rooted (es.foldl (cleanStep rooted) out) := by
  induction es generalizing out with
  | nil => exact h
  | cons e rest ih => exact ih _ (cleanStep_form rooted out e h)

theorem foldl_cleanStep_mem (rooted : Bool) (es : List (List Char)) (out : List (List Char))
    (x : List Char) (h : x ∈ es.foldl (cleanStep rooted) out) : x ∈ out ∨ x ∈ es := by
  induction es generalizing out with
  | nil => exact Or.inl h
  | cons e rest ih =>
    rcases ih _ h with h1 | h1
    · rcases cleanStep_mem rooted out e x h1 with h2 | h2
      · exact Or.inl h2
      · exact Or.inr (by simp [h2])
    · exact Or.inr (by simp [h1])

theorem foldl_cleanStep_reals (rooted : Bool) (reals : List (List Char))
    (out : List (List Char)) (h : ∀ e ∈ reals, RealElem e) :
    reals.foldl (cleanStep rooted) out = reals.reverse ++ out := by
  induction reals generalizing out with
  | nil => rfl
  | cons e rest ih =>
    have he := h e (by simp)
    have hstep : cleanStep rooted out e = e :: out := by
      unfold cleanStep
      rw [if_neg (by simp [he.1, he.2.1]), if_neg he.2.2]
    simp only [List.foldl_cons, hstep]
    rw [ih _ (fun x hx => h x (by simp [hx]))]
    simp

theorem foldl_cleanStep_dotdots (k j : Nat) :
    (List.replicate k dotdot).foldl (cleanStep false) (List.replicate j dotdot) =
      List.replicate (k + j) dotdot := by
  induction k generalizing j with
  | zero => simp
  | succ k ih =>
    have hstep : cleanStep false (List.replicate j dotdot) dotdot =
        List.replicate (j + 1) dotdot := by
      cases j with
      | zero => simp [cleanStep, dotdot]
      | succ j => simp [cleanStep, dotdot, List.replicate]
    rw [List.replicate_succ, List.foldl_cons, hstep, ih]
    congr 1
    omega

/-- Cleaning the elements that `Clean` kept gives them back. -/
theorem foldl_cleanStep_canonical (rooted : Bool) (out : List (List Char))
    (h : StackForm rooted out) : out.reverse.foldl (cleanStep rooted) [] = out := by
  obtain ⟨k, reals, rfl, hreal, hk⟩ := h
  rw [List.reverse_append, List.foldl_append, List.reverse_replicate]
  have h1 : (List.replicate k dotdot).foldl (cleanStep rooted) [] = List.replicate k dotdot := by
    cases rooted with
    | true => simp [hk rfl]
    | false => simpa using foldl_cleanStep_dotdots k 0
  rw [h1, foldl_cleanStep_reals rooted reals.reverse _ (by simpa using hreal)]
  simp

theorem stackForm_nil (rooted : Bool) : StackForm rooted [] :=
  ⟨0, [], by simp, by simp, by simp⟩

theorem stackForm_elem (rooted : Bool) (out : List (List Char)) (h : StackForm rooted out) :
    ∀ e ∈ out, e ≠ [] ∧ e ≠ ['.'] := by
  obtain ⟨k, reals, rfl, hreal, _⟩ := h
  intro e he
  rcases List.mem_append.1 he with h1 | h1
  · exact ⟨(hreal e h1).1, (hreal e h1).2.1⟩
  · have := List.eq_of_mem_replicate h1
    subst this
    simp [dotdot]

/-- The elements `Clean` keeps have no separator, are not empty and are not
`.`; cleaning them again changes nothing. -/
theorem cleanElems_props (rooted : Bool) (p : List Char) :
    (∀ e ∈ cleanElems rooted p, '/' ∉ e ∧ e ≠ [] ∧ e ≠ ['.']) ∧
    ((cleanElems rooted p).foldl (cleanStep rooted) []).reverse = cleanElems rooted p := by
  have hform := foldl_cleanStep_form rooted (splitSep p) [] (stackForm_nil rooted)
  constructor
  · intro e he
    have he2 : e ∈ (splitSep p).foldl (cleanStep rooted) [] := by
      simpa [cleanElems] using he
    have h1 := stackForm_elem rooted _ hform e he2
    rcases foldl_cleanStep_mem rooted _ _ e he2 with h | h
    · simp at h
    · exact ⟨splitSep_no_sep p e h, h1⟩
  · unfold cleanElems
    rw [foldl_cleanStep_canonical rooted _ hform]

theorem joinSep_head (e : List Char) (rest : List (List Char)) (c : Char) (cs : List Char)
    (h : e = c :: cs) : ∃ t, joinSep (e :: rest) = c :: t := by
  subst h
  cases rest with
  | nil => exact ⟨cs, rfl⟩
  | cons e2 r2 => exact ⟨cs ++ '/' :: joinSep (e2 :: r2), by simp [joinSep]⟩

theorem cleanElems_rooted_again (p : List Char) :
    cleanElems true ('/' :: joinSep (cleanElems true p)) = cleanElems true p := by
  obtain ⟨h1, h2⟩ := cleanElems_props true p
  generalize cleanElems true p = S at h1 h2
  have hsplit : splitSep ('/' :: joinSep S) = [] :: splitSep (joinSep S) := by
    simp [splitSep]
  have hskip : cleanStep true [] [] = [] := by simp [cleanStep]
  unfold cleanElems
  rw [hsplit, List.foldl_cons, hskip]
  by_cases hS : S = []
  · subst hS
    simp [joinSep, splitSep, cleanStep]
  · rw [splitSep_joinSep S hS (fun e he => (h1 e he).1)]
    exact h2

theorem cleanElems_unrooted_again (p : List Char) (hne : cleanElems false p ≠ []) :
    cleanElems false (joinSep (cleanElems false p)) = cleanElems false p := by
  obtain ⟨h1, h2⟩ := cleanElems_props false p
  generalize cleanElems false p = S at h1 h2 hne
  unfold cleanElems
  rw [splitSep_joinSep S hne (fun e he => (h1 e he).1)]
  exact h2

theorem joinSep_eq_nil (S : List (List Char)) (h : ∀ e ∈ S, e ≠ []) (hj : joinSep S = []) :
    S = [] := by
  cases S with
  | nil => rfl
  | cons e rest =>
    exfalso
    have he := h e (by simp)
    cases e with
    | nil => exact he rfl
    | cons c cs =>
      obtain ⟨t, ht⟩ := joinSep_head (c :: cs) rest c cs rfl
      rw [ht] at hj
      simp at hj

theorem joinSep_head_ne_sep (S : List (List Char)) (h : ∀ e ∈ S, '/' ∉ e ∧ e ≠ [] ∧ e ≠ ['.']) :
    (joinSep S).head? ≠ some '/' := by
  cases S with
  | nil => simp [joinSep]
  | cons e rest =>
    have he := h e (by simp)
    cases e with
    | nil => exact absurd rfl he.2.1
    | cons c cs =>
      obtain ⟨t, ht⟩ := joinSep_head (c :: cs) rest c cs rfl
      rw [ht]
      simp only [List.head?_cons, ne_eq, Option.some.injEq]
      intro hc
      exact he.1 (by simp [hc])

/-- Idempotence of `Clean`. -/
theorem cleanChars_idem (p : List Char) : cleanChars (cleanChars p) = cleanChars p := by
  by_cases hp : p = []
  · subst hp
    decide
  · by_cases hr : p.head? = some '/'
    · have h1 : cleanChars p = '/' :: joinSep (cleanElems true p) := by
        simp [cleanChars, hp, hr]
      rw [h1]
      simp only [cleanChars, List.head?_cons, if_true, reduceCtorEq, if_false, decide_True]
      rw [cleanElems_rooted_again]
    · by_cases hb : joinSep (cleanElems false p) = []
      · have h1 : cleanChars p = ['.'] := by
          simp [cleanChars, hp, hr, hb]
        rw [h1]
        decide
      · have h1 : cleanChars p = joinSep (cleanElems false p) := by
          simp [cleanChars, hp, hr, hb]
        have hS : cleanElems false p ≠ [] := by
          intro h
          exact hb (by rw [h]; rfl)
        have hhead := joinSep_head_ne_sep _ (cleanElems_props false p).1
        rw [h1]
        simp only [cleanChars, hb, if_false, hhead, decide_False, Bool.false_eq_true]
        rw [cleanElems_unrooted_again p hS]
        simp [hb]

theorem Clean_idem (p : String) : Clean (Clean p) = Clean p := by
  simp [Clean, cleanChars_idem]

theorem GetArtifacts_eq (env : Env) (conf : Config) (s : St) (platform : String) (u : URL)
    (buf : Buffer) (w : World) (hp : env.GetPlatform = .ok platform)
    (hu : env.urlParse (repoURL conf s.b) = some u)
    (hf : fetchArtifact env (artifactURL s.b platform u) s.w = (.ok buf, w)) :
    GetArtifacts env conf s = extractArtifact conf buf { s with w := w } := by
  unfold GetArtifacts
  unfold repoURL at hu
  unfold artifactURL at hf
  simp only [hp, hu, hf]

theorem GetArtifacts_fetch_error (env : Env) (conf : Config) (s : St) (platform : String)
    (u : URL) (e : String) (w : World) (hp : env.GetPlatform = .ok platform)
    (hu : env.urlParse (repoURL conf s.b) = some u)
    (hf : fetchArtifact env (artifactURL s.b platform u) s.w = (.error e, w)) :
    GetArtifacts env conf s = (.error e, { s with w := w }) := by
  unfold GetArtifacts
  unfold repoURL at hu
  unfold artifactURL at hf
  simp only [hp, hu, hf]

/-- Claim C2. `ValidatePath(p, d)` returns an error exactly when `p` contains
`..` or `join(d, p)` does not start with `clean(d) + separator`, and returns
`join(d, p)` with no error exactly in the other case. -/
theorem ValidatePath_spec (p d : String) :
    ((∃ e, ValidatePath p d = .error e) ↔
      (Contains p ".." = true ∨
        HasPrefix (Join [d, p]) (Clean d ++ PathSeparator) = false)) ∧
    (ValidatePath p d = .ok (Join [d, p]) ↔
      ¬ (Contains p ".." = true ∨
        HasPrefix (Join [d, p]) (Clean d ++ PathSeparator) = false)) := by
  unfold ValidatePath
  simp only
  by_cases h1 : Contains p ".." = true
  · simp [h1]
  · by_cases h2 : HasPrefix (Join [d, p]) (Clean d ++ PathSeparator) = true
    · simp [h1, h2]
    · simp [h1, h2]

/-- Claim C2, instance. An entry below the destination is accepted, one with
`..` and one below the root directory `/` are rejected. -/
theorem ValidatePath_spec_witness :
    ValidatePath "bin/x" "/var/l3afd/foo/v1" = .ok "/var/l3afd/foo/v1/bin/x" ∧
    (∃ e, ValidatePath "../etc/passwd" "/var/l3afd/foo/v1" = .error e) ∧
    (∃ e, ValidatePath "etc/passwd" "/" = .error e) :=
  ⟨((ValidatePath_spec "bin/x" "/var/l3afd/foo/v1").2.2 (by decide)).trans (by decide),
   (ValidatePath_spec "../etc/passwd" "/var/l3afd/foo/v1").1.2 (Or.inl (by decide)),
   (ValidatePath_spec "etc/passwd" "/").1.2 (Or.inr (by decide))⟩

/-- Samples of `Clean` and `Join`, taken from the test table of the Go
standard library. -/
theorem Clean_samples :
    Clean "" = "." ∧ Clean "abc" = "abc" ∧ Clean "a/b/c/" = "a/b/c" ∧ Clean "./" = "." ∧
    Clean "../../" = "../.." ∧ Clean "/" = "/" ∧ Clean "abc//def//ghi" = "abc/def/ghi" ∧
    Clean "/./abc/def" = "/abc/def" ∧ Clean "abc/def/ghi/../jkl" = "abc/def/jkl" ∧
    Clean "abc/def/../.." = "." ∧ Clean "/abc/def/../.." = "/" ∧
    Clean "abc/def/../../.." = ".." ∧ Clean "/abc/def/../../.." = "/" ∧
    Clean "abc/def/../../../ghi/jkl/../../../mno" = "../../mno" ∧ Clean "/../abc" = "/abc" ∧
    Clean "a/../b:/../../c" = "../c" ∧ Clean "abc/../../././../def" = "../../def" ∧
    Join ["a", "b"] = "a/b" ∧ Join ["a", ""] = "a" ∧ Join ["", "b"] = "b" ∧
    Join ["/", "a"] = "/a" ∧ Join ["a/", "b"] = "a/b" ∧ Join ["", ""] = "" ∧
    Join ["a", "../b"] = "b" := by
  decide

/-! ### Calls that write no link -/

theorem Quiet.refl (w : World) : Quiet w w :=
  ⟨[], by simp, by simp, fun _ _ _ h => h⟩

theorem Quiet.trans {w1 w2 w3 : World} (h1 : Quiet w1 w2) (h2 : Quiet w2 w3) : Quiet w1 w3 := by
  obtain ⟨n1, t1, l1, s1⟩ := h1
  obtain ⟨n2, t2, l2, s2⟩ := h2
  refine ⟨n1 ++ n2, by simp [t2, t1], ?_, fun id k v h => s1 id k v (s2 id k v h)⟩
  intro ev hev
  rcases List.mem_append.1 hev with h | h
  · exact l1 ev h
  · exact l2 ev h

theorem Quiet.step {w w1 : World} {e : Event} (h : Quiet w w1) (he : e.isLink = false) :
    Quiet w (w1.emit e) := by
  obtain ⟨n1, t1, l1, s1⟩ := h
  refine ⟨n1 ++ [e], by simp [World.emit, t1], ?_, s1⟩
  intro ev hev
  rcases List.mem_append.1 hev with h | h
  · exact l1 ev h
  · simp only [List.mem_singleton] at h
    rw [h]
    exact he

theorem Quiet.clear {w w1 : World} (h : Quiet w w1) (id k : Nat) :
    Quiet w (w1.clearSlot id k) := by
  obtain ⟨n1, t1, l1, s1⟩ := h
  refine ⟨n1, t1, l1, ?_⟩
  intro i j v hv
  apply s1
  simp only [World.clearSlot] at hv
  split at hv
  · cases hv
  · exact hv

theorem Quiet.news {w w' : World} (h : Quiet w w') :
    w'.trace = w.trace ++ newEvents w w' ∧ ∀ ev ∈ newEvents w w', ev.isLink = false := by
  obtain ⟨n1, t1, l1, _⟩ := h
  have : newEvents w w' = n1 := by simp [L3afd.newEvents, t1]
  rw [this]
  exact ⟨t1, l1⟩

theorem Quiet.mem {w w' : World} (h : Quiet w w') {ev : Event} (hev : ev ∈ w.trace) :
    ev ∈ w'.trace := by
  obtain ⟨n1, t1, _, _⟩ := h
  rw [t1]
  exact List.mem_append_left _ hev

theorem fileExists_quiet (env : Env) (path : String) (w : World) :
    Quiet w (fileExists env path w).2 := by
  unfold fileExists
  simp only
  split <;> exact Quiet.step (Quiet.refl _) (by rfl)

theorem killLoop_quiet (env : Env) (psName : List UInt8) (ps : List Process) (w0 w : World)
    (h : Quiet w0 w) : Quiet w0 (killLoop env psName ps w).2 := by
  induction ps generalizing w with
  | nil => exact h
  | cons p rest ih =>
    simp only [killLoop]
    split
    · split
      · split
        · exact Quiet.step h (by rfl)
        · exact ih _ (Quiet.step h (by rfl))
      · exact ih _ h
    · exact ih _ h

theorem StopExternalRunningProcess_quiet (env : Env) (name : String) (w : World) :
    Quiet w (StopExternalRunningProcess env name w).2 := by
  unfold StopExternalRunningProcess
  split
  · exact Quiet.refl _
  · simp only
    split
    · exact Quiet.step (Quiet.refl _) (by rfl)
    · exact killLoop_quiet _ _ _ _ _ (Quiet.step (Quiet.refl _) (by rfl))

theorem RemovePrevProgFD_quiet (env : Env) (s : St) :
    Quiet s.w (RemovePrevProgFD env s).2.w := by
  unfold RemovePrevProgFD
  simp only
  split
  · exact Quiet.step (Quiet.refl _) (by rfl)
  · split
    · exact Quiet.step (Quiet.step (Quiet.refl _) (by rfl)) (by rfl)
    · exact Quiet.clear (Quiet.step (Quiet.step (Quiet.refl _) (by rfl)) (by rfl)) _ _

theorem initMetricLoop_quiet (env : Env) (coll : Collection) (ms : List MonitorMap)
    (w0 w : World) (h : Quiet w0 w) : Quiet w0 (initMetricLoop env coll ms w).2 := by
  induction ms generalizing w with
  | nil => exact h
  | cons m rest ih =>
    simp only [initMetricLoop]
    split
    · exact ih _ h
    · split
      · split
        · exact Quiet.step h (by rfl)
        · exact ih _ (Quiet.step h (by rfl))
      · exact ih _ h

theorem InitialiseMetricMaps_quiet (env : Env) (b : BPF) (w : World) :
    Quiet w (InitialiseMetricMaps env b w).2 := by
  unfold InitialiseMetricMaps
  split
  · exact Quiet.refl _
  · exact initMetricLoop_quiet _ _ _ _ _ (Quiet.refl _)

theorem CreateMapPinDirectory_quiet (env : Env) (b : BPF) (iface : String) (w : World) :
    Quiet w (CreateMapPinDirectory env b iface w).2 := by
  unfold CreateMapPinDirectory
  simp only
  repeat' split
  all_goals first | exact Quiet.refl _ | exact Quiet.step (Quiet.refl _) (by rfl)

theorem pinLoop_quiet (env : Env) (b : BPF) (iface : String) (ms : List (String × KMap))
    (w0 w : World) (h : Quiet w0 w) : Quiet w0 (pinLoop env b iface ms w).2 := by
  induction ms generalizing w with
  | nil => exact h
  | cons m rest ih =>
    obtain ⟨k, v⟩ := m
    simp only [pinLoop]
    have hq := fileExists_quiet env (mapFilename b iface k) w
    split
    · rename_i heq
      rw [heq] at hq
      exact Quiet.trans h hq
    · rename_i heq
      rw [heq] at hq
      exact ih _ (Quiet.trans h hq)
    · rename_i heq
      rw [heq] at hq
      split
      · exact Quiet.step (Quiet.trans h hq) (by rfl)
      · exact ih _ (Quiet.step (Quiet.trans h hq) (by rfl))

theorem PinBpfMaps_quiet (env : Env) (b : BPF) (iface : String) (w : World) :
    Quiet w (PinBpfMaps env b iface w).2 := by
  unfold PinBpfMaps
  have hq := CreateMapPinDirectory_quiet env b iface w
  split
  · rename_i heq
    rw [heq] at hq
    exact hq
  · rename_i heq
    rw [heq] at hq
    split
    · exact hq
    · exact pinLoop_quiet _ _ _ _ _ _ hq

theorem Quiet.news_append {a b c : World} (h1 : Quiet a b) (h2 : Quiet b c) :
    newEvents a c = newEvents a b ++ newEvents b c := by
  have t1 := h1.news.1
  have t2 := h2.news.1
  have t3 := (h1.trans h2).news.1
  rw [t2, t1, List.append_assoc] at t3
  exact (List.append_cancel_left t3).symm

theorem Quiet.news_left {a b c : World} (h1 : Quiet a b) (h2 : Quiet b c) {ev : Event}
    (h : ev ∈ newEvents a b) : ev ∈ newEvents a c := by
  rw [h1.news_append h2]
  exact List.mem_append_left _ h

theorem Quiet.news_right {a b c : World} (h1 : Quiet a b) (h2 : Quiet b c) {ev : Event}
    (h : ev ∈ newEvents b c) : ev ∈ newEvents a c := by
  rw [h1.news_append h2]
  exact List.mem_append_right _ h

theorem newEvents_emit_self (w : World) (e : Event) : e ∈ newEvents w (w.emit e) := by
  simp [newEvents, World.emit]

/-- What `LoadBPFProgram` does: it is quiet, it changes only the collection
and the program ID of the instance, and when it succeeds the collection is
loaded from the object file and holds the entry function. -/
theorem LoadBPFProgram_spec (env : Env) (iface : String) (s : St) :
    Quiet s.w (LoadBPFProgram env iface s).2.w ∧
    (LoadBPFProgram env iface s).2.b =
      { s.b with ProgMapCollection := (LoadBPFProgram env iface s).2.b.ProgMapCollection,
                 ProgID := (LoadBPFProgram env iface s).2.b.ProgID } ∧
    ((LoadBPFProgram env iface s).1 = .ok () →
      ∃ prg bpfProg, (LoadBPFProgram env iface s).2.b.ProgMapCollection = some prg ∧
        mapGet prg.Programs s.b.Program.EntryFunctionName = some bpfProg ∧
        Event.loadCollection (Join [s.b.FilePath, s.b.Program.ObjectFile]) ∈
          newEvents s.w (LoadBPFProgram env iface s).2.w) := by
  have q1 : Quiet s.w (s.w.emit (.stat (Join [s.b.FilePath, s.b.Program.ObjectFile]))) :=
    Quiet.step (Quiet.refl _) (by rfl)
  have q2 := Quiet.step (e := .removeMemlock) q1 (by rfl)
  have q3 := Quiet.step (e := .loadCollection (Join [s.b.FilePath, s.b.Program.ObjectFile]))
    q2 (by rfl)
  have hmem := Quiet.news_right q2 (Quiet.step (e := .loadCollection
    (Join [s.b.FilePath, s.b.Program.ObjectFile])) (Quiet.refl _) (by rfl))
    (newEvents_emit_self _ _)
  unfold LoadBPFProgram
  simp only
  split
  · exact ⟨q1, rfl, by simp⟩
  · split
    · exact ⟨q2, rfl, by simp⟩
    · split
      · exact ⟨q3, rfl, by simp⟩
      · rename_i prg hprg
        split
        · exact ⟨q3, rfl, by simp⟩
        · rename_i bpfProg hprog
          split
          · exact ⟨q3, rfl, by simp⟩
          · rename_i id hid
            have q4 := InitialiseMetricMaps_quiet env
              { s.b with ProgMapCollection := some prg, ProgID := id.getD 0 }
              (((s.w.emit (.stat (Join [s.b.FilePath, s.b.Program.ObjectFile]))).emit
                .removeMemlock).emit (.loadCollection (Join [s.b.FilePath, s.b.Program.ObjectFile])))
            split
            · rename_i heq
              rw [heq] at q4
              exact ⟨q3.trans q4, rfl, by simp⟩
            · rename_i w4 heq
              rw [heq] at q4
              have q5 := PinBpfMaps_quiet env
                { s.b with ProgMapCollection := some prg, ProgID := id.getD 0 } iface w4
              split
              · rename_i heq5
                rw [heq5] at q5
                exact ⟨(q3.trans q4).trans q5, rfl, by simp⟩
              · rename_i heq5
                rw [heq5] at q5
                refine ⟨(q3.trans q4).trans q5, rfl, fun _ => ⟨prg, bpfProg, rfl, hprog, ?_⟩⟩
                exact Quiet.news_left q3 (q4.trans q5) hmem

/-- Frame of `UpdateProgramMap`: only `ProgMapID` changes. -/
theorem UpdateProgramMap_frame (b : BPF) :
    (UpdateProgramMap b).2 = { b with ProgMapID := (UpdateProgramMap b).2.ProgMapID } := by
  unfold UpdateProgramMap
  repeat' split
  all_goals rfl

/-- When `UpdateProgramMap` succeeds, the name of the chaining map is not
empty and `ProgMapID` is the ID of the map of that name in the collection. -/
theorem UpdateProgramMap_ok (b : BPF) (h : (UpdateProgramMap b).1 = .ok ()) :
    len b.Program.MapName ≠ 0 ∧
    ∃ coll cmap, b.ProgMapCollection = some coll ∧
      mapGet coll.Maps b.Program.MapName = some cmap ∧
      cmap.Info = some (some (UpdateProgramMap b).2.ProgMapID) := by
  unfold UpdateProgramMap at h ⊢
  split at h
  · cases h
  · rename_i hlen
    rw [if_neg hlen]
    refine ⟨hlen, ?_⟩
    split at h
    · cases h
    · rename_i coll hcoll
      split at h
      · cases h
      · rename_i cmap hmap
        split at h
        · cases h
        · cases h
        · rename_i id hid
          refine ⟨coll, cmap, hcoll, hmap, ?_⟩
          simp [hcoll, hmap, hid]

/-! ### Linking into the previous map -/

theorem setSlot_get (w : World) (id key v : Nat) : (w.setSlot id key v).slots id key = some v := by
  simp [World.setSlot]

/-- When `linkIntoPrev` succeeds, key 0 of the map `PrevProgMapID` holds the
FD of the entry function, and the instance is unchanged. -/
theorem linkIntoPrev_ok (env : Env) (s : St) (h : (linkIntoPrev env s).1 = .ok ()) :
    (linkIntoPrev env s).2.b = s.b ∧
    ∃ coll bpfProg, s.b.ProgMapCollection = some coll ∧
      mapGet coll.Programs s.b.Program.EntryFunctionName = some bpfProg ∧
      (linkIntoPrev env s).2.w.slots s.b.PrevProgMapID 0 = some bpfProg.FD := by
  unfold linkIntoPrev at h ⊢
  simp only at h ⊢
  by_cases halive : env.mapAlive s.w.now s.b.PrevProgMapID = true
  · simp only [halive, Bool.not_true, Bool.false_eq_true, if_false] at h ⊢
    cases hcoll : s.b.ProgMapCollection with
    | none => simp [hcoll] at h
    | some coll =>
      simp only [hcoll] at h ⊢
      cases hprog : mapGet coll.Programs s.b.Program.EntryFunctionName with
      | none => simp [hprog] at h
      | some bpfProg =>
        simp only [hprog] at h ⊢
        by_cases hupd : env.mapUpdateErr (s.w.emit (.newMapFromID s.b.PrevProgMapID)).now
            s.b.PrevProgMapID 0 bpfProg.FD = true
        · simp [hupd] at h
        · simp [hupd, World.setSlot]
          exact ⟨bpfProg, hprog, rfl⟩
  · simp [halive] at h

/-- Linking: when `LoadBPFProgramChain` returns success, key 0 of the map
with ID `PrevProgMapID` holds the FD of the entry function of the loaded
collection and `ProgMapID` is the ID of the collection's map named
`MapName`. -/
theorem LoadBPFProgramChain_links (env : Env) (iface : String) (s : St)
    (h : (LoadBPFProgramChain env iface s).1 = .ok ()) :
    ∃ prg bpfProg cmap,
      (LoadBPFProgramChain env iface s).2.b.ProgMapCollection = some prg ∧
      mapGet prg.Programs s.b.Program.EntryFunctionName = some bpfProg ∧
      (LoadBPFProgramChain env iface s).2.w.slots s.b.PrevProgMapID 0 = some bpfProg.FD ∧
      mapGet prg.Maps s.b.Program.MapName = some cmap ∧
      cmap.Info = some (some (LoadBPFProgramChain env iface s).2.b.ProgMapID) := by
  obtain ⟨_, hframe, hok⟩ := LoadBPFProgram_spec env iface s
  unfold LoadBPFProgramChain at h ⊢
  rcases hl : LoadBPFProgram env iface s with ⟨r1, s1⟩
  rw [hl] at h hframe hok
  cases r1 with
  | error e => simp at h
  | ok u =>
    simp only at h hframe hok ⊢
    obtain ⟨prg, bpfProg, hcoll, hprog, _⟩ := hok trivial
    have hprogram : s1.b.Program = s.b.Program := by rw [hframe]
    have hprev : s1.b.PrevProgMapID = s.b.PrevProgMapID := by rw [hframe]
    have huframe := UpdateProgramMap_frame s1.b
    rcases hu : UpdateProgramMap s1.b with ⟨r2, b2⟩
    rw [hu] at h huframe
    cases r2 with
    | error e => simp at h
    | ok u2 =>
      simp only at h huframe ⊢
      have huok := UpdateProgramMap_ok s1.b (by rw [hu])
      rw [hu] at huok
      obtain ⟨_, coll, cmap, hc1, hc2, hc3⟩ := huok
      rw [hcoll] at hc1
      cases hc1
      obtain ⟨hb, coll3, bpfProg3, hc4, hc5, hc6⟩ := linkIntoPrev_ok env { s1 with b := b2 } h
      have hb2coll : b2.ProgMapCollection = some prg := by rw [huframe]; exact hcoll
      have hb2prog : b2.Program = s.b.Program := by rw [huframe]; exact hprogram
      have hb2prev : b2.PrevProgMapID = s.b.PrevProgMapID := by rw [huframe]; exact hprev
      simp only at hb hc4 hc5 hc6
      rw [hb2coll] at hc4
      cases hc4
      rw [hb2prog] at hc5
      rw [hb2prev] at hc6
      rw [hprog] at hc5
      cases hc5
      refine ⟨prg, bpfProg, cmap, ?_, hprog, hc6, ?_, ?_⟩
      · rw [hb]; exact hb2coll
      · rw [← hprogram]; exact hc2
      · rw [hb]; exact hc3

/-! ### Start without chaining -/

/-- Contract of `LoadXDPAttachProgram`: it is quiet; when it succeeds it has loaded the
object file and attached the entry function. -/
theorem LoadXDPAttachProgram_spec (env : Env) (iface : String) (s : St) :
    Quiet s.w (LoadXDPAttachProgram env iface s).2.w ∧
    ((LoadXDPAttachProgram env iface s).1 = .ok () →
      Event.loadCollection (Join [s.b.FilePath, s.b.Program.ObjectFile]) ∈
          newEvents s.w (LoadXDPAttachProgram env iface s).2.w ∧
      ∃ index, Event.attachXDP index s.b.Program.EntryFunctionName ∈
          newEvents s.w (LoadXDPAttachProgram env iface s).2.w) := by
  have q0 : Quiet s.w (s.w.emit (.interfaceByName iface)) := Quiet.step (Quiet.refl _) (by rfl)
  unfold LoadXDPAttachProgram
  simp only
  split
  · exact ⟨q0, by simp⟩
  · rename_i index _
    obtain ⟨q1, hframe, hok⟩ := LoadBPFProgram_spec env iface
      { s with w := s.w.emit (.interfaceByName iface) }
    rcases hl : LoadBPFProgram env iface { s with w := s.w.emit (.interfaceByName iface) }
      with ⟨r1, s1⟩
    rw [hl] at q1 hframe hok
    simp only at q1 hframe hok ⊢
    cases r1 with
    | error e => exact ⟨q0.trans q1, by simp⟩
    | ok u =>
      obtain ⟨_, _, _, _, hload⟩ := hok rfl
      have hentry : s1.b.Program.EntryFunctionName = s.b.Program.EntryFunctionName := by
        rw [hframe]
      have q2 : Quiet s1.w (s1.w.emit (.attachXDP index s1.b.Program.EntryFunctionName)) :=
        Quiet.step (Quiet.refl _) (by rfl)
      have hatt : Event.attachXDP index s.b.Program.EntryFunctionName ∈
          newEvents s.w (s1.w.emit (.attachXDP index s1.b.Program.EntryFunctionName)) := by
        rw [← hentry]
        exact Quiet.news_right (q0.trans q1) q2 (newEvents_emit_self _ _)
      have hload2 := Quiet.news_left (q0.trans q1) q2 (Quiet.news_right q0 q1 hload)
      simp only
      split
      · exact ⟨(q0.trans q1).trans q2, by simp⟩
      · split
        · split
          · exact ⟨(q0.trans q1).trans q2, by simp⟩
          · exact ⟨(q0.trans q1).trans q2, fun _ => ⟨hload2, index, hatt⟩⟩
        · exact ⟨(q0.trans q1).trans q2, fun _ => ⟨hload2, index, hatt⟩⟩

/-- Contract of `LoadTCAttachProgram`: it is quiet; when it succeeds it has loaded the
object file and attached the entry function. -/
theorem LoadTCAttachProgram_spec (env : Env) (iface direction : String) (s : St) :
    Quiet s.w (LoadTCAttachProgram env iface direction s).2.w ∧
    ((LoadTCAttachProgram env iface direction s).1 = .ok () →
      Event.loadCollection (Join [s.b.FilePath, s.b.Program.ObjectFile]) ∈
          newEvents s.w (LoadTCAttachProgram env iface direction s).2.w ∧
      Event.attachTC iface direction s.b.Program.EntryFunctionName ∈
          newEvents s.w (LoadTCAttachProgram env iface direction s).2.w) := by
  have q0 : Quiet s.w (s.w.emit (.interfaceByName iface)) := Quiet.step (Quiet.refl _) (by rfl)
  unfold LoadTCAttachProgram
  simp only
  split
  · exact ⟨q0, by simp⟩
  · obtain ⟨q1, hframe, hok⟩ := LoadBPFProgram_spec env iface
      { s with w := s.w.emit (.interfaceByName iface) }
    rcases hl : LoadBPFProgram env iface { s with w := s.w.emit (.interfaceByName iface) }
      with ⟨r1, s1⟩
    rw [hl] at q1 hframe hok
    simp only at q1 hframe hok ⊢
    cases r1 with
    | error e => exact ⟨q0.trans q1, by simp⟩
    | ok u =>
      obtain ⟨_, _, _, _, hload⟩ := hok rfl
      have hentry : s1.b.Program.EntryFunctionName = s.b.Program.EntryFunctionName := by
        rw [hframe]
      have q2 : Quiet s1.w (s1.w.emit (.attachTC iface direction s1.b.Program.EntryFunctionName)) :=
        Quiet.step (Quiet.refl _) (by rfl)
      have hatt : Event.attachTC iface direction s.b.Program.EntryFunctionName ∈
          newEvents s.w (s1.w.emit (.attachTC iface direction s1.b.Program.EntryFunctionName)) := by
        rw [← hentry]
        exact Quiet.news_right (q0.trans q1) q2 (newEvents_emit_self _ _)
      have hload2 := Quiet.news_left (q0.trans q1) q2 (Quiet.news_right q0 q1 hload)
      simp only
      split
      · exact ⟨(q0.trans q1).trans q2, by simp⟩
      · split
        · split
          · exact ⟨(q0.trans q1).trans q2, by simp⟩
          · exact ⟨(q0.trans q1).trans q2, fun _ => ⟨hload2, hatt⟩⟩
        · exact ⟨(q0.trans q1).trans q2, fun _ => ⟨hload2, hatt⟩⟩

/-- Contract of `AttachBPFProgram`: it is quiet; when it succeeds on an xdp or tc program it
has loaded the object file and attached the entry function. -/
theorem AttachBPFProgram_spec (env : Env) (iface direction : String) (s : St) :
    Quiet s.w (AttachBPFProgram env iface direction s).2.w ∧
    ((AttachBPFProgram env iface direction s).1 = .ok () →
      (s.b.Program.ProgType = XDPType ∨ s.b.Program.ProgType = TCType) →
      Event.loadCollection (Join [s.b.FilePath, s.b.Program.ObjectFile]) ∈
          newEvents s.w (AttachBPFProgram env iface direction s).2.w ∧
      ((∃ index, Event.attachXDP index s.b.Program.EntryFunctionName ∈
          newEvents s.w (AttachBPFProgram env iface direction s).2.w) ∨
        Event.attachTC iface direction s.b.Program.EntryFunctionName ∈
          newEvents s.w (AttachBPFProgram env iface direction s).2.w)) := by
  unfold AttachBPFProgram
  split
  · obtain ⟨q, hok⟩ := LoadXDPAttachProgram_spec env iface s
    rcases hl : LoadXDPAttachProgram env iface s with ⟨r1, s1⟩
    rw [hl] at q hok
    cases r1 with
    | error e => exact ⟨q, by simp⟩
    | ok u =>
      obtain ⟨h1, h2⟩ := hok rfl
      exact ⟨q, fun _ _ => ⟨h1, Or.inl h2⟩⟩
  · rename_i hx
    split
    · obtain ⟨q, hok⟩ := LoadTCAttachProgram_spec env iface direction s
      rcases hl : LoadTCAttachProgram env iface direction s with ⟨r1, s1⟩
      rw [hl] at q hok
      cases r1 with
      | error e => exact ⟨q, by simp⟩
      | ok u =>
        obtain ⟨h1, h2⟩ := hok rfl
        exact ⟨q, fun _ _ => ⟨h1, Or.inr h2⟩⟩
    · rename_i ht
      refine ⟨Quiet.refl _, fun _ h => ?_⟩
      rcases h with h | h
      · exact absurd h hx
      · exact absurd h ht

theorem createUpdateRulesFile_quiet (env : Env) (b : BPF) (direction : String) (w : World) :
    Quiet w (createUpdateRulesFile env b direction w).2 := by
  unfold createUpdateRulesFile
  simp only
  repeat' split
  all_goals first | exact Quiet.refl _ | exact Quiet.step (Quiet.refl _) (by rfl)

theorem startFlags_quiet (env : Env) (b : BPF) (iface direction : String) (chain : Bool)
    (w : World) : Quiet w (startFlags env b iface direction chain w).2 := by
  unfold startFlags
  simp only
  have hq := createUpdateRulesFile_quiet env b direction w
  split
  · split
    · rename_i heq
      rw [heq] at hq
      exact hq
    · rename_i heq
      rw [heq] at hq
      exact hq
  · exact Quiet.refl _

theorem StartUserProgram_quiet (env : Env) (iface direction : String) (chain : Bool) (s : St) :
    Quiet s.w (StartUserProgram env iface direction chain s).2.w := by
  have q0 : Quiet s.w (s.w.emit (.assertExecutable (Join [s.b.FilePath, s.b.Program.CmdStart]))) :=
    Quiet.step (Quiet.refl _) (by rfl)
  unfold StartUserProgram
  simp only
  split
  · exact q0
  · have q1 := startFlags_quiet env s.b iface direction chain
      (s.w.emit (.assertExecutable (Join [s.b.FilePath, s.b.Program.CmdStart])))
    rcases hf : startFlags env s.b iface direction chain
      (s.w.emit (.assertExecutable (Join [s.b.FilePath, s.b.Program.CmdStart]))) with ⟨args, w1⟩
    rw [hf] at q1
    simp only at q1 ⊢
    split
    · exact q0.trans q1
    · repeat' split
      all_goals first
        | exact Quiet.step (q0.trans q1) (by rfl)
        | exact Quiet.step (Quiet.step (q0.trans q1) (by rfl)) (by rfl)

theorem pollPinned_quiet (env : Env) (path : String) (pinned : Bool) (n : Nat) (err : Bool)
    (w0 w : World) (h : Quiet w0 w) : Quiet w0 (pollPinned env path pinned n err w).2 := by
  induction n generalizing err w with
  | zero =>
    simp only [pollPinned]
    repeat' split
    all_goals exact h
  | succ n ih =>
    simp only [pollPinned]
    split
    · exact Quiet.step h (by rfl)
    · split
      · split
        · exact Quiet.step (Quiet.step h (by rfl)) (by rfl)
        · exact ih _ _ (Quiet.step (Quiet.step (Quiet.step h (by rfl)) (by rfl)) (by rfl))
      · exact ih _ _ (Quiet.step (Quiet.step h (by rfl)) (by rfl))

theorem VerifyPinnedProgMap_quiet (env : Env) (b : BPF) (chain pinned : Bool) (w : World) :
    Quiet w (VerifyPinnedProgMap env b chain pinned w).2 := by
  unfold VerifyPinnedProgMap
  repeat' split
  all_goals first | exact Quiet.refl _ | exact pollPinned_quiet _ _ _ _ _ _ _ (Quiet.refl _)

theorem updateMapsLoop_quiet (env : Env) (m : ArgMap) (w0 : World) (s : St)
    (h : Quiet w0 s.w) : Quiet w0 (updateMapsLoop env m s).2.w := by
  induction m generalizing s with
  | nil => exact h
  | cons p rest ih =>
    obtain ⟨k, v⟩ := p
    cases v with
    | other => exact h
    | str v =>
      simp only [updateMapsLoop]
      split
      · exact ih _ (Quiet.step h (by rfl))
      · split
        · exact h
        · exact ih _ (Quiet.step h (by rfl))

theorem UpdateArgs_quiet (env : Env) (iface direction : String) (s : St) :
    Quiet s.w (UpdateArgs env iface direction s).2.w := by
  unfold UpdateArgs
  simp only
  repeat' split
  all_goals first
    | exact Quiet.refl _
    | exact Quiet.step (Quiet.refl _) (by rfl)
    | exact Quiet.step (Quiet.step (Quiet.refl _) (by rfl)) (by rfl)
    | exact Quiet.step (Quiet.step (Quiet.step (Quiet.refl _) (by rfl)) (by rfl)) (by rfl)

theorem GetProgID_quiet (env : Env) (s : St) : Quiet s.w (GetProgID env s).2.w := by
  unfold GetProgID
  simp only
  repeat' split
  all_goals first
    | exact Quiet.step (Quiet.refl _) (by rfl)
    | exact Quiet.step (Quiet.step (Quiet.refl _) (by rfl)) (by rfl)
    | exact Quiet.step (Quiet.step (Quiet.step (Quiet.refl _) (by rfl)) (by rfl)) (by rfl)

theorem pollProgID_quiet (env : Env) (n : Nat) (w0 : World) (s : St) (h : Quiet w0 s.w) :
    Quiet w0 (pollProgID env n s).2.w := by
  induction n generalizing s with
  | zero => exact h
  | succ n ih =>
    simp only [pollProgID]
    have hq := GetProgID_quiet env s
    split
    · rename_i heq
      rw [heq] at hq
      exact h.trans hq
    · rename_i heq
      rw [heq] at hq
      exact ih _ (Quiet.step (h.trans hq) (by rfl))

theorem sleeps_quiet (n : Nat) (w0 w : World) (h : Quiet w0 w) : Quiet w0 (sleeps n w) := by
  induction n generalizing w with
  | zero => exact h
  | succ n ih => exact ih _ (Quiet.step h (by rfl))

theorem VerifyProcessObject_quiet (b : BPF) (w : World) :
    Quiet w (VerifyProcessObject b w).2 := by
  unfold VerifyProcessObject
  repeat' split
  all_goals first | exact Quiet.refl _ | exact sleeps_quiet _ _ _ (Quiet.refl _)

theorem IsLoaded_quiet (env : Env) (s : St) : Quiet s.w (IsLoaded env s).2.w := by
  unfold IsLoaded
  simp only
  split <;> exact Quiet.step (Quiet.refl _) (by rfl)

theorem isRunning_quiet (env : Env) (s : St) : Quiet s.w (isRunning env s).2.w := by
  unfold isRunning
  split
  · simp only
    repeat' split
    all_goals first
      | exact Quiet.step (Quiet.refl _) (by rfl)
      | exact Quiet.step (Quiet.step (Quiet.refl _) (by rfl)) (by rfl)
  · simp only
    split
    · have q1 := VerifyProcessObject_quiet s.b s.w
      split
      · rename_i heq
        rw [heq] at q1
        exact q1.trans (IsLoaded_quiet env _)
      · rename_i heq
        rw [heq] at q1
        split
        · exact q1.trans (IsLoaded_quiet env _)
        · split
          · exact (Quiet.step q1 (by rfl)).trans (IsLoaded_quiet env _)
          · exact (Quiet.step q1 (by rfl)).trans (IsLoaded_quiet env _)
    · exact IsLoaded_quiet env _

theorem startStopExternal_quiet (env : Env) (s : St) :
    Quiet s.w (startStopExternal env s).2.w ∧ (startStopExternal env s).2.b = s.b := by
  unfold startStopExternal
  split
  · have q := StopExternalRunningProcess_quiet env s.b.Program.CmdStart s.w
    split
    · rename_i heq
      rw [heq] at q
      exact ⟨q, rfl⟩
    · rename_i heq
      rw [heq] at q
      exact ⟨q, rfl⟩
  · exact ⟨Quiet.refl _, rfl⟩

theorem RemovePrevProgFD_frame (env : Env) (s : St) : (RemovePrevProgFD env s).2.b = s.b := by
  unfold RemovePrevProgFD
  simp only
  repeat' split
  all_goals rfl

theorem startRemovePrev_quiet (env : Env) (s : St) :
    Quiet s.w (startRemovePrev env s).w ∧ (startRemovePrev env s).b = s.b := by
  unfold startRemovePrev
  split
  · exact ⟨RemovePrevProgFD_quiet env s, RemovePrevProgFD_frame env s⟩
  · exact ⟨Quiet.refl _, rfl⟩

/-- Without chaining the load step is quiet; when it succeeds for an xdp or
tc program with an object file, the object file is loaded and the entry
function attached. -/
theorem startLoad_unchained (env : Env) (iface direction : String) (s : St) :
    Quiet s.w (startLoad env iface direction false s).2.w ∧
    ((startLoad env iface direction false s).1 = .ok () →
      len s.b.Program.ObjectFile > 0 →
      (s.b.Program.ProgType = XDPType ∨ s.b.Program.ProgType = TCType) →
      Event.loadCollection (Join [s.b.FilePath, s.b.Program.ObjectFile]) ∈
          newEvents s.w (startLoad env iface direction false s).2.w ∧
      ((∃ index, Event.attachXDP index s.b.Program.EntryFunctionName ∈
          newEvents s.w (startLoad env iface direction false s).2.w) ∨
        Event.attachTC iface direction s.b.Program.EntryFunctionName ∈
          newEvents s.w (startLoad env iface direction false s).2.w)) := by
  unfold startLoad
  split
  · simp only [Bool.false_eq_true, if_false]
    obtain ⟨q, hok⟩ := AttachBPFProgram_spec env iface direction s
    rcases hl : AttachBPFProgram env iface direction s with ⟨r, s3⟩
    rw [hl] at q hok
    cases r with
    | error e => exact ⟨q, by simp⟩
    | ok u => exact ⟨q, fun _ _ ht => hok rfl ht⟩
  · rename_i hlen
    exact ⟨Quiet.refl _, fun _ h => absurd h hlen⟩

theorem startUser_quiet (env : Env) (iface direction : String) (chain : Bool) (s : St) :
    Quiet s.w (startUser env iface direction chain s).2.w := by
  unfold startUser
  split
  · have q := StartUserProgram_quiet env iface direction chain s
    split
    · rename_i heq
      rw [heq] at q
      exact q
    · rename_i heq
      rw [heq] at q
      exact q
  · exact Quiet.refl _

theorem startVerifyPin_quiet (env : Env) (chain : Bool) (s : St) :
    Quiet s.w (startVerifyPin env chain s).2.w := by
  unfold startVerifyPin
  have q := VerifyPinnedProgMap_quiet env s.b chain true s.w
  split
  · rename_i heq
    rw [heq] at q
    exact q
  · rename_i heq
    rw [heq] at q
    exact q

theorem startMapArgs_quiet (env : Env) (s : St) : Quiet s.w (startMapArgs env s).2.w := by
  unfold startMapArgs
  split
  · have q := updateMapsLoop_quiet env s.b.Program.MapArgs s.w s (Quiet.refl _)
    unfold UpdateBPFMaps
    split
    · rename_i heq
      rw [heq] at q
      exact q
    · rename_i heq
      rw [heq] at q
      exact q
  · exact Quiet.refl _

theorem startUpdateArgs_quiet (env : Env) (iface direction : String) (s : St) :
    Quiet s.w (startUpdateArgs env iface direction s).2.w := by
  unfold startUpdateArgs
  split
  · have q := UpdateArgs_quiet env iface direction s
    split
    · rename_i heq
      rw [heq] at q
      exact q
    · rename_i heq
      rw [heq] at q
      exact q
  · exact Quiet.refl _

theorem startProgID_quiet (env : Env) (s : St) : Quiet s.w (startProgID env s).2.w := by
  unfold startProgID
  split
  · exact pollProgID_quiet env 10 s.w s (Quiet.refl _)
  · exact Quiet.refl _

theorem startWatcher_quiet (s : St) : Quiet s.w (startWatcher s).w := by
  unfold startWatcher
  split
  · exact Quiet.step (Quiet.refl _) (by rfl)
  · exact Quiet.refl _

theorem startCheck_quiet (env : Env) (s : St) : Quiet s.w (startCheck env s).2.w := by
  unfold startCheck
  have q := isRunning_quiet env s
  rcases hr : isRunning env s with ⟨⟨u1, u2, u3⟩, s5⟩
  rw [hr] at q
  simp only
  split
  · exact q
  · exact q

/-- Contract of `Start` without chaining: it is quiet; when it succeeds for an xdp or tc
program with an object file, it has loaded the object file and attached the
entry function. -/
theorem Start_unchained (env : Env) (iface direction : String) (s : St) :
    Quiet s.w (Start env iface direction false s).2.w ∧
    ((Start env iface direction false s).1 = .ok () →
      len s.b.Program.ObjectFile > 0 →
      (s.b.Program.ProgType = XDPType ∨ s.b.Program.ProgType = TCType) →
      Event.loadCollection (Join [s.b.FilePath, s.b.Program.ObjectFile]) ∈
          newEvents s.w (Start env iface direction false s).2.w ∧
      ((∃ index, Event.attachXDP index s.b.Program.EntryFunctionName ∈
          newEvents s.w (Start env iface direction false s).2.w) ∨
        Event.attachTC iface direction s.b.Program.EntryFunctionName ∈
          newEvents s.w (Start env iface direction false s).2.w)) := by
  unfold Start
  split
  · exact ⟨Quiet.refl _, by simp⟩
  · obtain ⟨q1, b1⟩ := startStopExternal_quiet env s
    rcases h1 : startStopExternal env s with ⟨r1, s1⟩
    rw [h1] at q1 b1
    simp only at q1 b1 ⊢
    cases r1 with
    | error e => exact ⟨q1, by simp⟩
    | ok u =>
      simp only
      obtain ⟨q2, b2⟩ := startRemovePrev_quiet env s1
      obtain ⟨q3, ok3⟩ := startLoad_unchained env iface direction (startRemovePrev env s1)
      rw [b2, b1] at ok3
      rcases h3 : startLoad env iface direction false (startRemovePrev env s1) with ⟨r3, s3⟩
      rw [h3] at q3 ok3
      simp only at q3 ok3 ⊢
      have q03 := (q1.trans q2).trans q3
      cases r3 with
      | error e => exact ⟨q03, by simp⟩
      | ok u =>
        simp only
        have q4 := startUser_quiet env iface direction false s3
        rcases h4 : startUser env iface direction false s3 with ⟨r4, s4⟩
        rw [h4] at q4
        simp only at q4 ⊢
        cases r4 with
        | error e => exact ⟨q03.trans q4, by simp⟩
        | ok u =>
          simp only
          have q5 := startVerifyPin_quiet env false s4
          rcases h5 : startVerifyPin env false s4 with ⟨r5, s5⟩
          rw [h5] at q5
          simp only at q5 ⊢
          cases r5 with
          | error e => exact ⟨(q03.trans q4).trans q5, by simp⟩
          | ok u =>
            simp only
            have q6 := startMapArgs_quiet env s5
            rcases h6 : startMapArgs env s5 with ⟨r6, s6⟩
            rw [h6] at q6
            simp only at q6 ⊢
            cases r6 with
            | error e => exact ⟨((q03.trans q4).trans q5).trans q6, by simp⟩
            | ok u =>
              simp only
              have q7 := startUpdateArgs_quiet env iface direction s6
              rcases h7 : startUpdateArgs env iface direction s6 with ⟨r7, s7⟩
              rw [h7] at q7
              simp only at q7 ⊢
              cases r7 with
              | error e => exact ⟨(((q03.trans q4).trans q5).trans q6).trans q7, by simp⟩
              | ok u =>
                simp only
                have q8 := startProgID_quiet env s7
                rcases h8 : startProgID env s7 with ⟨r8, s8⟩
                rw [h8] at q8
                simp only at q8 ⊢
                cases r8 with
                | error e =>
                  exact ⟨((((q03.trans q4).trans q5).trans q6).trans q7).trans q8, by simp⟩
                | ok u =>
                  simp only
                  have q9 := (startWatcher_quiet s8).trans (startCheck_quiet env (startWatcher s8))
                  have qrest := ((((q4.trans q5).trans q6).trans q7).trans q8).trans q9
                  refine ⟨q03.trans qrest, fun _ hlen ht => ?_⟩
                  obtain ⟨e1, e2⟩ := ok3 rfl hlen ht
                  have q12 := q1.trans q2
                  refine ⟨Quiet.news_right q12 (q3.trans qrest) (Quiet.news_left q3 qrest e1), ?_⟩
                  rcases e2 with ⟨index, e2⟩ | e2
                  · exact Or.inl ⟨index,
                      Quiet.news_right q12 (q3.trans qrest) (Quiet.news_left q3 qrest e2)⟩
                  · exact Or.inr
                      (Quiet.news_right q12 (q3.trans qrest) (Quiet.news_left q3 qrest e2))

/-- Claim C3. When `LoadBPFProgramChain` returns success, key 0 of the map
with ID `PrevProgMapID` holds the FD of the entry function of the loaded
collection and `ProgMapID` is the ID of the collection's map named `MapName`.
`Start` without chaining issues no write into a map reached by ID and adds no
entry to such a map; when it succeeds for an xdp or tc program that declares
an object file, it has loaded that file and attached the entry function. -/
theorem Start_chain_contract (env : Env) (iface direction : String) (s : St) :
    ((LoadBPFProgramChain env iface s).1 = .ok () →
      ∃ prg bpfProg cmap,
        (LoadBPFProgramChain env iface s).2.b.ProgMapCollection = some prg ∧
        mapGet prg.Programs s.b.Program.EntryFunctionName = some bpfProg ∧
        (LoadBPFProgramChain env iface s).2.w.slots s.b.PrevProgMapID 0 = some bpfProg.FD ∧
        mapGet prg.Maps s.b.Program.MapName = some cmap ∧
        cmap.Info = some (some (LoadBPFProgramChain env iface s).2.b.ProgMapID)) ∧
    ((Start env iface direction false s).2.w.trace =
        s.w.trace ++ newEvents s.w (Start env iface direction false s).2.w ∧
      (∀ ev ∈ newEvents s.w (Start env iface direction false s).2.w, ev.isLink = false) ∧
      (∀ id k v, (Start env iface direction false s).2.w.slots id k = some v →
        s.w.slots id k = some v)) ∧
    ((Start env iface direction false s).1 = .ok () →
      len s.b.Program.ObjectFile > 0 →
      (s.b.Program.ProgType = XDPType ∨ s.b.Program.ProgType = TCType) →
      Event.loadCollection (Join [s.b.FilePath, s.b.Program.ObjectFile]) ∈
          newEvents s.w (Start env iface direction false s).2.w ∧
      ((∃ index, Event.attachXDP index s.b.Program.EntryFunctionName ∈
          newEvents s.w (Start env iface direction false s).2.w) ∨
        Event.attachTC iface direction s.b.Program.EntryFunctionName ∈
          newEvents s.w (Start env iface direction false s).2.w)) := by
  obtain ⟨q, hok⟩ := Start_unchained env iface direction s
  refine ⟨LoadBPFProgramChain_links env iface s, ⟨q.news.1, q.news.2, ?_⟩, hok⟩
  obtain ⟨_, _, _, hs⟩ := q
  exact hs

/-- Claim C3, instance. Program `foo` is linked into map 5, and started
without chaining it is loaded and attached. -/
theorem Start_chain_contract_witness :
    ((LoadBPFProgramChain goodEnv "eth0" fooXdp).1 = .ok () ∧
      (LoadBPFProgramChain goodEnv "eth0" fooXdp).2.w.slots 5 0 = some 7 ∧
      (LoadBPFProgramChain goodEnv "eth0" fooXdp).2.b.ProgMapID = 11 ∧
      ∃ prg bpfProg cmap,
        (LoadBPFProgramChain goodEnv "eth0" fooXdp).2.b.ProgMapCollection = some prg ∧
        mapGet prg.Programs fooXdp.b.Program.EntryFunctionName = some bpfProg ∧
        (LoadBPFProgramChain goodEnv "eth0" fooXdp).2.w.slots fooXdp.b.PrevProgMapID 0
          = some bpfProg.FD ∧
        mapGet prg.Maps fooXdp.b.Program.MapName = some cmap ∧
        cmap.Info = some (some (LoadBPFProgramChain goodEnv "eth0" fooXdp).2.b.ProgMapID)) ∧
    ((Start goodEnv "eth0" "xdpingress" false fooXdp).1 = .ok () ∧
      Event.loadCollection "/var/l3afd/foo/v1/foo/foo.o" ∈
        newEvents fooXdp.w (Start goodEnv "eth0" "xdpingress" false fooXdp).2.w) :=
  ⟨⟨by decide, by decide, by decide,
     (Start_chain_contract goodEnv "eth0" "xdpingress" fooXdp).1 (by decide)⟩,
    by decide,
    ((Start_chain_contract goodEnv "eth0" "xdpingress" fooXdp).2.2 (by decide) (by decide)
      (Or.inl rfl)).1⟩

/-- Claim C4, counterexample. In an environment where load, pin and map update
succeed, the terminal program is loaded but `LoadBPFProgramChain` fails and
key 0 of map 5 stays empty. -/
theorem LoadBPFProgramChain_terminal_counterexample :
    (LoadBPFProgram goodEnv "eth0" fooTerminal).1 = .ok () ∧
    (LoadBPFProgramChain goodEnv "eth0" fooTerminal).1 = .error "program map name is missing" ∧
    (LoadBPFProgramChain goodEnv "eth0" fooTerminal).2.w.slots 5 0 = none := by
  decide

/-- Claim C4, amended. With an empty chaining-map name `LoadBPFProgramChain`
always returns an error, which is "program map name is missing" once the load
has succeeded, and it neither issues a write into a map reached by ID nor
adds an entry to such a map. -/
theorem LoadBPFProgramChain_terminal (env : Env) (iface : String) (s : St)
    (h : len s.b.Program.MapName = 0) :
    (∃ e, (LoadBPFProgramChain env iface s).1 = .error e ∧
      ((LoadBPFProgram env iface s).1 = .ok () → e = "program map name is missing")) ∧
    (∀ ev ∈ newEvents s.w (LoadBPFProgramChain env iface s).2.w, ev.isLink = false) ∧
    (∀ id k v, (LoadBPFProgramChain env iface s).2.w.slots id k = some v →
      s.w.slots id k = some v) := by
  obtain ⟨q, hframe, _⟩ := LoadBPFProgram_spec env iface s
  unfold LoadBPFProgramChain
  rcases hl : LoadBPFProgram env iface s with ⟨r1, s1⟩
  rw [hl] at q hframe
  simp only at q hframe ⊢
  cases r1 with
  | error e =>
    refine ⟨⟨e, rfl, by simp⟩, q.news.2, ?_⟩
    obtain ⟨_, _, _, hs⟩ := q
    exact hs
  | ok u =>
    have hname : len s1.b.Program.MapName = 0 := by rw [hframe]; exact h
    have hu : UpdateProgramMap s1.b = (.error "program map name is missing", s1.b) := by
      unfold UpdateProgramMap
      rw [if_pos hname]
    simp only [hu]
    refine ⟨⟨_, rfl, fun _ => rfl⟩, q.news.2, ?_⟩
    obtain ⟨_, _, _, hs⟩ := q
    exact hs

/-- Claim C4, instance. The terminal program `foo`. -/
theorem LoadBPFProgramChain_terminal_witness :
    ∃ e, (LoadBPFProgramChain goodEnv "eth0" fooTerminal).1 = .error e :=
  let ⟨e, he, _⟩ := (LoadBPFProgramChain_terminal goodEnv "eth0" fooTerminal (by decide)).1
  ⟨e, he⟩

/-! ### The layout of pinned maps -/

theorem Adds.arefl (P : Event → Prop) (w : World) : Adds P w w :=
  ⟨[], by simp, by simp⟩

theorem Adds.atrans {P : Event → Prop} {w1 w2 w3 : World} (h1 : Adds P w1 w2)
    (h2 : Adds P w2 w3) : Adds P w1 w3 := by
  obtain ⟨n1, t1, l1⟩ := h1
  obtain ⟨n2, t2, l2⟩ := h2
  refine ⟨n1 ++ n2, by simp [t2, t1], ?_⟩
  intro ev hev
  rcases List.mem_append.1 hev with h | h
  · exact l1 ev h
  · exact l2 ev h

theorem Adds.astep {P : Event → Prop} {w w1 : World} {e : Event} (h : Adds P w w1) (he : P e) :
    Adds P w (w1.emit e) := by
  obtain ⟨n1, t1, l1⟩ := h
  refine ⟨n1 ++ [e], by simp [World.emit, t1], ?_⟩
  intro ev hev
  rcases List.mem_append.1 hev with h | h
  · exact l1 ev h
  · simp only [List.mem_singleton] at h
    rw [h]
    exact he

theorem Adds.anews {P : Event → Prop} {w w' : World} (h : Adds P w w') :
    ∀ ev ∈ newEvents w w', P ev := by
  obtain ⟨n1, t1, l1⟩ := h
  have : newEvents w w' = n1 := by simp [newEvents, t1]
  rw [this]
  exact l1

theorem fileExists_adds (P : Event → Prop) (env : Env) (path : String) (w : World)
    (h : P (.stat path)) : Adds P w (fileExists env path w).2 := by
  unfold fileExists
  simp only
  split <;> exact Adds.astep (Adds.arefl _ _) h

theorem pinLoop_adds (env : Env) (b : BPF) (iface : String) (ms : List (String × KMap))
    (w0 w : World) (h : Adds (pinShape b iface) w0 w) :
    Adds (pinShape b iface) w0 (pinLoop env b iface ms w).2 := by
  induction ms generalizing w with
  | nil => exact h
  | cons m rest ih =>
    obtain ⟨k, v⟩ := m
    simp only [pinLoop]
    have hq := fileExists_adds (pinShape b iface) env (mapFilename b iface k) w (Or.inl ⟨_, rfl⟩)
    split
    · rename_i heq
      rw [heq] at hq
      exact h.atrans hq
    · rename_i heq
      rw [heq] at hq
      exact ih _ (h.atrans hq)
    · rename_i heq
      rw [heq] at hq
      split
      · exact Adds.astep (h.atrans hq) (Or.inr (Or.inr ⟨k, rfl⟩))
      · exact ih _ (Adds.astep (h.atrans hq) (Or.inr (Or.inr ⟨k, rfl⟩)))

theorem PinBpfMaps_adds (env : Env) (b : BPF) (iface : String) (w : World) :
    Adds (pinShape b iface) w (PinBpfMaps env b iface w).2 := by
  have h0 : Adds (pinShape b iface) w (CreateMapPinDirectory env b iface w).2 := by
    unfold CreateMapPinDirectory
    simp only
    repeat' split
    all_goals first
      | exact Adds.arefl _ _
      | exact Adds.astep (Adds.arefl _ _) (Or.inr (Or.inl ⟨_, rfl⟩))
  unfold PinBpfMaps
  split
  · rename_i heq
    rw [heq] at h0
    exact h0
  · rename_i heq
    rw [heq] at h0
    split
    · exact h0
    · exact pinLoop_adds _ _ _ _ _ _ h0

theorem removeLoop_adds (env : Env) (b : BPF) (iface : String) (all ms : List (String × KMap))
    (hsub : ∀ m ∈ ms, m ∈ all) (w0 w : World) (h : Adds (removeShape b iface all) w0 w) :
    Adds (removeShape b iface all) w0 (removeLoop env b iface ms w).2 := by
  induction ms generalizing w with
  | nil => exact h
  | cons m rest ih =>
    obtain ⟨k, v⟩ := m
    simp only [removeLoop]
    have h1 := Adds.astep (e := .unpin k) h (Or.inl ⟨k, rfl⟩)
    split
    · exact h1
    · split
      · exact h1
      · refine ih (fun m hm => hsub m (by simp [hm])) _ (Adds.astep h1 (Or.inr ⟨k, ?_, rfl⟩))
        exact List.mem_map.2 ⟨(k, v), hsub _ (by simp), rfl⟩

theorem RemoveMapFiles_adds (env : Env) (b : BPF) (iface : String) (w : World)
    (coll : Collection) (h : b.ProgMapCollection = some coll) :
    Adds (removeShape b iface coll.Maps) w (RemoveMapFiles env b iface w).2 := by
  unfold RemoveMapFiles
  rw [h]
  exact removeLoop_adds env b iface coll.Maps coll.Maps (fun _ h => h) w w (Adds.arefl _ _)

theorem mapFilename_eq_spec (b : BPF) (iface k : String)
    (ht : b.Program.ProgType = XDPType ∨ b.Program.ProgType = TCType) :
    mapFilename b iface k = specPinPath b.hostConfig.BpfMapDefaultPath b.Program.ProgType iface k := by
  unfold mapFilename specPinPath
  rcases ht with h | h
  · rw [h]
    simp [XDPType, TCType]
  · rw [h]
    simp [TCType, TCMapPinPath]

/-- Claim C5, counterexample. For the xdp map name `a..b` on `eth0`,
`NewBpfProgram` returns nil and no `MapNamePath` is set. -/
theorem NewBpfProgram_dotdot_counterexample :
    len "a..b" > 0 ∧
    NewBpfProgram { Name := "foo", ProgType := "xdp", MapName := "a..b" }
      { BpfMapDefaultPath := "/sys/fs/bpf" } "eth0" = none := by
  decide

/-- Claim C5, amended. For a non-empty map name and program type xdp or tc:
when the canonical path `join(root, iface, map)` (xdp) or
`join(root, "tc/globals", iface, map)` (tc) contains `..`, `NewBpfProgram`
returns nil; otherwise it returns an instance whose `MapNamePath` is that
path, and for every map `k` of the collection `PinBpfMaps` pins `k` at the
canonical path of `k` and `RemoveMapFiles` removes only canonical paths of
maps of the collection. -/
theorem NewBpfProgram_pin_layout (program : BPFProgram) (conf : Config) (iface : String)
    (hname : len program.MapName > 0)
    (htype : program.ProgType = XDPType ∨ program.ProgType = TCType) :
    (Contains (specPinPath conf.BpfMapDefaultPath program.ProgType iface program.MapName) ".."
        = true → NewBpfProgram program conf iface = none) ∧
    (Contains (specPinPath conf.BpfMapDefaultPath program.ProgType iface program.MapName) ".."
        = false →
      ∃ b, NewBpfProgram program conf iface = some b ∧
        b.MapNamePath =
          specPinPath conf.BpfMapDefaultPath program.ProgType iface program.MapName ∧
        ∀ (env : Env) (coll : Collection) (w : World),
          (∀ k p, Event.pin k p ∈
              newEvents w (PinBpfMaps env { b with ProgMapCollection := some coll } iface w).2 →
            p = specPinPath conf.BpfMapDefaultPath program.ProgType iface k) ∧
          (∀ p, Event.removeAll p ∈
              newEvents w (RemoveMapFiles env { b with ProgMapCollection := some coll } iface w).2 →
            ∃ k, k ∈ coll.Maps.map Prod.fst ∧
              p = specPinPath conf.BpfMapDefaultPath program.ProgType iface k)) := by
  have hpath : (if program.ProgType = XDPType then
        some (Join [conf.BpfMapDefaultPath, iface, program.MapName])
      else if program.ProgType = TCType then
        some (Join [conf.BpfMapDefaultPath, TCMapPinPath, iface, program.MapName])
      else none) =
      some (specPinPath conf.BpfMapDefaultPath program.ProgType iface program.MapName) := by
    unfold specPinPath
    rcases htype with h | h
    · rw [h]; simp [XDPType]
    · rw [h]; simp [XDPType, TCType, TCMapPinPath]
  constructor
  · intro hc
    unfold NewBpfProgram
    simp only [hname, if_true, hpath, hc]
  · intro hc
    unfold NewBpfProgram
    simp only [hname, if_true, hpath, hc, Bool.false_eq_true, if_false]
    refine ⟨_, rfl, rfl, ?_⟩
    intro env coll w
    constructor
    · intro k p hmem
      have h := (PinBpfMaps_adds env _ iface w).anews _ hmem
      rcases h with ⟨q, hq⟩ | ⟨q, hq⟩ | ⟨k2, hk2⟩
      · cases hq
      · cases hq
      · injection hk2 with e1 e2
        subst e1
        rw [e2]
        exact mapFilename_eq_spec _ iface k htype
    · intro p hmem
      have h2 := (RemoveMapFiles_adds env _ iface w coll rfl).anews _ hmem
      rcases h2 with ⟨q, hq⟩ | ⟨k, hk, hq⟩
      · cases hq
      · injection hq with e1
        exact ⟨k, hk, by rw [e1]; exact mapFilename_eq_spec _ iface k htype⟩

/-- Claim C5, instance. Map `next_prog` of an xdp program on `eth0`: the path
is `/sys/fs/bpf/eth0/next_prog`. -/
theorem NewBpfProgram_pin_layout_witness :
    ∃ b, NewBpfProgram { Name := "foo", ProgType := "xdp", MapName := "next_prog" }
        { BpfMapDefaultPath := "/sys/fs/bpf" } "eth0" = some b ∧
      b.MapNamePath = "/sys/fs/bpf/eth0/next_prog" :=
  let ⟨b, h1, h2, _⟩ := (NewBpfProgram_pin_layout
    { Name := "foo", ProgType := "xdp", MapName := "next_prog" }
    { BpfMapDefaultPath := "/sys/fs/bpf" } "eth0" (by decide) (Or.inl rfl)).2 (by decide)
  ⟨b, h1, h2.trans (by decide)⟩

/-! ### The command line of user programs -/

theorem appendArgs_strings (eq : String) (args : List String) (pairs : List (String × String)) :
    appendArgs eq args (stringArgs pairs) =
      .ok (args ++ pairs.map (fun p => "--" ++ p.1 ++ eq ++ p.2)) := by
  induction pairs generalizing args with
  | nil => simp [stringArgs, appendArgs]
  | cons p rest ih =>
    have := ih (args ++ ["--" ++ p.1 ++ eq ++ p.2])
    simp only [stringArgs, List.map_cons, appendArgs] at this ⊢
    rw [this]
    simp

theorem appendArgs_other (eq : String) (args : List String) (m : ArgMap)
    (h : ∃ p ∈ m, p.2 = Value.other) : ∃ e, appendArgs eq args m = .error e := by
  induction m generalizing args with
  | nil => simp at h
  | cons p rest ih =>
    obtain ⟨k, v⟩ := p
    cases v with
    | other => exact ⟨_, rfl⟩
    | str v =>
      simp only [appendArgs]
      apply ih
      obtain ⟨q, hq, hq2⟩ := h
      rcases List.mem_cons.1 hq with h1 | h1
      · subst h1
        cases hq2
      · exact ⟨q, h1, hq2⟩

theorem gt_one_iff_pos (n : Nat) (h : n ≠ 1) : n > 1 ↔ n > 0 := by
  omega

theorem createUpdateRulesFile_spec (env : Env) (b : BPF) (direction : String) (w : World)
    (h : len b.Program.RulesFile > 0) :
    createUpdateRulesFile env b direction w =
      (if env.writeFileErr w.now (rulesPath b direction) = true
        then .error "create or Update Rules File failed" else .ok (rulesPath b direction),
       { w with trace := w.trace ++ [.writeFile (rulesPath b direction) b.Program.Rules] }) := by
  unfold createUpdateRulesFile rulesPath
  have h0 : ¬ len b.Program.RulesFile < 1 := by omega
  simp only [h0, if_false]
  split <;> simp [World.emit]

/-- The flags that `StartUserProgram` builds before it reads `StartArgs`, for
values that are empty or have two bytes or more. -/
theorem startFlags_spec (env : Env) (b : BPF) (iface direction : String) (chain : Bool)
    (w : World) (h1 : len b.PrevMapNamePath ≠ 1) (h2 : len b.hostConfig.BPFLogDir ≠ 1)
    (h3 : len b.Program.RulesFile ≠ 1) (h4 : len b.Program.Rules ≠ 1) :
    startFlags env b iface direction chain w =
      (["--iface=" ++ iface, "--direction=" ++ direction] ++
        optionalFlags b direction chain (!env.writeFileErr w.now (rulesPath b direction)),
       { w with trace := w.trace ++ rulesWrite b direction }) := by
  unfold startFlags optionalFlags rulesWrite
  simp only [gt_one_iff_pos _ h1, gt_one_iff_pos _ h2, gt_one_iff_pos _ h3, gt_one_iff_pos _ h4]
  by_cases hr : len b.Program.RulesFile > 0
  · rw [createUpdateRulesFile_spec env b direction w hr]
    by_cases hc : chain = true <;> by_cases hn : b.ProgMapCollection = none <;>
      by_cases hp : len b.PrevMapNamePath > 0 <;>
      by_cases hl : len b.hostConfig.BPFLogDir > 0 <;>
      by_cases hb : len b.Program.Rules > 0 <;>
      by_cases hwr : env.writeFileErr w.now (rulesPath b direction) = true <;>
      simp [hc, hn, hp, hl, hr, hb, hwr]
  · by_cases hc : chain = true <;> by_cases hn : b.ProgMapCollection = none <;>
      by_cases hp : len b.PrevMapNamePath > 0 <;>
      by_cases hl : len b.hostConfig.BPFLogDir > 0 <;>
      simp [hc, hn, hp, hl, hr]

theorem startFlags_head (env : Env) (b : BPF) (iface direction : String) (chain : Bool)
    (w : World) : ∃ mid, (startFlags env b iface direction chain w).1 =
      ("--iface=" ++ iface) :: ("--direction=" ++ direction) :: mid := by
  unfold startFlags
  simp only
  repeat' split
  all_goals exact ⟨_, rfl⟩

theorem startFlags_adds (env : Env) (b : BPF) (iface direction : String) (chain : Bool)
    (w : World) : Adds Event.notExec w (startFlags env b iface direction chain w).2 := by
  have hq : Adds Event.notExec w (createUpdateRulesFile env b direction w).2 := by
    unfold createUpdateRulesFile
    simp only
    repeat' split
    all_goals first
      | exact Adds.arefl _ _
      | exact Adds.astep (Adds.arefl _ _) (by intro c a h; cases h)
  unfold startFlags
  simp only
  split
  · split
    · rename_i heq
      rw [heq] at hq
      exact hq
    · rename_i heq
      rw [heq] at hq
      exact hq
  · exact Adds.arefl _ _

/-- Claim C6. When all values of `StartArgs` are strings, every command that
`StartUserProgram` starts is `join(FilePath, CmdStart)` with the arguments
`--iface=<iface>`, `--direction=<direction>`, the optional flags, and then
`--<key>=<value>` for the pairs of `StartArgs`, one for each pair in the
order of the iteration; the command is started whenever it is executable; the
rendered pairs are a permutation of those of any other enumeration of the
map; and the optional flags are `--map-name`, `--log-dir` and `--rules-file`
as `optionalFlags` lists them, when none of the four values they depend on is
one byte long. -/
theorem StartUserProgram_args (env : Env) (iface direction : String) (chain : Bool) (s : St)
    (pairs : List (String × String)) (hpairs : s.b.Program.StartArgs = stringArgs pairs) :
    ∃ mid,
      (∀ cmd args, Event.exec cmd args ∈
          newEvents s.w (StartUserProgram env iface direction chain s).2.w →
        cmd = Join [s.b.FilePath, s.b.Program.CmdStart] ∧
        args = ("--iface=" ++ iface) :: ("--direction=" ++ direction) ::
          (mid ++ pairs.map argOf)) ∧
      (env.assertExecutable s.w.now (Join [s.b.FilePath, s.b.Program.CmdStart]) = true →
        Event.exec (Join [s.b.FilePath, s.b.Program.CmdStart])
          (("--iface=" ++ iface) :: ("--direction=" ++ direction) :: (mid ++ pairs.map argOf)) ∈
          newEvents s.w (StartUserProgram env iface direction chain s).2.w) ∧
      (∀ m : List (String × String), m.Perm pairs → (pairs.map argOf).Perm (m.map argOf)) ∧
      (len s.b.PrevMapNamePath ≠ 1 → len s.b.hostConfig.BPFLogDir ≠ 1 →
        len s.b.Program.RulesFile ≠ 1 → len s.b.Program.Rules ≠ 1 →
        mid = optionalFlags s.b direction chain
          (!env.writeFileErr (s.w.now + 1) (rulesPath s.b direction))) := by
  obtain ⟨mid, hmid⟩ := startFlags_head env s.b iface direction chain
    (s.w.emit (.assertExecutable (Join [s.b.FilePath, s.b.Program.CmdStart])))
  have a1 := startFlags_adds env s.b iface direction chain
    (s.w.emit (.assertExecutable (Join [s.b.FilePath, s.b.Program.CmdStart])))
  have q1 := startFlags_quiet env s.b iface direction chain
    (s.w.emit (.assertExecutable (Join [s.b.FilePath, s.b.Program.CmdStart])))
  rcases hf : startFlags env s.b iface direction chain
    (s.w.emit (.assertExecutable (Join [s.b.FilePath, s.b.Program.CmdStart]))) with ⟨args0, w1⟩
  rw [hf] at hmid a1 q1
  simp only at hmid a1 q1
  subst hmid
  refine ⟨mid, ?_, ?_, fun m hm => (hm.map argOf).symm, ?_⟩
  rotate_left 2
  · -- the optional flags
    intro h1 h2 h3 h4
    rw [startFlags_spec env s.b iface direction chain _ h1 h2 h3 h4] at hf
    have h := congrArg Prod.fst hf
    simp only [List.cons_append, List.nil_append, List.cons.injEq, true_and] at h
    rw [← h]
    simp [World.emit, World.now]
  · -- every started command has the stated arguments
    let P : Event → Prop := fun ev => ∀ cmd args, ev = .exec cmd args →
      cmd = Join [s.b.FilePath, s.b.Program.CmdStart] ∧
      args = ("--iface=" ++ iface) :: ("--direction=" ++ direction) :: (mid ++ pairs.map argOf)
    have a0 : Adds P s.w (s.w.emit (.assertExecutable (Join [s.b.FilePath, s.b.Program.CmdStart]))) :=
      Adds.astep (Adds.arefl _ _) (by intro c a h; cases h)
    have a1' : Adds P (s.w.emit (.assertExecutable (Join [s.b.FilePath, s.b.Program.CmdStart]))) w1 := by
      obtain ⟨n, t, l⟩ := a1
      exact ⟨n, t, fun ev hev c a h => absurd h (l ev hev c a)⟩
    have hexec : P (.exec (Join [s.b.FilePath, s.b.Program.CmdStart])
        (("--iface=" ++ iface) :: ("--direction=" ++ direction) :: mid ++
          pairs.map (fun p => "--" ++ p.1 ++ "=" ++ p.2))) := by
      intro c a h
      injection h with h1 h2
      exact ⟨h1.symm, by rw [← h2]; rfl⟩
    have hall : Adds P s.w (StartUserProgram env iface direction chain s).2.w := by
      unfold StartUserProgram
      simp only [hf, hpairs, appendArgs_strings]
      repeat' split
      all_goals first
        | exact a0
        | exact Adds.astep (a0.atrans a1') hexec
        | exact Adds.astep (Adds.astep (a0.atrans a1') hexec) (by intro c a h; cases h)
    intro cmd args hmem
    exact hall.anews _ hmem cmd args rfl
  · intro hx
    unfold StartUserProgram
    simp only [hf, hpairs, appendArgs_strings]
    simp only [hx, Bool.not_true, Bool.false_eq_true, if_false]
    have q0 : Quiet s.w (s.w.emit (.assertExecutable (Join [s.b.FilePath, s.b.Program.CmdStart]))) :=
      Quiet.step (Quiet.refl _) (by rfl)
    have q2 : Quiet w1 (w1.emit (.exec (Join [s.b.FilePath, s.b.Program.CmdStart])
        (("--iface=" ++ iface) :: ("--direction=" ++ direction) :: mid ++
          pairs.map (fun p => "--" ++ p.1 ++ "=" ++ p.2)))) := Quiet.step (Quiet.refl _) (by rfl)
    have hmem := Quiet.news_right (q0.trans q1) q2 (newEvents_emit_self _ _)
    repeat' split
    · exact hmem
    · exact Quiet.news_left ((q0.trans q1).trans q2) (Quiet.step (Quiet.refl _) (by rfl)) hmem
    · exact Quiet.news_left ((q0.trans q1).trans q2) (Quiet.step (Quiet.refl _) (by rfl)) hmem

/-- Claim C6, instance. The start command of `ipfix` gets the two fixed
arguments followed by its two start args. -/
theorem StartUserProgram_args_witness :
    (StartUserProgram goodEnv "eth0" "ingress" false ipfixInst).2.w.trace =
      [.assertExecutable "/var/l3afd/ipfix/v1/ipfix/ipfix_start",
       .exec "/var/l3afd/ipfix/v1/ipfix/ipfix_start"
         ["--iface=eth0", "--direction=ingress", "--collector_ip=127.0.0.1", "--verbose=2"],
       .setPrLimits] ∧
    ∃ mid, Event.exec (Join [ipfixInst.b.FilePath, ipfixInst.b.Program.CmdStart])
      (("--iface=" ++ "eth0") :: ("--direction=" ++ "ingress") ::
        (mid ++ [("collector_ip", "127.0.0.1"), ("verbose", "2")].map argOf)) ∈
      newEvents ipfixInst.w (StartUserProgram goodEnv "eth0" "ingress" false ipfixInst).2.w :=
  ⟨by decide,
   let ⟨mid, _, h, _, _⟩ := StartUserProgram_args goodEnv "eth0" "ingress" false ipfixInst
     [("collector_ip", "127.0.0.1"), ("verbose", "2")] rfl
   ⟨mid, h rfl⟩⟩

theorem stopCommand_bad_args (env : Env) (iface direction : String) (s : St)
    (hbad : ∃ p ∈ s.b.Program.StopArgs, p.2 = Value.other) :
    (∃ e, (stopCommand env iface direction s).1 = .error e) ∧
    Adds Event.notExec s.w (stopCommand env iface direction s).2.w := by
  obtain ⟨e, he⟩ := appendArgs_other " =" ["--iface=" ++ iface, "--direction=" ++ direction]
    s.b.Program.StopArgs hbad
  unfold stopCommand
  simp only [he]
  split
  · exact ⟨⟨_, rfl⟩, Adds.astep (Adds.arefl _ _) (by intro c a h; cases h)⟩
  · exact ⟨⟨_, rfl⟩, Adds.astep (Adds.arefl _ _) (by intro c a h; cases h)⟩

/-- Claim C7. If a value of the args map at hand is not a string:
`StartUserProgram` returns an error, starts no command and leaves `Cmd`
unchanged; `UpdateArgs` returns an error and starts no command; and `Stop` of
a daemon program with a stop command returns an error and starts no
command. -/
theorem bad_args_rejected (env : Env) (iface direction : String) (chain : Bool) (s : St) :
    ((∃ p ∈ s.b.Program.StartArgs, p.2 = Value.other) →
      (∃ e, (StartUserProgram env iface direction chain s).1 = .error e) ∧
      (∀ ev ∈ newEvents s.w (StartUserProgram env iface direction chain s).2.w, ev.notExec) ∧
      (StartUserProgram env iface direction chain s).2.b.Cmd = s.b.Cmd) ∧
    ((∃ p ∈ s.b.Program.UpdateArgs, p.2 = Value.other) →
      (∃ e, (UpdateArgs env iface direction s).1 = .error e) ∧
      (∀ ev ∈ newEvents s.w (UpdateArgs env iface direction s).2.w, ev.notExec)) ∧
    ((∃ p ∈ s.b.Program.StopArgs, p.2 = Value.other) →
      len s.b.Program.CmdStop > 0 → s.b.Program.UserProgramDaemon = true →
      (∃ e, (Stop env iface direction chain s).1 = .error e) ∧
      (∀ ev ∈ newEvents s.w (Stop env iface direction chain s).2.w, ev.notExec)) := by
  refine ⟨?_, ?_, ?_⟩
  · intro hbad
    have a1 := startFlags_adds env s.b iface direction chain
      (s.w.emit (.assertExecutable (Join [s.b.FilePath, s.b.Program.CmdStart])))
    rcases hf : startFlags env s.b iface direction chain
      (s.w.emit (.assertExecutable (Join [s.b.FilePath, s.b.Program.CmdStart]))) with ⟨args0, w1⟩
    rw [hf] at a1
    obtain ⟨e, he⟩ := appendArgs_other "=" args0 s.b.Program.StartArgs hbad
    have a0 : Adds Event.notExec s.w
        (s.w.emit (.assertExecutable (Join [s.b.FilePath, s.b.Program.CmdStart]))) :=
      Adds.astep (Adds.arefl _ _) (by intro c a h; cases h)
    unfold StartUserProgram
    simp only [hf, he]
    split
    · exact ⟨⟨_, rfl⟩, a0.anews, rfl⟩
    · exact ⟨⟨_, rfl⟩, (a0.atrans a1).anews, rfl⟩
  · intro hbad
    unfold UpdateArgs
    split
    · exact ⟨⟨_, rfl⟩, (Adds.arefl Event.notExec _).anews⟩
    · simp only
      have a0 : Adds Event.notExec s.w
          (s.w.emit (.assertExecutable (Join [s.b.FilePath, s.b.Program.CmdUpdate]))) :=
        Adds.astep (Adds.arefl _ _) (by intro c a h; cases h)
      split
      · exact ⟨⟨_, rfl⟩, a0.anews⟩
      · obtain ⟨e, he⟩ := appendArgs_other "="
          (if len s.b.hostConfig.BPFLogDir > 1 then
            ["--iface=" ++ iface, "--direction=" ++ direction, "--cmd=" ++ UpdateType] ++
              ["--log-dir=" ++ s.b.hostConfig.BPFLogDir]
          else ["--iface=" ++ iface, "--direction=" ++ direction, "--cmd=" ++ UpdateType])
          s.b.Program.UpdateArgs hbad
        simp only [he]
        exact ⟨⟨_, rfl⟩, a0.anews⟩
  · intro hbad hlen hdaemon
    have hbranch : ∀ t : St, t.b.Program = s.b.Program →
        Adds Event.notExec s.w t.w →
        (∃ e, (stopTail env iface direction chain t).1 = .error e) ∧
        Adds Event.notExec s.w (stopTail env iface direction chain t).2.w := by
      intro t ht at0
      have hbad' : ∃ p ∈ t.b.Program.StopArgs, p.2 = Value.other := by rw [ht]; exact hbad
      obtain ⟨⟨e, he⟩, a1⟩ := stopCommand_bad_args env iface direction t hbad'
      have hu : stopUser env iface direction t = stopCommand env iface direction t := by
        unfold stopUser
        have h1 : ¬ (len t.b.Program.CmdStop < 1) := by rw [ht]; omega
        have h2 : len t.b.Program.CmdStop > 0 := by rw [ht]; exact hlen
        have h3 : t.b.Program.UserProgramDaemon = true := by rw [ht]; exact hdaemon
        simp [h1, h2, h3]
      unfold stopTail
      rw [hu]
      rcases hc : stopCommand env iface direction t with ⟨r, t2⟩
      rw [hc] at he a1
      simp only at he a1
      subst he
      exact ⟨⟨_, rfl⟩, at0.atrans a1⟩
    have hpre : Adds Event.notExec s.w (stopPrelude s).w := by
      unfold stopPrelude
      simp only
      split
      · exact Adds.astep (Adds.arefl _ _) (by intro c a h; cases h)
      · exact Adds.arefl _ _
    unfold Stop
    split
    · exact ⟨⟨_, rfl⟩, (Adds.arefl Event.notExec _).anews⟩
    · split
      · exact ⟨⟨_, rfl⟩, (Adds.arefl Event.notExec _).anews⟩
      · obtain ⟨h1, h2⟩ := hbranch (stopPrelude s) rfl hpre
        exact ⟨h1, h2.anews⟩

/-- Claim C7, instance. With a number among its args, `ipfix` is neither
started, updated nor stopped by a command. -/
theorem bad_args_rejected_witness :
    ((∃ e, (StartUserProgram goodEnv "eth0" "ingress" false ipfixBadArgs).1 = .error e) ∧
      (StartUserProgram goodEnv "eth0" "ingress" false ipfixBadArgs).2.b.Cmd
        = ipfixBadArgs.b.Cmd) ∧
    (∃ e, (UpdateArgs goodEnv "eth0" "ingress" ipfixBadArgs).1 = .error e) ∧
    (∃ e, (Stop goodEnv "eth0" "ingress" false ipfixBadArgs).1 = .error e) ∧
    (Stop goodEnv "eth0" "ingress" false ipfixBadArgs).2.w.trace =
      [.assertExecutable "/var/l3afd/ipfix/v1/ipfix/ipfix_stop"] :=
  have h := bad_args_rejected goodEnv "eth0" "ingress" false ipfixBadArgs
  ⟨⟨(h.1 (by decide)).1, (h.1 (by decide)).2.2⟩, (h.2.1 (by decide)).1,
    (h.2.2 (by decide) (by decide) (by decide)).1, by decide⟩

/-! ### Liveness and Stop -/

/-- With a status command whose name has more than one byte and which is
executable, `isRunning` reports both sides alive exactly when the output
equals `RUNNING` under `strings.EqualFold`, and both dead otherwise. -/
theorem isRunning_status (env : Env) (s : St) (hlen : len s.b.Program.CmdStatus > 1)
    (hexec : env.assertExecutable s.w.now (Join [s.b.FilePath, s.b.Program.CmdStatus]) = true) :
    (isRunning env s).1 =
      if EqualFold (env.runOutput
            (s.w.emit (.assertExecutable (Join [s.b.FilePath, s.b.Program.CmdStatus]))).now
            (Join [s.b.FilePath, s.b.Program.CmdStatus]) (statusArgs s.b.Program.StatusArgs))
          bpfStatus
      then (true, true, none) else (false, false, none) := by
  unfold isRunning
  simp only [hlen, if_true, hexec, Bool.not_true, Bool.false_eq_true, if_false]
  split <;> rfl

/-- Samples of `strings.EqualFold` with `RUNNING`: case is ignored, a
trailing newline or a leading blank is not. -/
theorem EqualFold_samples :
    EqualFold "RUNNING" bpfStatus = true ∧ EqualFold "running" bpfStatus = true ∧
    EqualFold "Running" bpfStatus = true ∧ EqualFold "RUNNING\n" bpfStatus = false ∧
    EqualFold " RUNNING" bpfStatus = false ∧ EqualFold "STOPPED" bpfStatus = false ∧
    EqualFold "" bpfStatus = false := by
  decide

/-- Claim C8, failing input. The status command `s` is declared and
executable and prints `STOPPED`, yet `isRunning` never runs it and reports
both sides alive; with the name `st` the same output gives both dead. -/
theorem isRunning_short_status_name :
    len shortStatusInst.b.Program.CmdStatus = 1 ∧
    (isRunning stoppedEnv shortStatusInst).1 = (true, true, none) ∧
    (isRunning stoppedEnv shortStatusInst).2.w.trace = [.newProgramFromID 42] ∧
    (isRunning stoppedEnv longStatusInst).1 = (false, false, none) ∧
    (isRunning stoppedEnv longStatusInst).2.w.trace =
      [.assertExecutable "/var/l3afd/foo/v1/foo/st", .exec "/var/l3afd/foo/v1/foo/st" []] := by
  decide

theorem mapDelete_foldl {α : Type} (ks : List String) (m : List (String × α)) :
    ks.foldl mapDelete m = m.filter (fun p => decide (p.1 ∉ ks)) := by
  induction ks generalizing m with
  | nil => simp
  | cons k rest ih =>
    simp only [List.foldl_cons]
    rw [ih]
    unfold mapDelete
    rw [List.filter_filter]
    congr 1
    funext p
    by_cases h1 : p.1 = k <;> by_cases h2 : p.1 ∈ rest <;> simp [h1, h2]

/-- Deleting every key while ranging over a map empties it. -/
theorem deleteAll_eq_nil {α : Type} (m : List (String × α)) : deleteAll m = [] := by
  unfold deleteAll
  rw [mapDelete_foldl]
  rw [List.filter_eq_nil_iff]
  intro p hp
  have : p.1 ∈ m.map (fun q => q.1) := List.mem_map.2 ⟨p, hp, rfl⟩
  simp [this]

theorem stopCommand_frame (env : Env) (iface direction : String) (t : St) :
    (stopCommand env iface direction t).2.b =
      { t.b with Cmd := (stopCommand env iface direction t).2.b.Cmd } := by
  unfold stopCommand
  simp only
  repeat' split
  all_goals rfl

theorem stopUser_frame (env : Env) (iface direction : String) (t : St) :
    (stopUser env iface direction t).2.b =
      { t.b with Cmd := (stopUser env iface direction t).2.b.Cmd } := by
  unfold stopUser
  split
  · simp only
    repeat' split
    all_goals rfl
  · split
    · exact stopCommand_frame env iface direction t
    · rfl

theorem UnloadProgram_frame (env : Env) (iface direction : String) (t : St) :
    (UnloadProgram env iface direction t).2.b = t.b := by
  unfold UnloadProgram
  simp only
  repeat' split
  all_goals rfl

theorem stopUnload_frame (env : Env) (iface direction : String) (t : St) :
    (stopUnload env iface direction t).2.b = t.b := by
  unfold stopUnload
  have h := UnloadProgram_frame env iface direction t
  split
  · split
    · rename_i heq
      rw [heq] at h
      exact h
    · rename_i heq
      rw [heq] at h
      exact h
  · rfl

theorem stopVerify_frame (env : Env) (chain : Bool) (t : St) :
    (stopVerify env chain t).2.b = t.b := by
  unfold stopVerify
  split <;> rfl

/-- The steps of `Stop` after the prelude change only `Cmd`. -/
theorem stopTail_frame (env : Env) (iface direction : String) (chain : Bool) (t : St) :
    (stopTail env iface direction chain t).2.b =
      { t.b with Cmd := (stopTail env iface direction chain t).2.b.Cmd } := by
  unfold stopTail
  have h1 := stopUser_frame env iface direction t
  rcases hu : stopUser env iface direction t with ⟨r1, t1⟩
  rw [hu] at h1
  simp only at h1 ⊢
  cases r1 with
  | error e => exact h1
  | ok u =>
    simp only
    have h2 := stopUnload_frame env iface direction t1
    rcases hl : stopUnload env iface direction t1 with ⟨r2, t2⟩
    rw [hl] at h2
    simp only at h2 ⊢
    cases r2 with
    | error e =>
      simp only
      rw [h2, h1]
    | ok u =>
      simp only
      rw [stopVerify_frame, h2, h1]

/-- Claim C9. When `Stop` gets past its not-running check and its send on
`Done` completes, then, whatever it returns, `BpfMaps` and `MetricsBpfMaps`
are empty and `ProgID` is 0. -/
theorem Stop_resets (env : Env) (iface direction : String) (chain : Bool) (s : St)
    (hpast : ¬ (s.b.Program.UserProgramDaemon = true ∧ s.b.Cmd = none))
    (hsend : stopWatched s.b = true → s.b.Done = true) :
    (Stop env iface direction chain s).2.b.BpfMaps = [] ∧
    (Stop env iface direction chain s).2.b.MetricsBpfMaps = [] ∧
    (Stop env iface direction chain s).2.b.ProgID = 0 := by
  have h1 : ¬ ((s.b.Program.UserProgramDaemon && s.b.Cmd.isNone) = true) := by
    intro h
    simp only [Bool.and_eq_true, Option.isNone_iff_eq_none] at h
    exact hpast h
  have h2 : ¬ ((stopWatched s.b && !s.b.Done) = true) := by
    intro h
    simp only [Bool.and_eq_true, Bool.not_eq_true'] at h
    rw [hsend h.1] at h
    exact absurd h.2 (by simp)
  unfold Stop
  rw [if_neg h1, if_neg h2]
  rw [stopTail_frame]
  simp [stopPrelude, stopDropMaps, deleteAll_eq_nil]

/-- Claim C9, instance. Stopping the loaded instance. -/
theorem Stop_resets_witness :
    (Stop goodEnv "eth0" "xdpingress" true loadedInst).2.b.BpfMaps = [] ∧
    (Stop goodEnv "eth0" "xdpingress" true loadedInst).2.b.MetricsBpfMaps = [] ∧
    (Stop goodEnv "eth0" "xdpingress" true loadedInst).2.b.ProgID = 0 :=
  Stop_resets goodEnv "eth0" "xdpingress" true loadedInst (by decide) (by decide)

/-! ### Verification of the pin removal -/

/-- When the pinned file exists at every poll, the polls for its removal end
without an error. -/
theorem pollPinned_removal_stuck (env : Env) (path : String)
    (hstat : ∀ t, env.stat t path = .file) (n : Nat) (err : Bool) (w : World) :
    pollPinned env path false (n + 1) err w =
      (.ok (), { w with trace := w.trace ++ pollTrace path (n + 1) }) := by
  induction n generalizing err w with
  | zero =>
    simp [pollPinned, hstat, World.emit, pollTrace]
  | succ n ih =>
    rw [pollPinned]
    simp only [hstat]
    simp only [reduceCtorEq, or_self, decide_False, Bool.not_false, Bool.and_false,
      Bool.false_eq_true, if_false, Bool.and_true, Bool.false_and]
    rw [ih]
    simp [World.emit, pollTrace]

/-- When the pinned file exists at every poll, `VerifyPinnedProgMap(true,
false)` returns no error. -/
theorem VerifyPinnedProgMap_removal_stuck (env : Env) (b : BPF) (w : World)
    (hname : len b.Program.MapName > 0) (hstat : ∀ t, env.stat t b.MapNamePath = .file) :
    VerifyPinnedProgMap env b true false w =
      (.ok (), { w with trace := w.trace ++ pollTrace b.MapNamePath 10 }) := by
  unfold VerifyPinnedProgMap
  simp only [Bool.not_true, Bool.false_eq_true, if_false, hname, if_true]
  exact pollPinned_removal_stuck env b.MapNamePath hstat 9 false w

/-- Claim C10, failing input. The loaded program `foo` has the chaining map
`next_prog`, chaining is on, and its pinned file exists at each of the ten
polls; yet `VerifyPinnedProgMap(true, false)`, `VerifyCleanupMaps` as `Stop`
calls it, and `Stop` all return success. -/
theorem Stop_pin_never_removed :
    (∀ t, stuckEnv.stat t loadedInst.b.MapNamePath = .file) ∧
    (VerifyPinnedProgMap stuckEnv loadedInst.b true false {}).1 = .ok () ∧
    (VerifyPinnedProgMap stuckEnv loadedInst.b true false {}).2.trace =
      pollTrace "/sys/fs/bpf/eth0/next_prog" 10 ∧
    (VerifyCleanupMaps stuckEnv (stopPrelude loadedInst).b true {}).1 = .ok () ∧
    (Stop stuckEnv "eth0" "xdpingress" true loadedInst).1 = .ok () := by
  refine ⟨fun _ => rfl, ?_, ?_, by decide, by decide⟩
  · rw [VerifyPinnedProgMap_removal_stuck stuckEnv loadedInst.b {} (by decide) (fun _ => rfl)]
  · rw [VerifyPinnedProgMap_removal_stuck stuckEnv loadedInst.b {} (by decide) (fun _ => rfl)]
    rfl

/-! ### Case folding against the status text -/

theorem toNat_ofNat_small (m : Nat) (h : m < 55296) : (Char.ofNat m).toNat = m := by
  have hv : m.isValidChar := Or.inl h
  simp only [Char.ofNat, hv, Char.toNat, Char.ofNatAux, dite_true]
  show (BitVec.ofNatLt m _).toNat = m
  simp

theorem char_eq_of_toNat (c d : Char) (h : c.toNat = d.toNat) : c = d := by
  rw [← Char.ofNat_toNat c, ← Char.ofNat_toNat d, h]

theorem toLower_toNat_upper (t : Char) (h1 : 65 ≤ t.toNat) (h2 : t.toNat ≤ 90) :
    t.toLower.toNat = t.toNat + 32 := by
  unfold Char.toLower
  simp only [ge_iff_le, h1, h2, and_self, if_true]
  exact toNat_ofNat_small _ (by omega)

theorem toLower_not_upper (c : Char) (h : ¬ (65 ≤ c.toNat ∧ c.toNat ≤ 90)) : c.toLower = c := by
  unfold Char.toLower
  simp only [ge_iff_le, h, if_false]

/-- Lower-casing sends exactly `t` and its lower-case form to that form. -/
theorem toLower_eq_iff (c t : Char) (h1 : 65 ≤ t.toNat) (h2 : t.toNat ≤ 90) :
    c.toLower = t.toLower ↔ (c = t ∨ c = t.toLower) := by
  have hl := toLower_toNat_upper t h1 h2
  by_cases hc : 65 ≤ c.toNat ∧ c.toNat ≤ 90
  · have hcl := toLower_toNat_upper c hc.1 hc.2
    constructor
    · intro h
      left
      apply char_eq_of_toNat
      have := congrArg Char.toNat h
      omega
    · rintro (h | h)
      · rw [h]
      · exfalso
        have := congrArg Char.toNat h
        omega
  · rw [toLower_not_upper c hc]
    constructor
    · intro h
      exact Or.inr h
    · rintro (h | h)
      · exfalso
        rw [h] at hc
        exact hc ⟨h1, h2⟩
      · exact h

/-- On a plain upper-case letter `t`, the rune comparison of
`strings.EqualFold` accepts exactly `t` and its lower-case form. -/
theorem foldEqRune_plainUpper (c t : Char) (ht : plainUpper t = true) :
    foldEqRune c t = true ↔ (c = t ∨ c = t.toLower) := by
  simp only [plainUpper, decide_eq_true_eq] at ht
  obtain ⟨f1, f2, h1, h2⟩ := ht
  have hl := toLower_toNat_upper t h1 h2
  have hA : 'A'.toNat = 65 := by decide
  have hZ : 'Z'.toNat = 90 := by decide
  unfold foldEqRune
  by_cases hct : t = c
  · simp [hct]
  · have hct2 : ¬ c = t := fun h => hct h.symm
    have hne : t.toNat ≠ c.toNat := fun h => hct (char_eq_of_toNat _ _ h)
    simp only [hct, if_false, hct2, false_or]
    by_cases hlt : t.toNat < c.toNat
    · simp only [hlt, if_true]
      by_cases h128 : c.toNat < 128
      · simp only [h128, if_true, decide_eq_true_eq, hA, hZ]
        constructor
        · rintro ⟨_, _, h⟩
          exact char_eq_of_toNat _ _ (by omega)
        · intro h
          have := congrArg Char.toNat h
          exact ⟨h1, h2, by omega⟩
      · simp only [h128, if_false, f1, decide_eq_true_eq]
        have hw : foldWalk t c 4 t.toLower = t := by
          have hn : t.toLower ≠ t := by
            intro h
            have := congrArg Char.toNat h
            omega
          have hl2 : t.toLower.toNat < c.toNat := by omega
          simp [foldWalk, hn, hl2, f2]
        rw [hw]
        constructor
        · intro h
          exact absurd h hct
        · intro h
          have := congrArg Char.toNat h
          omega
    · simp only [hlt, if_false]
      have h128 : t.toNat < 128 := by omega
      simp only [h128, if_true, decide_eq_true_eq, hA, hZ]
      constructor
      · rintro ⟨_, _, h⟩
        omega
      · intro h
        have := congrArg Char.toNat h
        omega

/-- Against a word of plain upper-case letters `strings.EqualFold` is
equality after lower-casing. -/
theorem equalFoldChars_plainUpper (ts : List Char) (h : ∀ t ∈ ts, plainUpper t = true)
    (s : List Char) :
    equalFoldChars s ts = true ↔ s.map Char.toLower = ts.map Char.toLower := by
  induction ts generalizing s with
  | nil =>
    cases s with
    | nil => simp [equalFoldChars]
    | cons c cs => simp [equalFoldChars]
  | cons t rest ih =>
    cases s with
    | nil => simp [equalFoldChars]
    | cons c cs =>
      have ht := h t (by simp)
      have hup : 65 ≤ t.toNat ∧ t.toNat ≤ 90 := by
        simp only [plainUpper, decide_eq_true_eq] at ht
        exact ⟨ht.2.2.1, ht.2.2.2⟩
      simp only [equalFoldChars, Bool.and_eq_true, List.map_cons, List.cons.injEq]
      rw [foldEqRune_plainUpper c t ht, ih (fun x hx => h x (by simp [hx])) cs,
        toLower_eq_iff c t hup.1 hup.2]

/-- Comparing with `RUNNING`, `strings.EqualFold` is the case-insensitive
comparison of the specification. -/
theorem EqualFold_bpfStatus (s : String) : EqualFold s bpfStatus = eqIgnoreCase s bpfStatus := by
  have h := equalFoldChars_plainUpper bpfStatus.data (by decide) s.data
  unfold EqualFold eqIgnoreCase
  by_cases hs : s.data.map Char.toLower = bpfStatus.data.map Char.toLower
  · rw [h.2 hs]
    simp [hs]
  · have : equalFoldChars s.data bpfStatus.data = false := by
      rw [← Bool.not_eq_true]
      exact fun hx => hs (h.1 hx)
    rw [this]
    simp [hs]

/-- With a status command whose name has more than one byte and which is
executable, `isRunning` reports both sides alive exactly when the output
equals `RUNNING` ignoring case, and both dead otherwise. -/
theorem isRunning_status_ignoring_case (env : Env) (s : St)
    (hlen : len s.b.Program.CmdStatus > 1)
    (hexec : env.assertExecutable s.w.now (Join [s.b.FilePath, s.b.Program.CmdStatus]) = true) :
    (isRunning env s).1 =
      if eqIgnoreCase (env.runOutput
            (s.w.emit (.assertExecutable (Join [s.b.FilePath, s.b.Program.CmdStatus]))).now
            (Join [s.b.FilePath, s.b.Program.CmdStatus]) (statusArgs s.b.Program.StatusArgs))
          bpfStatus
      then (true, true, none) else (false, false, none) := by
  rw [isRunning_status env s hlen hexec, EqualFold_bpfStatus]

/-! ### The vanish check of the map records -/

/-- The vanish check over no records succeeds at its first poll without a
call. -/
theorem VerifyMetricsMapsVanish_no_records (env : Env) (b : BPF) (w : World)
    (h : b.BpfMaps = []) : VerifyMetricsMapsVanish env b w = (.ok (), w) := by
  unfold VerifyMetricsMapsVanish
  rw [h]
  rfl

theorem removeLoop_mapAlive (env : Env) (alive : Nat → Nat → Bool) (b : BPF) (iface : String)
    (l : List (String × KMap)) (w : World) :
    removeLoop { env with mapAlive := alive } b iface l w = removeLoop env b iface l w := by
  induction l generalizing w with
  | nil => rfl
  | cons p rest ih =>
    rw [removeLoop, removeLoop]
    simp only [ih]

theorem pollPinned_mapAlive (env : Env) (alive : Nat → Nat → Bool) (path : String)
    (pinned : Bool) (n : Nat) (err : Bool) (w : World) :
    pollPinned { env with mapAlive := alive } path pinned n err w =
      pollPinned env path pinned n err w := by
  induction n generalizing err w with
  | zero => rfl
  | succ n ih =>
    rw [pollPinned, pollPinned]
    simp only [ih]

theorem stopUser_mapAlive (env : Env) (alive : Nat → Nat → Bool) (iface direction : String)
    (s : St) :
    stopUser { env with mapAlive := alive } iface direction s = stopUser env iface direction s :=
  rfl

theorem stopUnload_mapAlive (env : Env) (alive : Nat → Nat → Bool) (iface direction : String)
    (s : St) :
    stopUnload { env with mapAlive := alive } iface direction s =
      stopUnload env iface direction s := by
  unfold stopUnload UnloadProgram RemoveMapFiles
  simp only [removeLoop_mapAlive]

theorem stopVerify_mapAlive (env : Env) (alive : Nat → Nat → Bool) (chain : Bool) (s : St)
    (h : s.b.BpfMaps = []) :
    stopVerify { env with mapAlive := alive } chain s = stopVerify env chain s := by
  unfold stopVerify VerifyCleanupMaps VerifyPinnedProgMap VerifyMetricsMapsVanish
  simp only [pollPinned_mapAlive, h]
  rfl

/-- The outcome of `Stop` does not depend on whether any map ID resolves. -/
theorem Stop_mapAlive (env : Env) (alive : Nat → Nat → Bool) (iface direction : String)
    (chain : Bool) (s : St) :
    Stop { env with mapAlive := alive } iface direction chain s =
      Stop env iface direction chain s := by
  unfold Stop
  split
  · rfl
  · split
    · rfl
    · unfold stopTail
      rw [stopUser_mapAlive]
      have h1 := stopUser_frame env iface direction (stopPrelude s)
      rcases hu : stopUser env iface direction (stopPrelude s) with ⟨r1, t1⟩
      rw [hu] at h1
      cases r1 with
      | error e => rfl
      | ok u =>
        simp only
        rw [stopUnload_mapAlive]
        have h2 := stopUnload_frame env iface direction t1
        rcases hl : stopUnload env iface direction t1 with ⟨r2, t2⟩
        rw [hl] at h2
        cases r2 with
        | error e => rfl
        | ok u =>
          simp only
          apply stopVerify_mapAlive
          simp only at h1 h2
          rw [h2, h1]
          simp [stopPrelude, stopDropMaps, deleteAll_eq_nil]

/-- Claim C11, failing input. The loaded instance holds the records of the
maps 21 and 22, which resolve at all times, so that the vanish check run on
these records fails after its ten polls. `Stop` empties the records before it
reaches the check: for every instance the check as `Stop` runs it succeeds
without a call, the outcome of `Stop` is the same whatever the kernel answers
about map IDs, and `Stop` returns success here without opening a map by its
ID. -/
theorem Stop_maps_still_resolve :
    loadedInst.b.BpfMaps.map (fun p => p.2.MapID) = [21, 22] ∧
    (∀ t id, goodEnv.mapAlive t id = true) ∧
    (VerifyMetricsMapsVanish goodEnv loadedInst.b {}).1 =
      .error "metrics maps are never removed by Kernel" ∧
    (∀ (env : Env) (s : St) (w : World),
      VerifyMetricsMapsVanish env (stopPrelude s).b w = (.ok (), w)) ∧
    (∀ (env : Env) (alive : Nat → Nat → Bool) (iface direction : String) (chain : Bool) (s : St),
      Stop { env with mapAlive := alive } iface direction chain s =
        Stop env iface direction chain s) ∧
    (Stop goodEnv "eth0" "xdpingress" true loadedInst).1 = .ok () ∧
    (Stop goodEnv "eth0" "xdpingress" true loadedInst).2.w.trace =
      [.interfaceByName "eth0", .closeXDPLink, .closeCollection, .unpin "next_prog",
       .removeAll "/sys/fs/bpf/eth0/next_prog", .stat "/sys/fs/bpf/eth0/next_prog",
       .stat "/sys/fs/bpf/eth0/next_prog"] := by
  refine ⟨by decide, fun _ _ => rfl, by decide, ?_, Stop_mapAlive, by decide, by decide⟩
  intro env s w
  apply VerifyMetricsMapsVanish_no_records
  simp [stopPrelude, stopDropMaps, deleteAll_eq_nil]

/-! ### The steps of Stop after a failure -/

/-- An error of the step "Stop User Programs if any" ends `Stop`: neither the
unload nor the verification of the cleanup follows. -/
theorem Stop_ends_at_stopUser (env : Env) (iface direction : String) (chain : Bool) (s t : St)
    (e : String) (hpast : (s.b.Program.UserProgramDaemon && s.b.Cmd.isNone) = false)
    (hsend : (stopWatched s.b && !s.b.Done) = false)
    (hfail : stopUser env iface direction (stopPrelude s) = (.error e, t)) :
    Stop env iface direction chain s = (.error e, t) := by
  unfold Stop stopTail
  simp [hpast, hsend, hfail]

/-- An error of the step "unload the BPF programs" ends `Stop`: the
verification of the cleanup does not follow. -/
theorem Stop_ends_at_stopUnload (env : Env) (iface direction : String) (chain : Bool)
    (s t u : St) (e : String)
    (hpast : (s.b.Program.UserProgramDaemon && s.b.Cmd.isNone) = false)
    (hsend : (stopWatched s.b && !s.b.Done) = false)
    (huser : stopUser env iface direction (stopPrelude s) = (.ok (), t))
    (hfail : stopUnload env iface direction t = (.error e, u)) :
    Stop env iface direction chain s = (.error e, u) := by
  unfold Stop stopTail
  simp [hpast, hsend, huser, hfail]

/-- Claim C12, failing inputs. For every instance an error of the step that
stops the user program, or of the unload, is what `Stop` returns, in the
state that step left. A loaded daemon program is stopped with chaining on:
when the termination of the child fails, when the stop command is not
executable, and when a stop arg is a number, `Stop` returns after that one
call: the collection stays loaded, nothing is detached or unpinned and no
pinned file is checked. When the unload fails at the interface lookup, `Stop`
returns without checking the pinned file. In the run without a failure the
unload and the check follow the stop of the user program. -/
theorem Stop_returns_at_first_failure :
    (∀ (env : Env) (iface direction : String) (chain : Bool) (s t : St) (e : String),
      (s.b.Program.UserProgramDaemon && s.b.Cmd.isNone) = false →
      (stopWatched s.b && !s.b.Done) = false →
      stopUser env iface direction (stopPrelude s) = (.error e, t) →
      Stop env iface direction chain s = (.error e, t)) ∧
    (∀ (env : Env) (iface direction : String) (chain : Bool) (s t u : St) (e : String),
      (s.b.Program.UserProgramDaemon && s.b.Cmd.isNone) = false →
      (stopWatched s.b && !s.b.Done) = false →
      stopUser env iface direction (stopPrelude s) = (.ok (), t) →
      stopUnload env iface direction t = (.error e, u) →
      Stop env iface direction chain s = (.error e, u)) ∧
    ((Stop noTerminateEnv "eth0" "xdpingress" true daemonNoStop).1 =
        .error "process terminate failed" ∧
      (Stop noTerminateEnv "eth0" "xdpingress" true daemonNoStop).2.w.trace =
        [.processTerminate] ∧
      (Stop noTerminateEnv "eth0" "xdpingress" true daemonNoStop).2.b.ProgMapCollection =
        some fooColl) ∧
    ((Stop noExecEnv "eth0" "xdpingress" true daemonLoaded).1 =
        .error "no executable permissions" ∧
      (Stop noExecEnv "eth0" "xdpingress" true daemonLoaded).2.w.trace =
        [.assertExecutable "/var/l3afd/foo/v1/foo/foo_stop"] ∧
      (Stop noExecEnv "eth0" "xdpingress" true daemonLoaded).2.b.ProgMapCollection =
        some fooColl) ∧
    ((Stop goodEnv "eth0" "xdpingress" true daemonBadStopArgs).1 =
        .error "args is not a string" ∧
      (Stop goodEnv "eth0" "xdpingress" true daemonBadStopArgs).2.w.trace =
        [.assertExecutable "/var/l3afd/foo/v1/foo/foo_stop"] ∧
      (Stop goodEnv "eth0" "xdpingress" true daemonBadStopArgs).2.b.ProgMapCollection =
        some fooColl) ∧
    ((Stop noIfaceEnv "eth0" "xdpingress" true daemonNoStop).1 = .error "unload failed" ∧
      (Stop noIfaceEnv "eth0" "xdpingress" true daemonNoStop).2.w.trace =
        [.processTerminate, .wait "/var/l3afd/foo/v1/foo/foo_user", .interfaceByName "eth0"]) ∧
    ((Stop goodEnv "eth0" "xdpingress" true daemonNoStop).1 = .ok () ∧
      (Stop goodEnv "eth0" "xdpingress" true daemonNoStop).2.w.trace =
        [.processTerminate, .wait "/var/l3afd/foo/v1/foo/foo_user", .interfaceByName "eth0",
         .closeXDPLink, .closeCollection, .unpin "next_prog",
         .removeAll "/sys/fs/bpf/eth0/next_prog", .stat "/sys/fs/bpf/eth0/next_prog",
         .stat "/sys/fs/bpf/eth0/next_prog"]) := by
  refine ⟨Stop_ends_at_stopUser, Stop_ends_at_stopUnload, ?_⟩
  decide

/-! ### Verification of the pin creation -/

theorem statFinds_false (env : Env) (path : String) (t : Nat) (h : statFinds env path t = false) :
    (decide (env.stat t path = .notExist ∨ env.stat t path = .otherErr)) = true := by
  unfold statFinds at h
  cases hs : env.stat t path <;> simp_all

theorem statFinds_true (env : Env) (path : String) (t : Nat) (h : statFinds env path t = true) :
    (decide (env.stat t path = .notExist ∨ env.stat t path = .otherErr)) = false := by
  unfold statFinds at h
  cases hs : env.stat t path <;> simp_all

/-- The polls for the creation end with success at the first poll that finds
the file: `k` polls with a sleep each, then one stat. -/
theorem pollPinned_creation_found (env : Env) (path : String) (k : Nat) :
    ∀ (n : Nat) (err : Bool) (w : World), k < n →
      statFinds env path (w.now + 2 * k) = true →
      (∀ i, i < k → statFinds env path (w.now + 2 * i) = false) →
      pollPinned env path true n err w =
        (.ok (), { w with trace := w.trace ++ (pollTrace path k ++ [.stat path]) }) := by
  induction k with
  | zero =>
    intro n err w hn hk _
    obtain ⟨m, rfl⟩ : ∃ m, n = m + 1 := ⟨n - 1, by omega⟩
    rw [pollPinned]
    have h := statFinds_true env path w.now (by simpa using hk)
    simp only [h, Bool.not_false, Bool.and_self, if_true]
    simp [World.emit, pollTrace]
  | succ k ih =>
    intro n err w hn hk hlt
    obtain ⟨m, rfl⟩ : ∃ m, n = m + 1 := ⟨n - 1, by omega⟩
    rw [pollPinned]
    have h := statFinds_false env path w.now (by simpa using hlt 0 (by omega))
    simp only [h, Bool.not_true, Bool.false_and, Bool.false_eq_true, if_false, Bool.and_false]
    have hnow : ((w.emit (.stat path)).emit .sleep).now = w.now + 2 := by
      simp [World.emit, World.now]
    rw [ih m true ((w.emit (.stat path)).emit .sleep) (by omega)]
    · simp [World.emit, pollTrace]
    · rw [hnow]
      have : w.now + 2 + 2 * k = w.now + 2 * (k + 1) := by ring
      rw [this]
      exact hk
    · intro i hi
      rw [hnow]
      have : w.now + 2 + 2 * i = w.now + 2 * (i + 1) := by ring
      rw [this]
      exact hlt (i + 1) (by omega)

/-- The polls for the creation end with an error when no poll finds the
file: `n` polls with a sleep each. -/
theorem pollPinned_creation_missing (env : Env) (path : String) (n : Nat) :
    ∀ (w : World), (∀ i, i < n → statFinds env path (w.now + 2 * i) = false) →
      pollPinned env path true n true w =
        (.error "VerifyPinnedProgMap creation : failed to find pinned file",
          { w with trace := w.trace ++ pollTrace path n }) := by
  induction n with
  | zero =>
    intro w _
    simp [pollPinned, pollTrace]
  | succ n ih =>
    intro w hlt
    rw [pollPinned]
    have h := statFinds_false env path w.now (by simpa using hlt 0 (by omega))
    simp only [h, Bool.not_true, Bool.false_and, Bool.false_eq_true, if_false, Bool.and_false]
    have hnow : ((w.emit (.stat path)).emit .sleep).now = w.now + 2 := by
      simp [World.emit, World.now]
    rw [ih ((w.emit (.stat path)).emit .sleep)]
    · simp [World.emit, pollTrace]
    · intro i hi
      rw [hnow]
      have : w.now + 2 + 2 * i = w.now + 2 * (i + 1) := by ring
      rw [this]
      exact hlt (i + 1) (by omega)

theorem pollPinned_first_err (env : Env) (path : String) (pinned : Bool) (n : Nat) (err : Bool)
    (w : World) : pollPinned env path pinned (n + 1) err w = pollPinned env path pinned (n + 1) true w := by
  rw [pollPinned, pollPinned]

theorem count_stat_pollTrace (path : String) (n : Nat) :
    (pollTrace path n).count (.stat path) = n := by
  induction n with
  | zero => rfl
  | succ n ih =>
    simp only [pollTrace, List.count_cons_self]
    rw [List.count_cons_of_ne (by simp), ih]

/-- Among ten polls of which one finds the file there is a first one. -/
theorem first_found (env : Env) (path : String) (t : Nat)
    (h : ¬ ∀ i, i < 10 → statFinds env path (t + 2 * i) = false) :
    ∃ k, k < 10 ∧ statFinds env path (t + 2 * k) = true ∧
      ∀ i, i < k → statFinds env path (t + 2 * i) = false := by
  have hex : ∃ k, k < 10 ∧ statFinds env path (t + 2 * k) = true := by
    by_contra hne
    apply h
    intro i hi
    by_contra hf
    exact hne ⟨i, hi, by simpa using hf⟩
  refine ⟨Nat.find hex, (Nat.find_spec hex).1, (Nat.find_spec hex).2, ?_⟩
  intro i hi
  have hmin := Nat.find_min hex hi
  by_contra hf
  apply hmin
  have hk := (Nat.find_spec hex).1
  exact ⟨by omega, by simpa using hf⟩

/-- An error of the check of the pinned file ends `Start`. -/
theorem Start_fails_with_pin_check (env : Env) (iface direction : String) (chain : Bool)
    (s s1 s3 s4 : St) (e : String) (hpath : s.b.FilePath ≠ "")
    (h1 : startStopExternal env s = (.ok (), s1))
    (h3 : startLoad env iface direction chain (startRemovePrev env s1) = (.ok (), s3))
    (h4 : startUser env iface direction chain s3 = (.ok (), s4))
    (hfail : (VerifyPinnedProgMap env s4.b chain true s4.w).1 = .error e) :
    (Start env iface direction chain s).1 = .error "failed to find pinned file" := by
  unfold Start
  rw [if_neg hpath]
  simp only [h1, h3, h4]
  unfold startVerifyPin
  rcases hv : VerifyPinnedProgMap env s4.b chain true s4.w with ⟨r, w⟩
  rw [hv] at hfail
  simp only at hfail
  subst hfail
  rfl

/-- Claim C13. For a program with a chaining-map name and chaining on, the
check of the creation of the pinned file polls `os.Stat` at most ten times;
it returns success at the first poll that finds the file, after `k` polls
with a sleep each and that one stat, and it returns an error exactly when
none of the ten polls finds the file. When `Start` reaches the check and the
check fails, `Start` returns an error. -/
theorem VerifyPinnedProgMap_creation (env : Env) (b : BPF) (w : World)
    (hname : len b.Program.MapName > 0) :
    (∀ k, k < 10 → statFinds env b.MapNamePath (w.now + 2 * k) = true →
      (∀ i, i < k → statFinds env b.MapNamePath (w.now + 2 * i) = false) →
      VerifyPinnedProgMap env b true true w =
        (.ok (), { w with trace := w.trace ++
                     (pollTrace b.MapNamePath k ++ [.stat b.MapNamePath]) })) ∧
    ((∀ i, i < 10 → statFinds env b.MapNamePath (w.now + 2 * i) = false) →
      VerifyPinnedProgMap env b true true w =
        (.error "VerifyPinnedProgMap creation : failed to find pinned file",
          { w with trace := w.trace ++ pollTrace b.MapNamePath 10 })) ∧
    ((∃ e, (VerifyPinnedProgMap env b true true w).1 = .error e) ↔
      ∀ i, i < 10 → statFinds env b.MapNamePath (w.now + 2 * i) = false) ∧
    (newEvents w (VerifyPinnedProgMap env b true true w).2).count (.stat b.MapNamePath) ≤ 10 ∧
    (∀ (iface direction : String) (chain : Bool) (s s1 s3 s4 : St) (e : String),
      s.b.FilePath ≠ "" → startStopExternal env s = (.ok (), s1) →
      startLoad env iface direction chain (startRemovePrev env s1) = (.ok (), s3) →
      startUser env iface direction chain s3 = (.ok (), s4) →
      (VerifyPinnedProgMap env s4.b chain true s4.w).1 = .error e →
      ∃ e2, (Start env iface direction chain s).1 = .error e2) := by
  have hV : VerifyPinnedProgMap env b true true w = pollPinned env b.MapNamePath true 10 true w := by
    unfold VerifyPinnedProgMap
    simp only [Bool.not_true, Bool.false_eq_true, if_false, hname, if_true]
    exact pollPinned_first_err env b.MapNamePath true 9 false w
  have hfound : ∀ k, k < 10 → statFinds env b.MapNamePath (w.now + 2 * k) = true →
      (∀ i, i < k → statFinds env b.MapNamePath (w.now + 2 * i) = false) →
      VerifyPinnedProgMap env b true true w =
        (.ok (), { w with trace := w.trace ++
                     (pollTrace b.MapNamePath k ++ [.stat b.MapNamePath]) }) := by
    intro k hk hf hlt
    rw [hV]
    exact pollPinned_creation_found env b.MapNamePath k 10 true w hk hf hlt
  have hmiss : (∀ i, i < 10 → statFinds env b.MapNamePath (w.now + 2 * i) = false) →
      VerifyPinnedProgMap env b true true w =
        (.error "VerifyPinnedProgMap creation : failed to find pinned file",
          { w with trace := w.trace ++ pollTrace b.MapNamePath 10 }) := by
    intro hall
    rw [hV]
    exact pollPinned_creation_missing env b.MapNamePath 10 w hall
  refine ⟨hfound, hmiss, ⟨?_, ?_⟩, ?_, ?_⟩
  · rintro ⟨e, he⟩
    by_contra hne
    obtain ⟨k, hk, hf, hlt⟩ := first_found env b.MapNamePath w.now hne
    rw [hfound k hk hf hlt] at he
    simp at he
  · intro hall
    exact ⟨_, by rw [hmiss hall]⟩
  · by_cases hall : ∀ i, i < 10 → statFinds env b.MapNamePath (w.now + 2 * i) = false
    · rw [hmiss hall]
      simp [newEvents, count_stat_pollTrace]
    · obtain ⟨k, hk, hf, hlt⟩ := first_found env b.MapNamePath w.now hall
      rw [hfound k hk hf hlt]
      simp only [newEvents, List.drop_left, List.count_append, count_stat_pollTrace,
        List.count_singleton, beq_self_eq_true, if_true]
      omega
  · intro iface direction chain s s1 s3 s4 e hpath h1 h3 h4 hfail
    exact ⟨_, Start_fails_with_pin_check env iface direction chain s s1 s3 s4 e hpath h1 h3 h4 hfail⟩

/-- Claim C13, instances. In `lateEnv` the third poll is the first to find
the file of `foo`; in `goodEnv` no poll finds it, the check fails after ten
polls and so does `Start`. -/
theorem VerifyPinnedProgMap_creation_witness :
    len fooXdp.b.Program.MapName > 0 ∧
    VerifyPinnedProgMap lateEnv fooXdp.b true true {} =
      (.ok (), { trace := [.stat "/sys/fs/bpf/eth0/next_prog", .sleep,
                           .stat "/sys/fs/bpf/eth0/next_prog", .sleep,
                           .stat "/sys/fs/bpf/eth0/next_prog"] }) ∧
    VerifyPinnedProgMap goodEnv fooXdp.b true true {} =
      (.error "VerifyPinnedProgMap creation : failed to find pinned file",
        { trace := pollTrace "/sys/fs/bpf/eth0/next_prog" 10 }) ∧
    ∃ e2, (Start goodEnv "eth0" "xdpingress" true fooXdp).1 = .error e2 :=
  ⟨by decide,
   (VerifyPinnedProgMap_creation lateEnv fooXdp.b {} (by decide)).1 2 (by decide) (by decide)
     (by decide),
   (VerifyPinnedProgMap_creation goodEnv fooXdp.b {} (by decide)).2.1 (by decide),
   (VerifyPinnedProgMap_creation goodEnv fooXdp.b {} (by decide)).2.2.2.2
     "eth0" "xdpingress" true fooXdp
     (startStopExternal goodEnv fooXdp).2
     (startLoad goodEnv "eth0" "xdpingress" true
       (startRemovePrev goodEnv (startStopExternal goodEnv fooXdp).2)).2
     (startUser goodEnv "eth0" "xdpingress" true
       (startLoad goodEnv "eth0" "xdpingress" true
         (startRemovePrev goodEnv (startStopExternal goodEnv fooXdp).2)).2).2
     "VerifyPinnedProgMap creation : failed to find pinned file"
     (by decide) rfl rfl rfl (by decide)⟩

/-! ### The final check of Start -/

/-- Without a status command and without a daemon start command `isRunning`
reports the userspace side alive. -/
theorem isRunning_default (env : Env) (s : St) (hstatus : s.b.Program.CmdStatus = "")
    (hstart : s.b.Program.CmdStart = "" ∨ s.b.Program.UserProgramDaemon = false) :
    (isRunning env s).1.1 = true := by
  unfold isRunning
  have h0 : ¬ (len s.b.Program.CmdStatus > 1) := by
    rw [hstatus]
    decide
  have h1 : (decide (len s.b.Program.CmdStart > 1) && s.b.Program.UserProgramDaemon) = false := by
    rcases hstart with h | h
    · rw [h]
      rfl
    · rw [h]
      simp
  rw [if_neg h0]
  simp only [h1, Bool.false_eq_true, if_false]

/-- The final check of `Start` fails exactly when `isRunning` reports
neither side alive. -/
theorem startCheck_spec (env : Env) (s : St) :
    ((startCheck env s).1 = .error "bpf program failed to start" ↔
      (isRunning env s).1.1 = false ∧ (isRunning env s).1.2.1 = false) ∧
    ((startCheck env s).1 = .ok () ↔
      ¬ ((isRunning env s).1.1 = false ∧ (isRunning env s).1.2.1 = false)) := by
  unfold startCheck
  rcases isRunning env s with ⟨⟨u, k, e⟩, t⟩
  cases u <;> cases k <;> simp

/-- Claim C14, amended. When `Start` reaches its final check, it returns the
error of that check exactly when `isRunning` reports neither the userspace
side nor the kernel side alive, and success otherwise. For a program that
declares neither a status command nor a daemon start command `isRunning`
reports the userspace side alive, so that `Start` then returns success
whatever the kernel says about the program ID. -/
theorem Start_final_check (env : Env) (iface direction : String) (chain : Bool)
    (s s1 s3 s4 s5 s6 s7 s8 : St) (hpath : s.b.FilePath ≠ "")
    (h1 : startStopExternal env s = (.ok (), s1))
    (h3 : startLoad env iface direction chain (startRemovePrev env s1) = (.ok (), s3))
    (h4 : startUser env iface direction chain s3 = (.ok (), s4))
    (h5 : startVerifyPin env chain s4 = (.ok (), s5))
    (h6 : startMapArgs env s5 = (.ok (), s6))
    (h7 : startUpdateArgs env iface direction s6 = (.ok (), s7))
    (h8 : startProgID env s7 = (.ok (), s8)) :
    ((Start env iface direction chain s).1 = .error "bpf program failed to start" ↔
      (isRunning env (startWatcher s8)).1.1 = false ∧
        (isRunning env (startWatcher s8)).1.2.1 = false) ∧
    ((Start env iface direction chain s).1 = .ok () ↔
      ¬ ((isRunning env (startWatcher s8)).1.1 = false ∧
        (isRunning env (startWatcher s8)).1.2.1 = false)) ∧
    (s8.b.Program.CmdStatus = "" →
      s8.b.Program.CmdStart = "" ∨ s8.b.Program.UserProgramDaemon = false →
      (Start env iface direction chain s).1 = .ok ()) := by
  have hS : Start env iface direction chain s = startCheck env (startWatcher s8) := by
    unfold Start
    rw [if_neg hpath]
    simp only [h1, h3, h4, h5, h6, h7, h8]
  rw [hS]
  refine ⟨(startCheck_spec env (startWatcher s8)).1, (startCheck_spec env (startWatcher s8)).2, ?_⟩
  intro hstatus hstart
  have hP : (startWatcher s8).b.Program = s8.b.Program := by
    unfold startWatcher
    split <;> rfl
  have hu := isRunning_default env (startWatcher s8) (by rw [hP]; exact hstatus)
    (by rw [hP]; exact hstart)
  rw [(startCheck_spec env (startWatcher s8)).2]
  intro h
  rw [hu] at h
  exact absurd h.1 (by simp)

/-- Claim C14, counterexample. The program `foo` declares no command, has no
userspace process, and no program ID resolves in the kernel; `Start` makes
the one lookup of its program ID and returns success. -/
theorem Start_nothing_alive_counterexample :
    bareInst.b.Program.CmdStatus = "" ∧ bareInst.b.Program.CmdStart = "" ∧
    bareInst.b.Cmd = none ∧ (∀ t id, deadEnv.progFD t id = .error true) ∧
    (IsLoaded deadEnv bareInst).1 = false ∧
    (Start deadEnv "eth0" "xdpingress" true bareInst).1 = .ok () ∧
    (Start deadEnv "eth0" "xdpingress" true bareInst).2.w.trace = [.newProgramFromID 0] ∧
    (Start deadEnv "eth0" "xdpingress" true bareInst).2.b.Cmd = none := by
  refine ⟨by decide, by decide, by decide, fun _ _ => rfl, by decide, by decide, by decide,
    by decide⟩

/-- Claim C14, instances. The program `foo` without commands, and the same
program with the status command `st`, in an environment in which nothing is
alive and no file is executable: `Start` returns success for the first and
the error of its final check for the second. -/
theorem Start_final_check_witness :
    (bareInst.b.FilePath ≠ "" ∧ bareInst.b.Program.CmdStatus = "" ∧
      (Start deadEnv "eth0" "xdpingress" true bareInst).1 = .ok ()) ∧
    (longStatusInst.b.FilePath ≠ "" ∧
      (isRunning deadEnv longStatusInst).1 = (false, false, none) ∧
      (Start deadEnv "eth0" "xdpingress" true longStatusInst).1 =
        .error "bpf program failed to start") :=
  ⟨⟨by decide, by decide,
    (Start_final_check deadEnv "eth0" "xdpingress" true bareInst bareInst bareInst bareInst
      bareInst bareInst bareInst bareInst (by decide) rfl rfl rfl rfl rfl rfl rfl).2.2
      (by decide) (Or.inl (by decide))⟩,
   ⟨by decide, by decide,
    (Start_final_check deadEnv "eth0" "xdpingress" true longStatusInst longStatusInst
      longStatusInst longStatusInst longStatusInst longStatusInst longStatusInst longStatusInst
      (by decide) rfl rfl rfl rfl rfl rfl rfl).1.2 ⟨by decide, by decide⟩⟩⟩

/-! ### The entries of the tail-call maps -/

/-- Claim C15, divergence. For a program with a chaining-map name whose map
opens: when key 0 is absent, `RemoveNextProgFD` returns the error of the
delete, whereas `RemovePrevProgFD` returns success on the same state; when
key 0 is present and the delete succeeds, `RemoveNextProgFD` returns success
and the key is gone. -/
theorem RemoveNextProgFD_absent_key (env : Env) (s : St)
    (hname : len s.b.Program.MapName ≠ 0)
    (hopen : env.mapAlive s.w.now s.b.PrevProgMapID = true) :
    (s.w.slots s.b.PrevProgMapID 0 = none →
      (RemoveNextProgFD env s).1 = .error "failed to delete prog fd entry" ∧
      (RemovePrevProgFD env s).1 = .ok ()) ∧
    (∀ v, s.w.slots s.b.PrevProgMapID 0 = some v →
      env.mapDeleteErr (s.w.now + 1) s.b.PrevProgMapID 0 = false →
      (RemoveNextProgFD env s).1 = .ok () ∧
      (RemoveNextProgFD env s).2.w.slots s.b.PrevProgMapID 0 = none) := by
  constructor
  · intro habsent
    constructor
    · unfold RemoveNextProgFD
      simp [hname, hopen, World.emit, habsent]
    · unfold RemovePrevProgFD
      simp [hopen, World.emit, habsent]
  · intro v hv hdel
    have hnow : (s.w.emit (.newMapFromID s.b.PrevProgMapID)).now = s.w.now + 1 := by
      simp [World.emit, World.now]
    unfold RemoveNextProgFD
    simp only [hname, if_false, hopen, Bool.not_true, Bool.false_eq_true, hnow, hdel]
    simp [World.emit, hv, World.clearSlot]

/-- Claim C15, failing input. The maps 5 and 11 of the program `foo` open and
hold no key 0: `RemoveNextProgFD` returns an error after the delete. With key
0 present in map 5 it returns success. -/
theorem RemoveNextProgFD_absent_key_witness :
    (len chainedInst.b.Program.MapName ≠ 0 ∧
      goodEnv.mapAlive chainedInst.w.now chainedInst.b.PrevProgMapID = true) ∧
    (chainedInst.w.slots 5 0 = none ∧ chainedInst.w.slots 11 0 = none ∧
      (RemoveNextProgFD goodEnv chainedInst).1 = .error "failed to delete prog fd entry" ∧
      (RemoveNextProgFD goodEnv chainedInst).2.w.trace = [.newMapFromID 5, .mapDelete 5 0] ∧
      (RemovePrevProgFD goodEnv chainedInst).1 = .ok ()) ∧
    ((RemoveNextProgFD goodEnv linkedInst).1 = .ok () ∧
      (RemoveNextProgFD goodEnv linkedInst).2.w.slots 5 0 = none) :=
  ⟨⟨by decide, rfl⟩,
   ⟨rfl, rfl,
    ((RemoveNextProgFD_absent_key goodEnv chainedInst (by decide) rfl).1 rfl).1, by decide,
    ((RemoveNextProgFD_absent_key goodEnv chainedInst (by decide) rfl).1 rfl).2⟩,
   (RemoveNextProgFD_absent_key goodEnv linkedInst (by decide) rfl).2 7 rfl rfl⟩

/-- A successful `PutNextProgFDFromID` leaves the instance as it is and
stores an entry at key 0 of the map with ID `ProgMapID`, and nowhere else. -/
theorem PutNextProgFDFromID_ok (env : Env) (progID : Nat) (s s1 : St)
    (hname : len s.b.Program.MapName ≠ 0)
    (hput : PutNextProgFDFromID env progID s = (.ok (), s1)) :
    s1.b = s.b ∧ ∃ fd, ∀ id k, s1.w.slots id k =
      if id = s.b.ProgMapID ∧ k = 0 then some fd else s.w.slots id k := by
  unfold PutNextProgFDFromID at hput
  simp only [hname, if_false] at hput
  split at hput
  · simp at hput
  · split at hput
    · simp at hput
    · rename_i fd hfd
      split at hput
      · simp at hput
      · simp only [Prod.mk.injEq, true_and] at hput
        subst hput
        exact ⟨rfl, fd, fun id k => rfl⟩

/-- The slots that `RemoveNextProgFD` leaves: at most key 0 of the map with
ID `PrevProgMapID` changes. -/
theorem RemoveNextProgFD_slots (env : Env) (s : St) (id k : Nat)
    (h : ¬ (id = s.b.PrevProgMapID ∧ k = 0)) :
    (RemoveNextProgFD env s).2.w.slots id k = s.w.slots id k := by
  unfold RemoveNextProgFD
  simp only
  repeat' split
  all_goals simp [World.emit, World.clearSlot, h]

/-- A successful `RemoveNextProgFD` of a program with a chaining-map name
found an entry at key 0 of the map with ID `PrevProgMapID` and removed it. -/
theorem RemoveNextProgFD_ok (env : Env) (s : St) (hname : len s.b.Program.MapName ≠ 0)
    (hrem : (RemoveNextProgFD env s).1 = .ok ()) :
    (∃ v, s.w.slots s.b.PrevProgMapID 0 = some v) ∧
    (RemoveNextProgFD env s).2.w.slots s.b.PrevProgMapID 0 = none := by
  unfold RemoveNextProgFD at hrem ⊢
  simp only [hname, if_false] at hrem ⊢
  split at hrem
  · simp at hrem
  · rename_i halive
    rw [if_neg halive]
    split at hrem
    · simp at hrem
    · rename_i hdel
      rw [if_neg hdel]
      simp only [Bool.or_eq_true, Bool.not_eq_true', not_or, Bool.not_eq_false,
        Bool.not_eq_true, Option.isSome_iff_exists] at hdel
      refine ⟨?_, by simp [World.clearSlot]⟩
      obtain ⟨v, hv⟩ := hdel.2
      exact ⟨v, by simpa [World.emit] using hv⟩

/-- Claim C16, divergence. For an instance with a chaining-map name whose own
map is not the map of the previous program: after a successful
`PutNextProgFDFromID` the following `RemoveNextProgFD` leaves the entry at key
0 of the instance's own map in place, and when it succeeds it has removed the
entry at key 0 of the previous program's map instead. -/
theorem RemoveNextProgFD_other_map (env : Env) (progID : Nat) (s s1 : St)
    (hname : len s.b.Program.MapName ≠ 0) (hne : s.b.ProgMapID ≠ s.b.PrevProgMapID)
    (hput : PutNextProgFDFromID env progID s = (.ok (), s1)) :
    (∃ fd, (RemoveNextProgFD env s1).2.w.slots s.b.ProgMapID 0 = some fd) ∧
    ((RemoveNextProgFD env s1).1 = .ok () →
      (∃ v, s.w.slots s.b.PrevProgMapID 0 = some v) ∧
      (RemoveNextProgFD env s1).2.w.slots s.b.PrevProgMapID 0 = none) := by
  obtain ⟨hb, fd, hslots⟩ := PutNextProgFDFromID_ok env progID s s1 hname hput
  constructor
  · refine ⟨fd, ?_⟩
    rw [RemoveNextProgFD_slots env s1 s.b.ProgMapID 0 (by rw [hb]; exact fun h => hne h.1)]
    rw [hslots]
    simp
  · intro hrem
    have h := RemoveNextProgFD_ok env s1 (by rw [hb]; exact hname) hrem
    rw [hb] at h
    rw [hslots] at h
    simpa [Ne.symm hne] using h

/-- Claim C16, failing input. The program `foo` has the own map 11 and is
linked from key 0 of map 5 of the previous program. After
`PutNextProgFDFromID(99)` and `RemoveNextProgFD` its own map still holds the
FD 9 of program 99 at key 0, and key 0 of map 5 has been deleted. -/
theorem RemoveNextProgFD_other_map_witness :
    (len linkedInst.b.Program.MapName ≠ 0 ∧
      linkedInst.b.ProgMapID ≠ linkedInst.b.PrevProgMapID ∧
      (PutNextProgFDFromID chainEnv 99 linkedInst).1 = .ok ()) ∧
    ((∃ fd, (RemoveNextProgFD chainEnv (PutNextProgFDFromID chainEnv 99 linkedInst).2).2.w.slots
        linkedInst.b.ProgMapID 0 = some fd) ∧
      ((RemoveNextProgFD chainEnv (PutNextProgFDFromID chainEnv 99 linkedInst).2).1 = .ok () →
        (∃ v, linkedInst.w.slots linkedInst.b.PrevProgMapID 0 = some v) ∧
        (RemoveNextProgFD chainEnv (PutNextProgFDFromID chainEnv 99 linkedInst).2).2.w.slots
          linkedInst.b.PrevProgMapID 0 = none)) ∧
    (RemoveNextProgFD chainEnv (PutNextProgFDFromID chainEnv 99 linkedInst).2).1 = .ok () ∧
    (RemoveNextProgFD chainEnv (PutNextProgFDFromID chainEnv 99 linkedInst).2).2.w.slots 11 0 =
      some 9 ∧
    linkedInst.w.slots 5 0 = some 7 ∧
    (RemoveNextProgFD chainEnv (PutNextProgFDFromID chainEnv 99 linkedInst).2).2.w.slots 5 0 =
      none ∧
    (RemoveNextProgFD chainEnv (PutNextProgFDFromID chainEnv 99 linkedInst).2).2.w.trace =
      [.newMapFromID 11, .newProgramFromID 99, .mapUpdate 11 0 9, .newMapFromID 5,
       .mapDelete 5 0] :=
  ⟨⟨by decide, by decide, by decide⟩,
   RemoveNextProgFD_other_map chainEnv 99 linkedInst (PutNextProgFDFromID chainEnv 99 linkedInst).2
     (by decide) (by decide) rfl,
   by decide, by decide, by decide, by decide, by decide⟩

/-! ### Processes running outside the daemon -/

theorem splitSep_cons_ne (c : Char) (cs e : List Char) (es : List (List Char)) (hc : c ≠ '/')
    (hs : splitSep cs = e :: es) : splitSep (c :: cs) = (c :: e) :: es := by
  rw [splitSep, if_neg hc, hs]

/-- Cutting at separators distributes over a separator between two paths. -/
theorem splitSep_append (a b : List Char) :
    splitSep (a ++ '/' :: b) = splitSep a ++ splitSep b := by
  induction a with
  | nil => simp [splitSep]
  | cons c cs ih =>
    by_cases hc : c = '/'
    · simp [splitSep, hc, ih]
    · cases hs : splitSep cs with
      | nil => exact absurd hs (splitSep_ne_nil cs)
      | cons e es =>
        rw [hs] at ih
        rw [List.cons_append, splitSep_cons_ne c _ e (es ++ splitSep b) hc ih,
          splitSep_cons_ne c cs e es hc hs]
        rfl

/-- Two non-empty paths that are rooted alike and keep the same elements
have the same cleaned form. -/
theorem cleanChars_congr (p q : List Char) (hp : p ≠ []) (hq : q ≠ [])
    (hr : (p.head? = some '/') ↔ (q.head? = some '/'))
    (he : cleanElems (decide (p.head? = some '/')) p = cleanElems (decide (p.head? = some '/')) q) :
    cleanChars p = cleanChars q := by
  unfold cleanChars
  simp only [hp, hq, if_false]
  by_cases h : p.head? = some '/'
  · have h2 := hr.1 h
    simp only [h, decide_True] at he
    simp only [h, h2, decide_True, if_true, he]
  · have h2 : ¬ q.head? = some '/' := fun hh => h (hr.2 hh)
    simp only [h, decide_False] at he
    simp only [h, h2, decide_False, if_false, he]

/-- Paths that keep the same elements still do so when the same path is
appended to both. -/
theorem cleanElems_append (r : Bool) (p q y : List Char)
    (h : cleanElems r p = cleanElems r q) :
    cleanElems r (p ++ '/' :: y) = cleanElems r (q ++ '/' :: y) := by
  have h2 : (splitSep p).foldl (cleanStep r) [] = (splitSep q).foldl (cleanStep r) [] := by
    unfold cleanElems at h
    exact List.reverse_injective h
  unfold cleanElems
  rw [splitSep_append, splitSep_append, List.foldl_append, List.foldl_append, h2]

/-- Cleaning a path before something is appended to it does not change the
cleaned form of the whole. -/
theorem cleanChars_append_sep (x y : List Char) (hx : x ≠ []) :
    cleanChars (cleanChars x ++ '/' :: y) = cleanChars (x ++ '/' :: y) := by
  have hne : x ++ '/' :: y ≠ [] := by simp
  have hhead : (x ++ '/' :: y).head? = x.head? := by
    cases x with
    | nil => exact absurd rfl hx
    | cons c cs => rfl
  by_cases hr : x.head? = some '/'
  · have h1 : cleanChars x = '/' :: joinSep (cleanElems true x) := by
      simp [cleanChars, hx, hr]
    rw [h1]
    apply cleanChars_congr _ _ (by simp) hne
    · rw [hhead]
      simp [hr]
    · simp only [List.cons_append, List.head?_cons, decide_True]
      exact cleanElems_append true ('/' :: joinSep (cleanElems true x)) x y
        (cleanElems_rooted_again x)
  · by_cases hb : joinSep (cleanElems false x) = []
    · have h1 : cleanChars x = ['.'] := by
        simp [cleanChars, hx, hr, hb]
      have hS : cleanElems false x = [] :=
        joinSep_eq_nil _ (fun e he => ((cleanElems_props false x).1 e he).2.1) hb
      rw [h1]
      apply cleanChars_congr _ _ (by simp) hne
      · rw [hhead]
        simp [hr]
      · simp only [List.cons_append, List.head?_cons, List.nil_append]
        have hd : decide (some '.' = some '/') = false := by decide
        rw [hd]
        exact cleanElems_append false ['.'] x y (by rw [hS]; rfl)
    · have h1 : cleanChars x = joinSep (cleanElems false x) := by
        simp [cleanChars, hx, hr, hb]
      have hS : cleanElems false x ≠ [] := by
        intro h
        exact hb (by rw [h]; rfl)
      have hhead2 := joinSep_head_ne_sep _ (cleanElems_props false x).1
      have hhead3 : (joinSep (cleanElems false x) ++ '/' :: y).head? =
          (joinSep (cleanElems false x)).head? := by
        cases hj : joinSep (cleanElems false x) with
        | nil => exact absurd hj hb
        | cons c cs => rfl
      rw [h1]
      apply cleanChars_congr _ _ (by simp) hne
      · rw [hhead, hhead3]
        simp [hr, hhead2]
      · rw [hhead3]
        simp only [hhead2, decide_False]
        exact cleanElems_append false _ x y (cleanElems_unrooted_again x hS)

theorem joinRaw_append (es : List String) (d : String) (h : es ≠ []) :
    joinRaw (es ++ [d]) = joinRaw es ++ '/' :: d.data := by
  induction es with
  | nil => exact absurd rfl h
  | cons e rest ih =>
    cases rest with
    | nil => rfl
    | cons e2 r2 =>
      show e.data ++ '/' :: joinRaw ((e2 :: r2) ++ [d]) =
        (e.data ++ '/' :: joinRaw (e2 :: r2)) ++ '/' :: d.data
      rw [ih (by simp)]
      simp

theorem dropWhile_append_of_ne (es : List String) (d : String)
    (h : es.dropWhile (fun e => decide (e = "")) ≠ []) :
    (es ++ [d]).dropWhile (fun e => decide (e = "")) =
      es.dropWhile (fun e => decide (e = "")) ++ [d] := by
  induction es with
  | nil => exact absurd rfl h
  | cons e rest ih =>
    by_cases he : e = ""
    · rw [List.dropWhile_cons_of_pos (by simp [he])] at h
      rw [List.cons_append, List.dropWhile_cons_of_pos (by simp [he]),
        List.dropWhile_cons_of_pos (by simp [he])]
      exact ih h
    · rw [List.cons_append, List.dropWhile_cons_of_neg (by simp [he]),
        List.dropWhile_cons_of_neg (by simp [he])]
      rfl

theorem dropWhile_append_of_nil (es : List String) (d : String)
    (h : es.dropWhile (fun e => decide (e = "")) = []) :
    (es ++ [d]).dropWhile (fun e => decide (e = "")) =
      [d].dropWhile (fun e => decide (e = "")) := by
  induction es with
  | nil => rfl
  | cons e rest ih =>
    by_cases he : e = ""
    · rw [List.dropWhile_cons_of_pos (by simp [he])] at h
      rw [List.cons_append, List.dropWhile_cons_of_pos (by simp [he])]
      exact ih h
    · rw [List.dropWhile_cons_of_neg (by simp [he])] at h
      cases h

theorem joinRaw_ne_nil (e : String) (rest : List String) (he : e ≠ "") :
    joinRaw (e :: rest) ≠ [] := by
  have hd : e.data ≠ [] := by
    intro h
    apply he
    cases e
    simp_all
  cases rest with
  | nil => exact hd
  | cons e2 r2 => simp [joinRaw, hd]

theorem cleanChars_ne_nil (p : List Char) : cleanChars p ≠ [] := by
  unfold cleanChars
  split
  · simp
  · simp only
    split
    · simp
    · split
      · simp
      · assumption

theorem Join_pair (j d : String) (hj : j ≠ "") :
    Join [j, d] = ⟨cleanChars (j.data ++ '/' :: d.data)⟩ := by
  unfold Join
  rw [List.dropWhile_cons_of_neg (by simp [hj])]
  rfl

theorem Join_of_dropWhile (es : List String) (e : String) (rest : List String)
    (h : es.dropWhile (fun e => decide (e = "")) = e :: rest) :
    Join es = ⟨cleanChars (joinRaw (e :: rest))⟩ := by
  unfold Join
  rw [h]

/-- Joining in two steps gives the same path as joining at once. -/
theorem Join_Join (es : List String) (d : String) : Join [Join es, d] = Join (es ++ [d]) := by
  cases hdw : es.dropWhile (fun e => decide (e = "")) with
  | nil =>
    have h1 : Join es = "" := by
      unfold Join
      rw [hdw]
    have h2 := dropWhile_append_of_nil es d hdw
    rw [h1]
    unfold Join
    rw [h2, List.dropWhile_cons_of_pos (by simp)]
  | cons e rest =>
    have he : e ≠ "" := by
      have := List.head_dropWhile_not (fun e => decide (e = "")) es
        (by rw [hdw]; simp)
      simp only [hdw, List.head_cons] at this
      simpa using this
    have hx := joinRaw_ne_nil e rest he
    have h1 := Join_of_dropWhile es e rest hdw
    have h1ne : Join es ≠ "" := by
      rw [h1]
      intro h
      have := congrArg String.data h
      exact cleanChars_ne_nil _ this
    have h2 := dropWhile_append_of_ne es d (by rw [hdw]; simp)
    rw [hdw] at h2
    rw [Join_of_dropWhile (es ++ [d]) e (rest ++ [d]) h2, Join_pair _ _ h1ne, h1]
    have h3 : joinRaw (e :: (rest ++ [d])) = joinRaw (e :: rest) ++ '/' :: d.data :=
      joinRaw_append (e :: rest) d (by simp)
    rw [h3, cleanChars_append_sep _ _ hx]

/-- A successful `extractArtifact` changes only `FilePath`, which it sets to
the install directory. -/
theorem extractArtifact_ok (conf : Config) (buf : Buffer) (s : St)
    (h : (extractArtifact conf buf s).1 = .ok ()) :
    (extractArtifact conf buf s).2.b = { s.b with FilePath := installDir conf s.b } := by
  have hJ : Join [Join [conf.BPFDir, s.b.Program.Name, s.b.Program.Version],
      splitDotFirst s.b.Program.Artifact] = installDir conf s.b :=
    Join_Join [conf.BPFDir, s.b.Program.Name, s.b.Program.Version] _
  unfold extractArtifact at h ⊢
  simp only at h ⊢
  split
  · rename_i hzip
    rw [if_pos hzip] at h
    split
    · rename_i hz
      rw [hz] at h
      cases h
    · rename_i files hz
      rw [hz] at h
      simp only at h
      split
      · rename_i heq
        rw [heq] at h
        cases h
      · simp only [hJ]
  · rename_i hzip
    rw [if_neg hzip] at h
    split
    · rename_i htar
      rw [if_pos htar] at h
      split
      · rename_i hz
        rw [hz] at h
        cases h
      · rename_i headers endsInErr hz
        rw [hz] at h
        simp only at h
        split
        · rename_i heq
          rw [heq] at h
          cases h
        · simp only [hJ]
    · rename_i htar
      rw [if_neg htar] at h
      cases h

/-- A successful `GetArtifacts` changes only `FilePath`, which it sets to the
install directory. -/
theorem GetArtifacts_ok (env : Env) (conf : Config) (s : St)
    (h : (GetArtifacts env conf s).1 = .ok ()) :
    (GetArtifacts env conf s).2.b = { s.b with FilePath := installDir conf s.b } := by
  cases hp : env.GetPlatform with
  | error e =>
    simp [GetArtifacts, hp] at h
  | ok platform =>
    cases hu : env.urlParse (repoURL conf s.b) with
    | none =>
      unfold repoURL at hu
      simp [GetArtifacts, hp, hu] at h
    | some u =>
      rcases hf : fetchArtifact env (artifactURL s.b platform u) s.w with ⟨r, w⟩
      cases r with
      | error e =>
        rw [GetArtifacts_fetch_error env conf s platform u e w hp hu hf] at h
        cases h
      | ok buf =>
        rw [GetArtifacts_eq env conf s platform u buf w hp hu hf] at h ⊢
        exact extractArtifact_ok conf buf { s with w := w } h

/-- When the install directory exists, `VerifyAndGetArtifacts` makes the one
call of `os.Stat` and sets `FilePath`. -/
theorem VerifyAndGetArtifacts_exists (env : Env) (conf : Config) (s : St)
    (h : env.stat s.w.now (installDir conf s.b) ≠ .notExist) :
    VerifyAndGetArtifacts env conf s =
      (.ok (), { b := { s.b with FilePath := installDir conf s.b },
                 w := s.w.emit (.stat (installDir conf s.b)) }) := by
  unfold installDir at h
  unfold VerifyAndGetArtifacts
  simp only [h, if_false]
  rfl

/-- A successful `VerifyAndGetArtifacts` changes only `FilePath`, which it
sets to the install directory. -/
theorem VerifyAndGetArtifacts_ok (env : Env) (conf : Config) (s : St)
    (h : (VerifyAndGetArtifacts env conf s).1 = .ok ()) :
    (VerifyAndGetArtifacts env conf s).2.b = { s.b with FilePath := installDir conf s.b } := by
  by_cases hs : env.stat s.w.now (installDir conf s.b) = .notExist
  · have hV : VerifyAndGetArtifacts env conf s =
        GetArtifacts env conf { s with w := s.w.emit (.stat (installDir conf s.b)) } := by
      unfold installDir at hs
      unfold VerifyAndGetArtifacts
      simp only [hs, if_true]
      rfl
    rw [hV] at h ⊢
    exact GetArtifacts_ok env conf _ h
  · rw [VerifyAndGetArtifacts_exists env conf s hs]

/-- Claim C18, amended. When the install directory exists,
`VerifyAndGetArtifacts` makes the one call of `os.Stat`, fetches and unpacks
nothing, and sets `FilePath` to it. A successful call changes only
`FilePath`, which it sets to the install directory, so that every later
successful call leaves the instance as it is; and a second call that finds
the install directory makes the one call of `os.Stat` only. -/
theorem VerifyAndGetArtifacts_again (env : Env) (conf : Config) (s : St) :
    (env.stat s.w.now (installDir conf s.b) ≠ .notExist →
      VerifyAndGetArtifacts env conf s =
        (.ok (), { b := { s.b with FilePath := installDir conf s.b },
                   w := s.w.emit (.stat (installDir conf s.b)) })) ∧
    ((VerifyAndGetArtifacts env conf s).1 = .ok () →
      (VerifyAndGetArtifacts env conf s).2.b.FilePath = installDir conf s.b ∧
      ((VerifyAndGetArtifacts env conf (VerifyAndGetArtifacts env conf s).2).1 = .ok () →
        (VerifyAndGetArtifacts env conf (VerifyAndGetArtifacts env conf s).2).2.b =
          (VerifyAndGetArtifacts env conf s).2.b) ∧
      (env.stat (VerifyAndGetArtifacts env conf s).2.w.now (installDir conf s.b) ≠ .notExist →
        VerifyAndGetArtifacts env conf (VerifyAndGetArtifacts env conf s).2 =
          (.ok (), { b := (VerifyAndGetArtifacts env conf s).2.b,
                     w := (VerifyAndGetArtifacts env conf s).2.w.emit
                            (.stat (installDir conf s.b)) }))) := by
  refine ⟨VerifyAndGetArtifacts_exists env conf s, ?_⟩
  intro hok
  have h1 := VerifyAndGetArtifacts_ok env conf s hok
  have hdir : installDir conf (VerifyAndGetArtifacts env conf s).2.b = installDir conf s.b := by
    rw [h1]
    rfl
  refine ⟨by rw [h1], ?_, ?_⟩
  · intro hok2
    rw [VerifyAndGetArtifacts_ok env conf _ hok2, hdir, h1]
  · intro hstat
    rw [VerifyAndGetArtifacts_exists env conf _ (by rw [hdir]; exact hstat), hdir]
    congr 2
    rw [h1]

/-- Claim C18, counterexample. The archive `foo.tar.gz` holds the directory
`bin` and the file `bin/foo_user`. The first call succeeds and sets
`FilePath` to `/var/l3afd/foo/v1/foo`, a path that no call of the run creates
or has below it what it creates; the second call finds it missing and reads
and unpacks the archive once more. -/
theorem VerifyAndGetArtifacts_twice_counterexample :
    (VerifyAndGetArtifacts flatEnv { BPFDir := "/var/l3afd" } fooInst).1 = .ok () ∧
    (VerifyAndGetArtifacts flatEnv { BPFDir := "/var/l3afd" } fooInst).2.b.FilePath =
      "/var/l3afd/foo/v1/foo" ∧
    createdPaths (VerifyAndGetArtifacts flatEnv { BPFDir := "/var/l3afd" } fooInst).2.w.trace =
      ["/var/l3afd/foo/v1/bin", "/var/l3afd/foo/v1/bin/foo_user",
       "/var/l3afd/foo/v1/bin/foo_user"] ∧
    (VerifyAndGetArtifacts flatEnv { BPFDir := "/var/l3afd" }
      (VerifyAndGetArtifacts flatEnv { BPFDir := "/var/l3afd" } fooInst).2).1 = .ok () ∧
    newEvents (VerifyAndGetArtifacts flatEnv { BPFDir := "/var/l3afd" } fooInst).2.w
      (VerifyAndGetArtifacts flatEnv { BPFDir := "/var/l3afd" }
        (VerifyAndGetArtifacts flatEnv { BPFDir := "/var/l3afd" } fooInst).2).2.w =
      [.stat "/var/l3afd/foo/v1/foo", .stat "/srv/repo/foo/v1/focal/foo.tar.gz",
       .osOpen "/srv/repo/foo/v1/focal/foo.tar.gz", .mkdirAll "/var/l3afd/foo/v1/bin",
       .openFile "/var/l3afd/foo/v1/bin/foo_user", .copyTo "/var/l3afd/foo/v1/bin/foo_user"] := by
  decide

/-- Claim C18, instance. The archive `foo.tar.gz` holds the directory `foo`,
which exists after the first call: the second call makes one call of
`os.Stat` and leaves `FilePath` as it is. -/
theorem VerifyAndGetArtifacts_again_witness :
    (VerifyAndGetArtifacts freshEnv { BPFDir := "/var/l3afd" } fooInst).2.b.FilePath =
      "/var/l3afd/foo/v1/foo" ∧
    (VerifyAndGetArtifacts freshEnv { BPFDir := "/var/l3afd" }
      (VerifyAndGetArtifacts freshEnv { BPFDir := "/var/l3afd" } fooInst).2).2.b.FilePath =
      "/var/l3afd/foo/v1/foo" ∧
    newEvents (VerifyAndGetArtifacts freshEnv { BPFDir := "/var/l3afd" } fooInst).2.w
      (VerifyAndGetArtifacts freshEnv { BPFDir := "/var/l3afd" }
        (VerifyAndGetArtifacts freshEnv { BPFDir := "/var/l3afd" } fooInst).2).2.w =
      [.stat "/var/l3afd/foo/v1/foo"] :=
  have h := (VerifyAndGetArtifacts_again freshEnv { BPFDir := "/var/l3afd" } fooInst).2
    (by decide)
  ⟨h.1.trans (by decide), by rw [h.2.2 (by decide)]; decide, by rw [h.2.2 (by decide)]; decide⟩

theorem takeWhile_not_dot (t rest : List Char) (h : '.' ∉ t) :
    (t ++ '.' :: rest).takeWhile (fun c => c != '.') = t := by
  induction t with
  | nil => simp
  | cons c cs ih =>
    have hc : c ≠ '.' := fun hh => h (by simp [hh])
    have hcs : '.' ∉ cs := fun hh => h (by simp [hh])
    simp [List.takeWhile_cons, hc, ih hcs]

theorem takeWhile_no_dot (l : List Char) : '.' ∉ l.takeWhile (fun c => c != '.') := by
  intro h
  have := List.mem_takeWhile_imp h
  simp at this

/-- The part before the first dot is the name without its archive suffix
exactly when that name has no dot. -/
theorem splitDotFirst_strip (artifact : String)
    (hsuf : HasSuffix artifact ".tar.gz" = true ∨ HasSuffix artifact ".zip" = true) :
    splitDotFirst artifact = stripArchiveSuffix artifact ↔
      '.' ∉ (stripArchiveSuffix artifact).data := by
  constructor
  · intro h
    rw [← h]
    exact takeWhile_no_dot artifact.data
  · intro hdot
    unfold stripArchiveSuffix at hdot ⊢
    unfold splitDotFirst
    by_cases htar : HasSuffix artifact ".tar.gz" = true
    · rw [if_pos htar] at hdot ⊢
      unfold HasSuffix at htar
      obtain ⟨t, ht⟩ := List.isSuffixOf_iff_suffix.1 htar
      have hlen : artifact.data.length - 7 = t.length := by
        rw [← ht]
        simp
      have htake : artifact.data.take (artifact.data.length - 7) = t := by
        rw [hlen, ← ht]
        simp
      rw [htake] at hdot ⊢
      congr 1
      rw [← ht]
      exact takeWhile_not_dot t _ hdot
    · rw [if_neg htar] at hdot ⊢
      have hzip : HasSuffix artifact ".zip" = true := by
        rcases hsuf with h | h
        · exact absurd h htar
        · exact h
      rw [if_pos hzip] at hdot ⊢
      unfold HasSuffix at hzip
      obtain ⟨t, ht⟩ := List.isSuffixOf_iff_suffix.1 hzip
      have hlen : artifact.data.length - 4 = t.length := by
        rw [← ht]
        simp
      have htake : artifact.data.take (artifact.data.length - 4) = t := by
        rw [hlen, ← ht]
        simp
      rw [htake] at hdot ⊢
      congr 1
      rw [← ht]
      exact takeWhile_not_dot t _ hdot

/-- Claim C19, amended. The install path that a successful
`VerifyAndGetArtifacts` or `GetArtifacts` stores in `FilePath` is
`join(cache-root, name, version, s)` with `s` the part of the artifact file
name before its first dot; for a name that ends in `.tar.gz` or `.zip` this
is the name without that suffix exactly when the rest contains no dot. -/
theorem FilePath_first_dot (env : Env) (conf : Config) (s : St) :
    ((VerifyAndGetArtifacts env conf s).1 = .ok () →
      (VerifyAndGetArtifacts env conf s).2.b.FilePath =
        Join [conf.BPFDir, s.b.Program.Name, s.b.Program.Version,
              splitDotFirst s.b.Program.Artifact]) ∧
    ((GetArtifacts env conf s).1 = .ok () →
      (GetArtifacts env conf s).2.b.FilePath =
        Join [conf.BPFDir, s.b.Program.Name, s.b.Program.Version,
              splitDotFirst s.b.Program.Artifact]) ∧
    (HasSuffix s.b.Program.Artifact ".tar.gz" = true ∨
        HasSuffix s.b.Program.Artifact ".zip" = true →
      (splitDotFirst s.b.Program.Artifact = stripArchiveSuffix s.b.Program.Artifact ↔
        '.' ∉ (stripArchiveSuffix s.b.Program.Artifact).data)) := by
  refine ⟨?_, ?_, splitDotFirst_strip s.b.Program.Artifact⟩
  · intro h
    rw [VerifyAndGetArtifacts_ok env conf s h]
    rfl
  · intro h
    rw [GetArtifacts_ok env conf s h]
    rfl

/-- Claim C19, counterexample. The artifact `my.prog.tar.gz` of program
`prog` is installed under `my`, not under `my.prog`: both when the install
directory exists and when the archive is fetched and unpacked. -/
theorem FilePath_dotted_counterexample :
    stripArchiveSuffix dottedInst.b.Program.Artifact = "my.prog" ∧
    (VerifyAndGetArtifacts stuckEnv { BPFDir := "/var/l3afd" } dottedInst).1 = .ok () ∧
    (VerifyAndGetArtifacts stuckEnv { BPFDir := "/var/l3afd" } dottedInst).2.b.FilePath =
      "/var/l3afd/prog/v1/my" ∧
    (GetArtifacts flatEnv { BPFDir := "/var/l3afd" } dottedInst).1 = .ok () ∧
    (GetArtifacts flatEnv { BPFDir := "/var/l3afd" } dottedInst).2.b.FilePath =
      "/var/l3afd/prog/v1/my" ∧
    Join ["/var/l3afd", "prog", "v1", stripArchiveSuffix dottedInst.b.Program.Artifact] =
      "/var/l3afd/prog/v1/my.prog" := by
  decide

/-- Claim C19, instance. The artifacts `foo.tar.gz` and `my.prog.tar.gz`. -/
theorem FilePath_first_dot_witness :
    (VerifyAndGetArtifacts freshEnv { BPFDir := "/var/l3afd" } fooInst).2.b.FilePath =
      "/var/l3afd/foo/v1/foo" ∧
    splitDotFirst "foo.tar.gz" = stripArchiveSuffix "foo.tar.gz" ∧
    (GetArtifacts flatEnv { BPFDir := "/var/l3afd" } dottedInst).2.b.FilePath =
      "/var/l3afd/prog/v1/my" ∧
    splitDotFirst "my.prog.tar.gz" ≠ stripArchiveSuffix "my.prog.tar.gz" :=
  ⟨((FilePath_first_dot freshEnv { BPFDir := "/var/l3afd" } fooInst).1 (by decide)).trans
     (by decide),
   ((FilePath_first_dot freshEnv { BPFDir := "/var/l3afd" } fooInst).2.2
     (Or.inl (by decide))).2 (by decide),
   ((FilePath_first_dot flatEnv { BPFDir := "/var/l3afd" } dottedInst).2.1 (by decide)).trans
     (by decide),
   fun h => ((FilePath_first_dot flatEnv { BPFDir := "/var/l3afd" } dottedInst).2.2
     (Or.inl (by decide))).1 h (by decide)⟩

/-! ### The command line of the stop and status commands -/

theorem statusArgs_strings (pairs : List (String × String)) :
    statusArgs (stringArgs pairs) = pairs.map blankArgOf := by
  induction pairs with
  | nil => rfl
  | cons p rest ih =>
    simp only [stringArgs, List.map_cons, statusArgs] at ih ⊢
    rw [ih]
    rfl

/-- The rendering with a blank differs from `--<key>=<value>` for every
pair. -/
theorem blankArgOf_ne (p : String × String) : blankArgOf p ≠ argOf p := by
  intro h
  have h2 := congrArg String.data h
  simp only [blankArgOf, argOf, String.data_append, List.append_assoc,
    List.append_cancel_left_eq] at h2
  simp at h2

/-- Claim C20, divergence. With string values in `StopArgs`, an executable
stop command is started with `--iface=<iface>`, `--direction=<direction>` and
then `--<key> =<value>` for each pair; with string values in `StatusArgs`, an
executable status command is started with `--<key> =<value>` for each pair.
The blank before the equals sign makes each of these arguments differ from
`--<key>=<value>`, the form in which `StartUserProgram` and `UpdateArgs`
write their pairs. -/
theorem Stop_args_blank :
    (∀ (env : Env) (iface direction : String) (s : St) (pairs : List (String × String)),
      s.b.Program.StopArgs = stringArgs pairs →
      env.assertExecutable s.w.now (Join [s.b.FilePath, s.b.Program.CmdStop]) = true →
      newEvents s.w (stopCommand env iface direction s).2.w =
        [.assertExecutable (Join [s.b.FilePath, s.b.Program.CmdStop]),
         .exec (Join [s.b.FilePath, s.b.Program.CmdStop])
           (("--iface=" ++ iface) :: ("--direction=" ++ direction) :: pairs.map blankArgOf)]) ∧
    (∀ (env : Env) (s : St) (pairs : List (String × String)),
      len s.b.Program.CmdStatus > 1 → s.b.Program.StatusArgs = stringArgs pairs →
      env.assertExecutable s.w.now (Join [s.b.FilePath, s.b.Program.CmdStatus]) = true →
      newEvents s.w (isRunning env s).2.w =
        [.assertExecutable (Join [s.b.FilePath, s.b.Program.CmdStatus]),
         .exec (Join [s.b.FilePath, s.b.Program.CmdStatus]) (pairs.map blankArgOf)]) ∧
    (∀ p, blankArgOf p ≠ argOf p) ∧
    (Stop goodEnv "eth0" "ingress" false ipfixInst).2.w.trace =
      [.assertExecutable "/var/l3afd/ipfix/v1/ipfix/ipfix_stop",
       .exec "/var/l3afd/ipfix/v1/ipfix/ipfix_stop"
         ["--iface=eth0", "--direction=ingress", "--force =1"]] ∧
    (isRunning goodEnv statusInst).2.w.trace =
      [.assertExecutable "/var/l3afd/foo/v1/foo/foo_status",
       .exec "/var/l3afd/foo/v1/foo/foo_status" ["--verbose =2"]] ∧
    (UpdateArgs goodEnv "eth0" "ingress" ipfixInst).2.w.trace =
      [.assertExecutable "/var/l3afd/ipfix/v1/ipfix/ipfix_update",
       .exec "/var/l3afd/ipfix/v1/ipfix/ipfix_update"
         ["--iface=eth0", "--direction=ingress", "--cmd=update", "--rate=5"],
       .wait "/var/l3afd/ipfix/v1/ipfix/ipfix_update"] := by
  refine ⟨?_, ?_, blankArgOf_ne, by decide, by decide, by decide⟩
  · intro env iface direction s pairs hpairs hexec
    unfold stopCommand
    simp only [hexec, Bool.not_true, Bool.false_eq_true, if_false, hpairs]
    rw [appendArgs_strings]
    simp [newEvents, World.emit, blankArgOf]
  · intro env s pairs hlen hpairs hexec
    unfold isRunning
    simp only [hlen, if_true, hexec, Bool.not_true, Bool.false_eq_true, if_false, hpairs,
      statusArgs_strings]
    split <;> simp [newEvents, World.emit]

/-! ### What isRunning reports -/

/-- The answer of `IsLoaded` is false exactly when the lookup of the program
ID fails with `os.ErrNotExist`. -/
theorem IsLoaded_spec (env : Env) (s : St) :
    (IsLoaded env s).1 = false ↔ env.progFD s.w.now s.b.ProgID = .error true := by
  unfold IsLoaded
  simp only
  split
  · rename_i h
    simp [h]
  · rename_i h
    constructor
    · intro hf
      cases hf
    · intro hp
      exact absurd hp (h · )

theorem IsLoaded_now (env : Env) (s : St) : (IsLoaded env s).2.w.now = s.w.now + 1 := by
  unfold IsLoaded
  simp only
  split <;> simp [World.emit, World.now]

theorem IsLoaded_world (env : Env) (s : St) :
    (IsLoaded env s).2 = { s with w := s.w.emit (.newProgramFromID s.b.ProgID) } := by
  unfold IsLoaded
  simp only
  split <;> rfl

theorem IsLoaded_true (env : Env) (s : St) :
    (IsLoaded env s).1 = true ↔
      (env.progFD s.w.now s.b.ProgID = .error false ∨
        ∃ fd, env.progFD s.w.now s.b.ProgID = .ok fd) := by
  unfold IsLoaded
  simp only
  cases h : env.progFD s.w.now s.b.ProgID with
  | ok fd => simp
  | error e => cases e <;> simp

/-- Without a status command `isRunning` ends with `IsLoaded`. -/
theorem isRunning_no_status (env : Env) (s : St) (hlen : ¬ len s.b.Program.CmdStatus > 1) :
    ∃ r : Bool × World,
      isRunning env s =
        ((r.1, (IsLoaded env { s with w := r.2 }).1, none), (IsLoaded env { s with w := r.2 }).2) := by
  unfold isRunning
  rw [if_neg hlen]
  exact ⟨_, rfl⟩

/-- Claim C21, amended. Without a status command the last call of
`isRunning` is the lookup of the own program ID, and the kernel side it
reports is the answer of `IsLoaded`: false exactly when that lookup fails
with `os.ErrNotExist`, and true when the lookup succeeds or fails with any
other error. -/
theorem isRunning_kernel_side (env : Env) (s : St)
    (hlen : ¬ len s.b.Program.CmdStatus > 1) :
    ∃ w : World,
      (isRunning env s).2.w = w.emit (.newProgramFromID s.b.ProgID) ∧
      (isRunning env s).1.2.1 = (IsLoaded env { s with w := w }).1 ∧
      ((isRunning env s).1.2.1 = false ↔ env.progFD w.now s.b.ProgID = .error true) ∧
      ((isRunning env s).1.2.1 = true ↔
        (env.progFD w.now s.b.ProgID = .error false ∨
          ∃ fd, env.progFD w.now s.b.ProgID = .ok fd)) := by
  obtain ⟨r, hr⟩ := isRunning_no_status env s hlen
  rw [hr]
  refine ⟨r.2, ?_, rfl, IsLoaded_spec env _, IsLoaded_true env _⟩
  rw [IsLoaded_world]

/-- Claim C21, counterexample. Every lookup of a program ID fails with an
error other than `os.ErrNotExist`: `IsLoaded` answers true and `isRunning`
reports the kernel side of `foo` alive. -/
theorem isRunning_kernel_side_counterexample :
    (∀ t id, permEnv.progFD t id = .error false) ∧
    bareInst.b.Program.CmdStatus = "" ∧
    (IsLoaded permEnv bareInst).1 = true ∧
    (isRunning permEnv bareInst).1 = (true, true, none) ∧
    (isRunning permEnv bareInst).2.w.trace = [.newProgramFromID 0] :=
  ⟨fun _ _ => rfl, by decide, by decide, by decide, by decide⟩

/-- Claim C21, instance. No program has the ID of `foo`: the lookup fails
with `os.ErrNotExist` and the kernel side is reported as not alive. -/
theorem isRunning_kernel_side_witness :
    ¬ len bareInst.b.Program.CmdStatus > 1 ∧
    (isRunning deadEnv bareInst).1.2.1 = false ∧
    ∃ w : World,
      (isRunning deadEnv bareInst).2.w = w.emit (.newProgramFromID bareInst.b.ProgID) ∧
      (isRunning deadEnv bareInst).1.2.1 = (IsLoaded deadEnv { bareInst with w := w }).1 ∧
      ((isRunning deadEnv bareInst).1.2.1 = false ↔
        deadEnv.progFD w.now bareInst.b.ProgID = .error true) ∧
      ((isRunning deadEnv bareInst).1.2.1 = true ↔
        (deadEnv.progFD w.now bareInst.b.ProgID = .error false ∨
          ∃ fd, deadEnv.progFD w.now bareInst.b.ProgID = .ok fd)) :=
  ⟨by decide, by decide, isRunning_kernel_side deadEnv bareInst (by decide)⟩

/-- Claim C25, failing input. The error that `isRunning` returns is nil for
every instance. The status command of `foo` is executable and its one status
arg is a number: the command is run without that argument, prints `RUNNING`,
and `isRunning` reports both sides alive with no error, whereas `Stop`
returns an error for a number among its stop args. -/
theorem isRunning_bad_status_arg :
    (∀ (env : Env) (s : St), (isRunning env s).1.2.2 = none) ∧
    statusBadInst.b.Program.StatusArgs = [("verbose", Value.other)] ∧
    (isRunning goodEnv statusBadInst).1 = (true, true, none) ∧
    (isRunning goodEnv statusBadInst).2.w.trace =
      [.assertExecutable "/var/l3afd/foo/v1/foo/foo_status",
       .exec "/var/l3afd/foo/v1/foo/foo_status" []] ∧
    (Stop goodEnv "eth0" "xdpingress" true daemonBadStopArgs).1 =
      .error "args is not a string" := by
  refine ⟨?_, by decide, by decide, by decide, by decide⟩
  intro env s
  unfold isRunning
  split
  · simp only
    split
    · rfl
    · split <;> rfl
  · rfl

/-! ### Stat errors and pin paths -/

/-- Claim C29, failing input. `fileExists` returns true exactly when
`os.Stat` finds a file that is not a directory and false exactly when the
path does not exist or is a directory; when `os.Stat` fails with another
error it has no file info and the call of `IsDir` on it is a nil
dereference. With such an error on the pin path of `next_prog`,
`fileExists` and with it `PinBpfMaps` end in that panic. -/
theorem fileExists_stat_error :
    (∀ (env : Env) (p : String) (w : World),
      ((fileExists env p w).1 = .ok true ↔ env.stat w.now p = .file) ∧
      ((fileExists env p w).1 = .ok false ↔
        (env.stat w.now p = .notExist ∨ env.stat w.now p = .dir)) ∧
      ((fileExists env p w).1 = .error "panic: nil pointer dereference" ↔
        env.stat w.now p = .otherErr)) ∧
    (∀ t p, lockedEnv.stat t p = .otherErr) ∧
    (fileExists lockedEnv "/sys/fs/bpf/eth0/next_prog" {}).1 =
      .error "panic: nil pointer dereference" ∧
    (PinBpfMaps lockedEnv loadedInst.b "eth0" {}).1 =
      .error "panic: nil pointer dereference" ∧
    (PinBpfMaps lockedEnv loadedInst.b "eth0" {}).2.trace =
      [.mkdirAll "/sys/fs/bpf/eth0", .stat "/sys/fs/bpf/eth0/next_prog"] := by
  refine ⟨?_, fun _ _ => rfl, by decide, by decide, by decide⟩
  intro env p w
  unfold fileExists
  cases h : env.stat w.now p <;> simp

/-- Claim C30, failing input. An instance that `NewBpfProgram` returns for a
program with a map name has no `..` in `MapNamePath`. Yet with the map root
`/sys/fs/bpf` the map name `../../etc/next_prog` on `eth0` gives the pin path
`/sys/fs/etc/next_prog`, and the interface name `..` gives
`/sys/fs/next_prog`: both have no `..`, since the join has resolved it, and
neither starts with `/sys/fs/bpf/`. `ValidatePath` rejects the same name. -/
theorem NewBpfProgram_escapes_root :
    (∀ (program : BPFProgram) (conf : Config) (iface : String) (b : BPF),
      len program.MapName > 0 → NewBpfProgram program conf iface = some b →
      Contains b.MapNamePath ".." = false) ∧
    (NewBpfProgram escapeProg bpffsConf "eth0").map (fun b => b.MapNamePath) =
      some "/sys/fs/etc/next_prog" ∧
    Contains "/sys/fs/etc/next_prog" ".." = false ∧
    HasPrefix "/sys/fs/etc/next_prog" (Clean bpffsConf.BpfMapDefaultPath ++ PathSeparator) =
      false ∧
    (NewBpfProgram fooXdp.b.Program bpffsConf "..").map (fun b => b.MapNamePath) =
      some "/sys/fs/next_prog" ∧
    HasPrefix "/sys/fs/next_prog" (Clean bpffsConf.BpfMapDefaultPath ++ PathSeparator) = false ∧
    (NewBpfProgram fooXdp.b.Program bpffsConf "eth0").map (fun b => b.MapNamePath) =
      some "/sys/fs/bpf/eth0/next_prog" ∧
    ValidatePath "../../etc/next_prog" "/sys/fs/bpf/eth0" =
      .error "file contains filepath that includes (..)" := by
  refine ⟨?_, by decide, by decide, by decide, by decide, by decide, by decide, by decide⟩
  intro program conf iface b hname h
  unfold NewBpfProgram at h
  simp only [hname, if_true] at h
  split at h
  · cases h
  · rename_i p hp
    split at h
    · cases h
    · rename_i hc
      injection h with h
      subst h
      simpa using hc

/-! ### Seeding the monitor maps -/

/-- The pin loop makes the calls of `pinTrace`, and stops after a pin that
fails or a stat that fails. -/
theorem pinLoop_spec (env : Env) (b : BPF) (iface : String) (ms : List (String × KMap)) :
    ∀ w : World,
      (∃ n, (pinLoop env b iface ms w).2.trace =
        w.trace ++ (pinTrace env b iface ms w.now).take n) ∧
      ((pinLoop env b iface ms w).1 = .ok () →
        (pinLoop env b iface ms w).2.trace = w.trace ++ pinTrace env b iface ms w.now) ∧
      ((∀ t p, env.stat t p ≠ .otherErr) → (∀ t k p, env.pinErr t k p = false) →
        (pinLoop env b iface ms w).1 = .ok ()) := by
  induction ms with
  | nil =>
    intro w
    exact ⟨⟨0, by simp [pinLoop]⟩, fun _ => by simp [pinLoop, pinTrace], fun _ _ => rfl⟩
  | cons m rest ih =>
    intro w
    obtain ⟨k, v⟩ := m
    have hnow1 : (w.emit (.stat (mapFilename b iface k))).now = w.now + 1 := by
      simp [World.emit, World.now]
    have hnow2 : ((w.emit (.stat (mapFilename b iface k))).emit
        (.pin k (mapFilename b iface k))).now = w.now + 2 := by
      simp [World.emit, World.now]
    cases hs : env.stat w.now (mapFilename b iface k) with
    | file =>
      have hL : pinLoop env b iface ((k, v) :: rest) w =
          pinLoop env b iface rest (w.emit (.stat (mapFilename b iface k))) := by
        rw [pinLoop]
        simp [fileExists, hs]
      have hT : pinTrace env b iface ((k, v) :: rest) w.now =
          .stat (mapFilename b iface k) :: pinTrace env b iface rest (w.now + 1) := by
        simp [pinTrace, hs]
      obtain ⟨⟨n, h1⟩, h2, h3⟩ := ih (w.emit (.stat (mapFilename b iface k)))
      rw [hnow1] at h1 h2
      rw [hL, hT]
      refine ⟨⟨n + 1, by rw [h1]; simp [World.emit]⟩, ?_, h3⟩
      intro h
      rw [h2 h]
      simp [World.emit]
    | otherErr =>
      have hL : pinLoop env b iface ((k, v) :: rest) w =
          (.error "panic: nil pointer dereference",
            w.emit (.stat (mapFilename b iface k))) := by
        rw [pinLoop]
        simp [fileExists, hs]
      have hT : pinTrace env b iface ((k, v) :: rest) w.now =
          .stat (mapFilename b iface k) :: .pin k (mapFilename b iface k) ::
            pinTrace env b iface rest (w.now + 2) := by
        simp [pinTrace, hs]
      rw [hL, hT]
      refine ⟨⟨1, by simp [World.emit]⟩, ?_, ?_⟩
      · intro h
        cases h
      · intro hno _
        exact absurd hs (hno _ _)
    | dir =>
      have hT : pinTrace env b iface ((k, v) :: rest) w.now =
          .stat (mapFilename b iface k) :: .pin k (mapFilename b iface k) ::
            pinTrace env b iface rest (w.now + 2) := by
        simp [pinTrace, hs]
      have hL : pinLoop env b iface ((k, v) :: rest) w =
          if env.pinErr (w.now + 1) k (mapFilename b iface k) = true
          then (.error "failed to pin the map",
            (w.emit (.stat (mapFilename b iface k))).emit (.pin k (mapFilename b iface k)))
          else pinLoop env b iface rest
            ((w.emit (.stat (mapFilename b iface k))).emit (.pin k (mapFilename b iface k))) := by
        rw [pinLoop]
        simp [fileExists, hs, hnow1]
      rw [hL, hT]
      by_cases hp : env.pinErr (w.now + 1) k (mapFilename b iface k) = true
      · rw [if_pos hp]
        refine ⟨⟨2, by simp [World.emit]⟩, ?_, ?_⟩
        · intro h
          cases h
        · intro _ hno
          rw [hno] at hp
          cases hp
      · rw [if_neg hp]
        obtain ⟨⟨n, h1⟩, h2, h3⟩ := ih ((w.emit (.stat (mapFilename b iface k))).emit
          (.pin k (mapFilename b iface k)))
        rw [hnow2] at h1 h2
        refine ⟨⟨n + 2, by rw [h1]; simp [World.emit]⟩, ?_, h3⟩
        intro h
        rw [h2 h]
        simp [World.emit]
    | notExist =>
      have hT : pinTrace env b iface ((k, v) :: rest) w.now =
          .stat (mapFilename b iface k) :: .pin k (mapFilename b iface k) ::
            pinTrace env b iface rest (w.now + 2) := by
        simp [pinTrace, hs]
      have hL : pinLoop env b iface ((k, v) :: rest) w =
          if env.pinErr (w.now + 1) k (mapFilename b iface k) = true
          then (.error "failed to pin the map",
            (w.emit (.stat (mapFilename b iface k))).emit (.pin k (mapFilename b iface k)))
          else pinLoop env b iface rest
            ((w.emit (.stat (mapFilename b iface k))).emit (.pin k (mapFilename b iface k))) := by
        rw [pinLoop]
        simp [fileExists, hs, hnow1]
      rw [hL, hT]
      by_cases hp : env.pinErr (w.now + 1) k (mapFilename b iface k) = true
      · rw [if_pos hp]
        refine ⟨⟨2, by simp [World.emit]⟩, ?_, ?_⟩
        · intro h
          cases h
        · intro _ hno
          rw [hno] at hp
          cases hp
      · rw [if_neg hp]
        obtain ⟨⟨n, h1⟩, h2, h3⟩ := ih ((w.emit (.stat (mapFilename b iface k))).emit
          (.pin k (mapFilename b iface k)))
        rw [hnow2] at h1 h2
        refine ⟨⟨n + 2, by rw [h1]; simp [World.emit]⟩, ?_, h3⟩
        intro h
        rw [h2 h]
        simp [World.emit]

/-- Claim C28. For a loaded instance the calls of `PinBpfMaps` are the
creation of the pin directory and then, for each map of the collection in
order, the stat of its canonical path followed by the pin at that path
exactly when the stat has found no file there; the run stops after a call
that fails. Every call is a stat, the creation of the directory or a pin at a
canonical path, so that no pin is removed; and `PinBpfMaps` succeeds, whatever
pins exist, when the directory can be created and no stat and no pin
fails. -/
theorem PinBpfMaps_reuses_pins (env : Env) (b : BPF) (iface : String) (w : World)
    (coll : Collection) (hcoll : b.ProgMapCollection = some coll) :
    (∃ n, newEvents w (PinBpfMaps env b iface w).2 =
      (.mkdirAll (pinDir b iface) :: pinTrace env b iface coll.Maps (w.now + 1)).take n) ∧
    ((PinBpfMaps env b iface w).1 = .ok () →
      newEvents w (PinBpfMaps env b iface w).2 =
        .mkdirAll (pinDir b iface) :: pinTrace env b iface coll.Maps (w.now + 1)) ∧
    (Contains (pinDir b iface) ".." = false → (∀ t p, env.mkdirAllErr t p = false) →
      (∀ t p, env.stat t p ≠ .otherErr) → (∀ t k p, env.pinErr t k p = false) →
      (PinBpfMaps env b iface w).1 = .ok ()) ∧
    (∀ ev ∈ newEvents w (PinBpfMaps env b iface w).2, pinShape b iface ev) := by
  refine ⟨?_, ?_, ?_, (PinBpfMaps_adds env b iface w).anews⟩
  · by_cases hc : Contains (pinDir b iface) ".." = true
    · refine ⟨0, ?_⟩
      unfold pinDir at hc
      simp [PinBpfMaps, CreateMapPinDirectory, hc, newEvents]
    · by_cases hm : env.mkdirAllErr w.now (pinDir b iface) = true
      · refine ⟨1, ?_⟩
        unfold pinDir at hc hm
        simp [PinBpfMaps, CreateMapPinDirectory, hc, hm, newEvents, World.emit, pinDir]
      · obtain ⟨⟨n, h1⟩, _, _⟩ := pinLoop_spec env b iface coll.Maps
          (w.emit (.mkdirAll (pinDir b iface)))
        have hnow : (w.emit (.mkdirAll (pinDir b iface))).now = w.now + 1 := by
          simp [World.emit, World.now]
        rw [hnow] at h1
        refine ⟨n + 1, ?_⟩
        have hP : PinBpfMaps env b iface w =
            pinLoop env b iface coll.Maps (w.emit (.mkdirAll (pinDir b iface))) := by
          unfold pinDir at hc hm
          simp [PinBpfMaps, CreateMapPinDirectory, hc, hm, hcoll, pinDir]
        rw [hP, newEvents, h1]
        simp [World.emit]
  · intro hok
    by_cases hc : Contains (pinDir b iface) ".." = true
    · unfold pinDir at hc
      simp [PinBpfMaps, CreateMapPinDirectory, hc] at hok
    · by_cases hm : env.mkdirAllErr w.now (pinDir b iface) = true
      · unfold pinDir at hc hm
        simp [PinBpfMaps, CreateMapPinDirectory, hc, hm] at hok
      · obtain ⟨_, h2, _⟩ := pinLoop_spec env b iface coll.Maps
          (w.emit (.mkdirAll (pinDir b iface)))
        have hnow : (w.emit (.mkdirAll (pinDir b iface))).now = w.now + 1 := by
          simp [World.emit, World.now]
        rw [hnow] at h2
        have hP : PinBpfMaps env b iface w =
            pinLoop env b iface coll.Maps (w.emit (.mkdirAll (pinDir b iface))) := by
          unfold pinDir at hc hm
          simp [PinBpfMaps, CreateMapPinDirectory, hc, hm, hcoll, pinDir]
        rw [hP] at hok ⊢
        rw [newEvents, h2 hok]
        simp [World.emit]
  · intro hc hmk hstat hpin
    obtain ⟨_, _, h3⟩ := pinLoop_spec env b iface coll.Maps
      (w.emit (.mkdirAll (pinDir b iface)))
    have hP : PinBpfMaps env b iface w =
        pinLoop env b iface coll.Maps (w.emit (.mkdirAll (pinDir b iface))) := by
      unfold pinDir at hc
      simp [PinBpfMaps, CreateMapPinDirectory, hc, hmk, hcoll, pinDir]
    rw [hP]
    exact h3 hstat hpin

/-- Claim C28, instance. The map `cfg` is pinned already and `next_prog` is
not: `cfg` is passed over after its stat, `next_prog` is pinned, and
`PinBpfMaps` succeeds. -/
theorem PinBpfMaps_reuses_pins_witness :
    twoMapInst.b.ProgMapCollection = some twoMapColl ∧
    (PinBpfMaps sharedEnv twoMapInst.b "eth0" {}).1 = .ok () ∧
    newEvents {} (PinBpfMaps sharedEnv twoMapInst.b "eth0" {}).2 =
      [.mkdirAll "/sys/fs/bpf/eth0", .stat "/sys/fs/bpf/eth0/cfg",
       .stat "/sys/fs/bpf/eth0/next_prog",
       .pin "next_prog" "/sys/fs/bpf/eth0/next_prog"] :=
  have h := PinBpfMaps_reuses_pins sharedEnv twoMapInst.b "eth0" {} twoMapColl rfl
  have hok : (PinBpfMaps sharedEnv twoMapInst.b "eth0" {}).1 = .ok () :=
    h.2.2.1 (by decide) (fun _ _ => rfl) (by
      intro t p
      show (if p = "/sys/fs/bpf/eth0/cfg" then StatResult.file
        else if HasPrefix p "/sys/fs/bpf" then StatResult.notExist else StatResult.file) ≠
          StatResult.otherErr
      split
      · simp
      · split <;> simp) (fun _ _ _ => rfl)
  ⟨rfl, hok, (h.2.1 hok).trans (by decide)⟩

/-! ### The optional flags of the start command -/

/-- Claim C24, amended. For a start command that is executable, start args
that are strings, and a path of the previous map, log directory, rules-file
name and rules that are each empty or two bytes long or more:
`StartUserProgram` checks the command, writes the rules to
`join(FilePath, direction, RulesFile)` when name and rules are not empty, and
then starts the command with `--iface`, `--direction`, the optional flags and
the start args. `--map-name` is among the flags exactly when chaining is on,
no collection is loaded and the path of the previous map is not empty;
`--log-dir` exactly when the log directory is not empty; `--rules-file`
exactly when name and rules are not empty and the write has succeeded. -/
theorem StartUserProgram_flags (env : Env) (iface direction : String) (chain : Bool) (s : St)
    (pairs : List (String × String)) (hpairs : s.b.Program.StartArgs = stringArgs pairs)
    (hexec : env.assertExecutable s.w.now (Join [s.b.FilePath, s.b.Program.CmdStart]) = true)
    (h1 : len s.b.PrevMapNamePath ≠ 1) (h2 : len s.b.hostConfig.BPFLogDir ≠ 1)
    (h3 : len s.b.Program.RulesFile ≠ 1) (h4 : len s.b.Program.Rules ≠ 1) :
    ∃ tail,
      newEvents s.w (StartUserProgram env iface direction chain s).2.w =
        .assertExecutable (Join [s.b.FilePath, s.b.Program.CmdStart]) ::
          (rulesWrite s.b direction ++
            .exec (Join [s.b.FilePath, s.b.Program.CmdStart])
              (["--iface=" ++ iface, "--direction=" ++ direction] ++
                optionalFlags s.b direction chain
                  (!env.writeFileErr (s.w.now + 1) (rulesPath s.b direction)) ++
                pairs.map argOf) :: tail) ∧
      (tail = [] ∨ tail = [.wait (Join [s.b.FilePath, s.b.Program.CmdStart])] ∨
        tail = [.setPrLimits]) := by
  have hnow : (s.w.emit (.assertExecutable (Join [s.b.FilePath, s.b.Program.CmdStart]))).now =
      s.w.now + 1 := by
    simp [World.emit, World.now]
  unfold StartUserProgram
  simp only [hexec, Bool.not_true, Bool.false_eq_true, if_false]
  rw [startFlags_spec env s.b iface direction chain _ h1 h2 h3 h4, hnow]
  simp only [hpairs, appendArgs_strings]
  have harg : (fun p : String × String => "--" ++ p.1 ++ "=" ++ p.2) = argOf := by
    funext p
    rfl
  rw [harg]
  split
  · exact ⟨[], by simp [newEvents, World.emit], Or.inl rfl⟩
  · split
    · exact ⟨[.wait _], by simp [newEvents, World.emit], Or.inr (Or.inl rfl)⟩
    · exact ⟨[.setPrLimits], by simp [newEvents, World.emit], Or.inr (Or.inr rfl)⟩

/-- Claim C24, counterexample. Chaining is on and `ipfix` is not loaded by
the daemon. Without a path of the previous map no `--map-name` is passed; and
with a rules-file name and rules whose write fails no `--rules-file` is
passed, and the command is started all the same. -/
theorem StartUserProgram_flags_counterexample :
    rulesNoPrev.b.ProgMapCollection = none ∧ rulesNoPrev.b.PrevMapNamePath = "" ∧
    (StartUserProgram goodEnv "eth0" "ingress" true rulesNoPrev).2.w.trace =
      [.assertExecutable "/var/l3afd/ipfix/v1/ipfix/ipfix_start",
       .writeFile "/var/l3afd/ipfix/v1/ipfix/ingress/rules.json" "allow all",
       .exec "/var/l3afd/ipfix/v1/ipfix/ipfix_start"
         ["--iface=eth0", "--direction=ingress", "--log-dir=/var/log/l3af",
          "--rules-file=/var/l3afd/ipfix/v1/ipfix/ingress/rules.json",
          "--collector_ip=127.0.0.1", "--verbose=2"],
       .setPrLimits] ∧
    rulesInst.b.Program.RulesFile = "rules.json" ∧ rulesInst.b.Program.Rules = "allow all" ∧
    (StartUserProgram readOnlyEnv "eth0" "ingress" true rulesInst).1 = .ok () ∧
    (StartUserProgram readOnlyEnv "eth0" "ingress" true rulesInst).2.w.trace =
      [.assertExecutable "/var/l3afd/ipfix/v1/ipfix/ipfix_start",
       .writeFile "/var/l3afd/ipfix/v1/ipfix/ingress/rules.json" "allow all",
       .exec "/var/l3afd/ipfix/v1/ipfix/ipfix_start"
         ["--iface=eth0", "--direction=ingress", "--map-name=/sys/fs/bpf/eth0/root_map",
          "--log-dir=/var/log/l3af", "--collector_ip=127.0.0.1", "--verbose=2"],
       .setPrLimits] := by
  decide

/-- Claim C24, instance. The program `ipfix` with all three optional flags:
the rules are written before the command is started. -/
theorem StartUserProgram_flags_witness :
    ∃ tail,
      newEvents rulesInst.w (StartUserProgram goodEnv "eth0" "ingress" true rulesInst).2.w =
        .assertExecutable "/var/l3afd/ipfix/v1/ipfix/ipfix_start" ::
          ([.writeFile "/var/l3afd/ipfix/v1/ipfix/ingress/rules.json" "allow all"] ++
            .exec "/var/l3afd/ipfix/v1/ipfix/ipfix_start"
              (["--iface=eth0", "--direction=ingress"] ++
                ["--map-name=/sys/fs/bpf/eth0/root_map", "--log-dir=/var/log/l3af",
                 "--rules-file=/var/l3afd/ipfix/v1/ipfix/ingress/rules.json"] ++
                ["--collector_ip=127.0.0.1", "--verbose=2"]) :: tail) ∧
      (tail = [] ∨ tail = [.wait "/var/l3afd/ipfix/v1/ipfix/ipfix_start"] ∨
        tail = [.setPrLimits]) :=
  StartUserProgram_flags goodEnv "eth0" "ingress" true rulesInst
    [("collector_ip", "127.0.0.1"), ("verbose", "2")] (by decide) (by decide) (by decide)
    (by decide) (by decide) (by decide)

/-! ### The keys of the metric records -/

theorem decVal_append (xs : List Char) (c : Char) :
    decVal (xs ++ [c]) = 10 * decVal xs + (c.toNat - 48) := by
  simp [decVal, List.foldl_append]

/-- The digits of a number stand for that number. -/
theorem decVal_decDigits (fuel : Nat) : ∀ n, n < fuel → decVal (decDigits fuel n) = n := by
  induction fuel with
  | zero =>
    intro n h
    omega
  | succ fuel ih =>
    intro n h
    rw [decDigits]
    by_cases h10 : n < 10
    · rw [if_pos h10]
      simp only [decVal, List.foldl_cons, List.foldl_nil, Nat.mul_zero, Nat.zero_add]
      rw [toNat_ofNat_small (48 + n) (by omega)]
      omega
    · rw [if_neg h10, decVal_append, ih (n / 10) (by omega),
        toNat_ofNat_small (48 + n % 10) (by omega)]
      omega

/-- The digits of a number are digits: none of them is the minus sign. -/
theorem decDigits_no_minus (fuel : Nat) : ∀ n, '-' ∉ decDigits fuel n := by
  induction fuel with
  | zero =>
    intro n
    simp [decDigits]
  | succ fuel ih =>
    intro n
    rw [decDigits]
    have hne : ∀ m, m < 10 → '-' ≠ Char.ofNat (48 + m) := by
      intro m hm h
      have h2 := congrArg Char.toNat h
      rw [toNat_ofNat_small (48 + m) (by omega)] at h2
      have h3 : '-'.toNat = 45 := by decide
      omega
    by_cases h10 : n < 10
    · rw [if_pos h10]
      simp only [List.mem_singleton]
      exact hne n h10
    · rw [if_neg h10]
      simp only [List.mem_append, List.mem_singleton, not_or]
      exact ⟨ih _, hne (n % 10) (by omega)⟩

theorem decDigits_ne_nil (fuel n : Nat) : decDigits (fuel + 1) n ≠ [] := by
  rw [decDigits]
  split <;> simp

/-- Two numbers with the same rendering by `strconv.Itoa` are equal. -/
theorem Itoa_injective (i j : Int) (h : Itoa i = Itoa j) : i = j := by
  have hd := congrArg String.data h
  cases i with
  | ofNat n =>
    cases j with
    | ofNat m =>
      simp only [Itoa] at hd
      have h1 := decVal_decDigits (n + 1) n (by omega)
      have h2 := decVal_decDigits (m + 1) m (by omega)
      rw [hd, h2] at h1
      rw [h1]
    | negSucc m =>
      exfalso
      simp only [Itoa] at hd
      have := decDigits_no_minus (n + 1) n
      rw [hd] at this
      simp at this
  | negSucc n =>
    cases j with
    | ofNat m =>
      exfalso
      simp only [Itoa] at hd
      have := decDigits_no_minus (m + 1) m
      rw [← hd] at this
      simp at this
    | negSucc m =>
      simp only [Itoa, List.cons.injEq, true_and] at hd
      have h1 := decVal_decDigits (n + 2) (n + 1) (by omega)
      have h2 := decVal_decDigits (m + 2) (m + 1) (by omega)
      rw [hd, h2] at h1
      have : n = m := by omega
      rw [this]

/-- Two declarations that differ in one of name, key and aggregator only
have different keys of `MetricsBpfMaps`. -/
theorem metricKey_one_differs (m1 m2 : MonitorMap) (h : metricKey m1 = metricKey m2)
    (hsame : (m1.Name = m2.Name ∧ m1.Aggregator = m2.Aggregator) ∨
      (m1.Name = m2.Name ∧ m1.Key = m2.Key) ∨ (m1.Key = m2.Key ∧ m1.Aggregator = m2.Aggregator)) :
    m1 = m2 := by
  obtain ⟨n1, k1, a1⟩ := m1
  obtain ⟨n2, k2, a2⟩ := m2
  have hd := congrArg String.data h
  simp only [metricKey, String.data_append] at hd
  simp only at hsame
  rcases hsame with ⟨hn, ha⟩ | ⟨hn, hk⟩ | ⟨hk, ha⟩
  · subst hn ha
    simp only [List.append_assoc, List.append_cancel_left_eq, List.append_cancel_right_eq] at hd
    have : Itoa k1 = Itoa k2 := String.ext hd
    rw [Itoa_injective k1 k2 this]
  · subst hn hk
    simp only [List.append_assoc, List.append_cancel_left_eq] at hd
    have : a1 = a2 := String.ext hd
    rw [this]
  · subst hk ha
    simp only [List.append_cancel_right_eq] at hd
    have : n1 = n2 := String.ext hd
    rw [this]

theorem mapGet_cons {α : Type} (a : String) (x : α) (m : List (String × α)) (k : String) :
    mapGet ((a, x) :: m) k = if a = k then some x else mapGet m k := by
  unfold mapGet
  by_cases h : a = k <;> simp [List.find?_cons, h]

theorem mapGet_append_absent {α : Type} (m : List (String × α)) (k k2 : String) (v : α)
    (h : mapGet m k = none) :
    mapGet (m ++ [(k, v)]) k2 = if k = k2 then some v else mapGet m k2 := by
  induction m with
  | nil =>
    rw [List.nil_append, mapGet_cons]
  | cons p rest ih =>
    obtain ⟨a, x⟩ := p
    rw [mapGet_cons] at h
    by_cases ha : a = k
    · rw [if_pos ha] at h
      cases h
    · rw [if_neg ha] at h
      rw [List.cons_append, mapGet_cons, mapGet_cons, ih h]
      by_cases h2 : a = k2
      · have : ¬ k = k2 := fun hk => ha (h2.trans hk.symm)
        simp [h2, this]
      · simp [h2]

theorem mapSet_absent {α : Type} (m : List (String × α)) (k : String) (v : α)
    (h : mapGet m k = none) : mapSet m k v = m ++ [(k, v)] := by
  unfold mapGet at h
  unfold mapSet
  cases hf : m.find? (fun p => p.1 = k) with
  | none => simp
  | some p =>
    rw [hf] at h
    cases h

/-- A successful `AddMetricsBPFMap` stores the record of the declaration
under the key of the declaration and changes nothing else. -/
theorem AddMetricsBPFMap_ok (b b2 : BPF) (mapName aggregator : String) (key : Int) (n : Nat)
    (h : AddMetricsBPFMap b mapName aggregator key n = (.ok (), b2)) :
    ∃ r : MetricsBPFMap,
      declOf r = { Name := mapName, Key := key, Aggregator := aggregator } ∧ r.Values = n ∧
      GetBPFMap b mapName = .ok r.toBPFMap ∧
      b2.MetricsBpfMaps = mapSet b.MetricsBpfMaps
        (metricKey { Name := mapName, Key := key, Aggregator := aggregator }) r ∧
      b2 = { b with MetricsBpfMaps := b2.MetricsBpfMaps } := by
  unfold AddMetricsBPFMap at h
  cases hg : GetBPFMap b mapName with
  | error e =>
    rw [hg] at h
    cases h
  | ok bpfMap =>
    rw [hg] at h
    simp only [Prod.mk.injEq, true_and] at h
    subst h
    refine ⟨{ toBPFMap := bpfMap, key := key, aggregator := aggregator, Values := n }, ?_, rfl,
      rfl, rfl, rfl⟩
    have hname : bpfMap.Name = mapName := by
      unfold GetBPFMap at hg
      repeat' split at hg
      all_goals cases hg <;> rfl
    simp [declOf, hname]

/-- The loop of `MonitorMaps`, run on records that are each stored under
their own key: for every declaration, in order, it publishes under the name
of the declaration the record found under the key of the declaration, a
record of a declaration with that same key; all records remain stored under
their own keys. -/
theorem monitorLoop_spec (n : Nat) (ms : List MonitorMap) :
    ∀ (b b2 : BPF) (out res : List (String × MetricsBPFMap)),
      OwnKeys b.MetricsBpfMaps → monitorLoop n ms b out = (.ok res, b2) →
      OwnKeys b2.MetricsBpfMaps ∧
      (∀ k r, mapGet b.MetricsBpfMaps k = some r → mapGet b2.MetricsBpfMaps k = some r) ∧
      ∃ recs, res = out ++ recs ∧
        List.Forall₂ (fun m p => p.1 = metricName m ∧
          mapGet b2.MetricsBpfMaps (metricKey m) = some p.2 ∧
          metricKey (declOf p.2) = metricKey m) ms recs := by
  induction ms with
  | nil =>
    intro b b2 out res hown h
    simp only [monitorLoop, Prod.mk.injEq, Except.ok.injEq] at h
    obtain ⟨h1, h2⟩ := h
    subst h1 h2
    exact ⟨hown, fun _ _ h => h, [], by simp, List.Forall₂.nil⟩
  | cons m rest ih =>
    intro b b2 out res hown h
    rw [monitorLoop] at h
    simp only at h
    -- the state after the record of `m` is in place
    have hstep : ∃ b1 r, OwnKeys b1.MetricsBpfMaps ∧
        (∀ k r, mapGet b.MetricsBpfMaps k = some r → mapGet b1.MetricsBpfMaps k = some r) ∧
        mapGet b1.MetricsBpfMaps (metricKey m) = some r ∧
        monitorLoop n rest b1 (out ++ [(metricName m, r)]) = (.ok res, b2) := by
      cases hg : mapGet b.MetricsBpfMaps (m.Name ++ Itoa m.Key ++ m.Aggregator) with
      | some r =>
        rw [hg] at h
        simp only at h
        rw [hg] at h
        exact ⟨b, r, hown, fun _ _ h => h, hg, h⟩
      | none =>
        rw [hg] at h
        simp only at h
        rcases ha : AddMetricsBPFMap b m.Name m.Aggregator m.Key n with ⟨ra, b1⟩
        rw [ha] at h
        cases ra with
        | error e => simp at h
        | ok u =>
          obtain ⟨r, hr1, _, _, hb1, _⟩ :=
            AddMetricsBPFMap_ok b b1 m.Name m.Aggregator m.Key n ha
          have hkey : metricKey { Name := m.Name, Key := m.Key, Aggregator := m.Aggregator } =
              m.Name ++ Itoa m.Key ++ m.Aggregator := rfl
          rw [hkey, mapSet_absent _ _ _ hg] at hb1
          have hget : ∀ k2, mapGet b1.MetricsBpfMaps k2 =
              if m.Name ++ Itoa m.Key ++ m.Aggregator = k2 then some r
              else mapGet b.MetricsBpfMaps k2 := by
            intro k2
            rw [hb1]
            exact mapGet_append_absent _ _ _ _ hg
          have hself : mapGet b1.MetricsBpfMaps (m.Name ++ Itoa m.Key ++ m.Aggregator) =
              some r := by
            rw [hget]
            simp
          simp only at h
          rw [hself] at h
          refine ⟨b1, r, ?_, ?_, hself, h⟩
          · intro k2 r2 h2
            rw [hget] at h2
            by_cases hk : m.Name ++ Itoa m.Key ++ m.Aggregator = k2
            · rw [if_pos hk] at h2
              injection h2 with h2
              subst h2
              rw [hr1, ← hk]
              rfl
            · rw [if_neg hk] at h2
              exact hown k2 r2 h2
          · intro k2 r2 h2
            rw [hget]
            by_cases hk : m.Name ++ Itoa m.Key ++ m.Aggregator = k2
            · rw [← hk, hg] at h2
              cases h2
            · rw [if_neg hk]
              exact h2
    obtain ⟨b1, r, hown1, hkeep1, hget1, hrest⟩ := hstep
    obtain ⟨hown2, hkeep2, recs, hres, hall⟩ := ih b1 b2 _ res hown1 hrest
    refine ⟨hown2, fun k r h => hkeep2 k r (hkeep1 k r h), (metricName m, r) :: recs,
      by rw [hres]; simp, List.Forall₂.cons ⟨rfl, hkeep2 _ _ hget1, ?_⟩ hall⟩
    exact (hown1 _ _ hget1).symm

theorem mapGet_map_set {α : Type} (m : List (String × α)) (k : String) (v : α)
    (h : (m.find? (fun p => p.1 = k)).isSome = true) :
    mapGet (m.map (fun p => if p.1 = k then (k, v) else p)) k = some v := by
  induction m with
  | nil => simp at h
  | cons p rest ih =>
    obtain ⟨a, x⟩ := p
    by_cases ha : a = k
    · simp [mapGet, List.find?_cons, ha]
    · have h2 : (rest.find? (fun p => p.1 = k)).isSome = true := by
        simpa [List.find?_cons, ha] using h
      have := ih h2
      rw [List.map_cons]
      simp only [ha, if_false]
      rw [mapGet_cons, if_neg ha]
      exact this

/-- After `m[k] = v` the lookup of `k` gives `v`. -/
theorem mapGet_mapSet_self {α : Type} (m : List (String × α)) (k : String) (v : α) :
    mapGet (mapSet m k v) k = some v := by
  unfold mapSet
  by_cases h : (m.find? (fun p => p.1 = k)).isSome = true
  · rw [if_pos h]
    exact mapGet_map_set m k v h
  · rw [if_neg h]
    have hnone : mapGet m k = none := by
      unfold mapGet
      cases hf : m.find? (fun p => p.1 = k) with
      | none => rfl
      | some p =>
        rw [hf] at h
        simp at h
    rw [mapGet_append_absent m k k v hnone]
    simp

/-- Claim C26, amended. `AddMetricsBPFMap` stores the record of a declaration
under the string made of its map name, its key in decimal and its
aggregator, whatever was stored there. `MonitorMaps`, run on records that are
each stored under the string of their own declaration, publishes for every
declaration, in order and under its metric name, the record found under the
string of that declaration, which is a record of a declaration with that
same string. Two declarations that differ in one of map name, key and
aggregator only have different strings. -/
theorem MetricsBpfMaps_keys :
    (∀ (b b2 : BPF) (mapName aggregator : String) (key : Int) (n : Nat),
      AddMetricsBPFMap b mapName aggregator key n = (.ok (), b2) →
      ∃ r : MetricsBPFMap,
        declOf r = { Name := mapName, Key := key, Aggregator := aggregator } ∧
        mapGet b2.MetricsBpfMaps
          (metricKey { Name := mapName, Key := key, Aggregator := aggregator }) = some r) ∧
    (∀ (b b2 : BPF) (n : Nat) (res : List (String × MetricsBPFMap)),
      OwnKeys b.MetricsBpfMaps → MonitorMaps b n = (.ok res, b2) →
      OwnKeys b2.MetricsBpfMaps ∧
      List.Forall₂ (fun m p => p.1 = metricName m ∧
        mapGet b2.MetricsBpfMaps (metricKey m) = some p.2 ∧
        metricKey (declOf p.2) = metricKey m) b.Program.MonitorMaps res) ∧
    (∀ m1 m2 : MonitorMap, m1 ≠ m2 →
      ((m1.Name = m2.Name ∧ m1.Aggregator = m2.Aggregator) ∨
        (m1.Name = m2.Name ∧ m1.Key = m2.Key) ∨
        (m1.Key = m2.Key ∧ m1.Aggregator = m2.Aggregator)) →
      metricKey m1 ≠ metricKey m2) := by
  refine ⟨?_, ?_, ?_⟩
  · intro b b2 mapName aggregator key n h
    obtain ⟨r, h1, _, _, h4, _⟩ := AddMetricsBPFMap_ok b b2 mapName aggregator key n h
    refine ⟨r, h1, ?_⟩
    rw [h4]
    exact mapGet_mapSet_self _ _ _
  · intro b b2 n res hown h
    obtain ⟨h1, _, recs, h3, h4⟩ := monitorLoop_spec n b.Program.MonitorMaps b b2 [] res hown h
    rw [List.nil_append] at h3
    rw [h3]
    exact ⟨h1, h4⟩
  · intro m1 m2 hne hsame h
    exact hne (metricKey_one_differs m1 m2 h hsame)

/-- Claim C26, counterexample. The declarations of key 12 of `ctr` and of key
2 of `ctr1` differ in map name and key and both have the string `ctr12max`.
Adding the second overwrites the record of the first, and `MonitorMaps`
publishes the record of key 12 of `ctr` for both. -/
theorem MetricsBpfMaps_collision_counterexample :
    metricKey { Name := "ctr", Key := 12, Aggregator := "max" } = "ctr12max" ∧
    metricKey { Name := "ctr1", Key := 2, Aggregator := "max" } = "ctr12max" ∧
    (AddMetricsBPFMap (AddMetricsBPFMap ctrInst.b "ctr" "max" 12 5).2
      "ctr1" "max" 2 5).2.MetricsBpfMaps =
      [("ctr12max", { toBPFMap := { Name := "ctr1", MapID := 25, MapType := 2 },
                      key := 2, aggregator := "max", Values := 5 })] ∧
    ctrInst.b.Program.MonitorMaps =
      [{ Name := "ctr", Key := 12, Aggregator := "max" },
       { Name := "ctr1", Key := 2, Aggregator := "max" }] ∧
    (MonitorMaps ctrInst.b 5).1 =
      .ok [("ctr_12_max", { toBPFMap := { Name := "ctr", MapID := 23, MapType := 2 },
                            key := 12, aggregator := "max", Values := 5 }),
           ("ctr1_2_max", { toBPFMap := { Name := "ctr", MapID := 23, MapType := 2 },
                            key := 12, aggregator := "max", Values := 5 })] ∧
    (MonitorMaps ctrInst.b 5).2.MetricsBpfMaps =
      [("ctr12max", { toBPFMap := { Name := "ctr", MapID := 23, MapType := 2 },
                      key := 12, aggregator := "max", Values := 5 })] := by
  decide

/-- Claim C26, instance. The declarations of the keys 1 and 2 of `ctr` differ
in the key only: they have different strings and each gets its own
record. -/
theorem MetricsBpfMaps_keys_witness :
    metricKey { Name := "ctr", Key := 1, Aggregator := "max" } ≠
      metricKey { Name := "ctr", Key := 2, Aggregator := "max" } ∧
    (MonitorMaps ctrKeysInst.b 5).2.MetricsBpfMaps =
      [("ctr1max", { toBPFMap := { Name := "ctr", MapID := 23, MapType := 2 },
                     key := 1, aggregator := "max", Values := 5 }),
       ("ctr2max", { toBPFMap := { Name := "ctr", MapID := 23, MapType := 2 },
                     key := 2, aggregator := "max", Values := 5 })] ∧
    OwnKeys (MonitorMaps ctrKeysInst.b 5).2.MetricsBpfMaps :=
  ⟨MetricsBpfMaps_keys.2.2 _ _ (by decide) (Or.inl ⟨rfl, rfl⟩), by decide,
   (MetricsBpfMaps_keys.2.1 ctrKeysInst.b (MonitorMaps ctrKeysInst.b 5).2 5
     [("ctr_1_max", { toBPFMap := { Name := "ctr", MapID := 23, MapType := 2 },
                      key := 1, aggregator := "max", Values := 5 }),
      ("ctr_2_max", { toBPFMap := { Name := "ctr", MapID := 23, MapType := 2 },
                      key := 2, aggregator := "max", Values := 5 })]
     (by intro k r h; simp [ctrKeysInst, ctrInst, fooXdp, mapGet] at h) (by decide)).1⟩

/-! ### Searching a sorted list -/

theorem searchLoop_sound (names : List String) (target : String) (fuel : Nat) :
    ∀ left right : Int, searchLoop names target fuel left right = true → target ∈ names := by
  induction fuel with
  | zero => intro left right h; simp [searchLoop] at h
  | succ fuel ih =>
    intro left right h
    unfold searchLoop at h
    split at h
    · simp only at h
      split at h
      · exact absurd h (by simp)
      · rename_i name hname
        split at h
        · rename_i heq
          subst heq
          exact List.getElem?_mem hname
        · split at h
          · exact ih _ _ h
          · exact ih _ _ h
    · exact absurd h (by simp)

theorem searchLoop_complete (names : List String) (target : String) (hasc : Ascending names)
    (i : Nat) (hi : names[i]? = some target) (fuel : Nat) :
    ∀ left right : Int, 0 ≤ left → left ≤ i → (i : Int) ≤ right → right < names.length →
      right + 1 - left ≤ fuel → searchLoop names target fuel left right = true := by
  have hilt : i < names.length := by
    by_contra hcon
    rw [List.getElem?_eq_none (by omega)] at hi
    exact absurd hi (by simp)
  have hiv : names[i] = target := by
    rw [List.getElem?_eq_getElem hilt] at hi
    exact Option.some.inj hi
  have hpair := List.pairwise_iff_getElem.mp hasc
  induction fuel with
  | zero => intro left right h0 h1 h2 h3 h4; omega
  | succ fuel ih =>
    intro left right h0 h1 h2 h3 h4
    unfold searchLoop
    have hlr : left ≤ right := by omega
    rw [if_pos hlr]
    simp only
    have hm0 : 0 ≤ (left + right) / 2 := by omega
    have hmlt : ((left + right) / 2).toNat < names.length := by omega
    rw [List.getElem?_eq_getElem hmlt]
    simp only
    by_cases heq : names[((left + right) / 2).toNat] = target
    · rw [if_pos heq]
    · rw [if_neg heq]
      have hne : ((left + right) / 2).toNat ≠ i := by
        intro hcon
        apply heq
        rw [← hiv]
        congr 1
      by_cases hlt : (names[((left + right) / 2).toNat]).data < target.data
      · rw [if_pos hlt]
        have hmi : ((left + right) / 2).toNat < i := by
          by_contra hcon
          have hlt2 : i < ((left + right) / 2).toNat := by omega
          have := hpair i _ hilt hmlt hlt2
          rw [hiv] at this
          exact this hlt
        exact ih _ _ (by omega) (by omega) h2 h3 (by omega)
      · rw [if_neg hlt]
        have him : i < ((left + right) / 2).toNat := by
          by_contra hcon
          have hlt2 : ((left + right) / 2).toNat < i := by omega
          have := hpair _ i hmlt hilt hlt2
          rw [hiv] at this
          have hd : (names[((left + right) / 2).toNat]).data ≠ target.data := by
            intro hcon2
            exact heq (String.ext hcon2)
          rcases lt_trichotomy (names[((left + right) / 2).toNat]).data target.data with h | h | h
          · exact hlt h
          · exact hd h
          · exact this h
        exact ih _ _ h0 h1 (by omega) (by omega) (by omega)

/-- Claim C23. On a list of strings sorted in ascending order `BinarySearch`
answers true exactly when the target is an element of the list. -/
theorem BinarySearch_iff_mem (names : List String) (target : String)
    (hasc : Ascending names) :
    BinarySearch names target = true ↔ target ∈ names := by
  constructor
  · intro h
    exact searchLoop_sound names target _ _ _ h
  · intro h
    obtain ⟨i, hilt, hi⟩ := List.getElem_of_mem h
    have hi2 : names[i]? = some target := by
      rw [List.getElem?_eq_getElem hilt, hi]
    unfold BinarySearch
    exact searchLoop_complete names target hasc i hi2 _ 0 _ (le_refl 0) (by omega) (by omega)
      (by omega) (by omega)

/-- Claim C23, instance. The two cases of the test `Test_BinarySearch`: the
list of the test is sorted, `ratelimiting` is found in it and `zsdf` is
not. -/
theorem BinarySearch_iff_mem_witness :
    Ascending testNames ∧
    (BinarySearch testNames "ratelimiting" = true ↔ "ratelimiting" ∈ testNames) ∧
    BinarySearch testNames "ratelimiting" = true ∧
    BinarySearch testNames "zsdf" = false :=
  ⟨by decide, BinarySearch_iff_mem testNames "ratelimiting" (by decide), by decide, by decide⟩

end L3afd
